import Mathlib

/-!
# myui-runtime: the AAIM interpreter

A shallow embedding of `src/aaim-interpreter.js` (class `AAIMInterpreter`).

* JavaScript values are the data values an interaction model is made of:
  `undefined`, `null`, booleans, numbers (integers here), strings, plain
  objects and arrays.  Objects and arrays carry a reference number, so that
  two structurally equal objects with different references are different
  objects, as in JavaScript.
* A method is a function from the state before the call to the state after
  it together with the completion of the call: a returned value or a raised
  error.  The state after a raising call is kept, since the caller may catch
  the error and go on using the interpreter.
* The coordinator (`this._behavior`) is an external object.  The calls it
  receives are recorded in a trace; what it answers is given by the
  `Behavior` it was constructed from.
* A `then` callback registered on a promise is kept as a pending reaction
  until the promise is fulfilled (the callback runs) or rejected (the
  callback is dropped).
-/

namespace MyUI

/-! ## Values -/

/-- JavaScript data values. `ref` is the identity of an object or array. -/
inductive JSVal where
  | undefined
  | null
  | bool (b : Bool)
  | num (n : Int)
  | str (s : String)
  | obj (ref : Nat) (props : List (String × JSVal))
  | arr (ref : Nat) (elems : List JSVal)

/-- Errors a call can raise. -/
inductive JSError where
  | typeError
  | error (msg : String)
deriving DecidableEq, Repr

namespace JSVal

/-- The test `v === undefined`. -/
def isUndefined : JSVal → Bool
  | undefined => true
  | _ => false

/-- The test `v === null`. -/
def isNull : JSVal → Bool
  | null => true
  | _ => false

/-- The test `typeof v === "object"`: true of `null`, objects and arrays. -/
def typeofObject : JSVal → Bool
  | null => true
  | obj _ _ => true
  | arr _ _ => true
  | _ => false

/-- The test `typeof v === "string"`. -/
def typeofString : JSVal → Bool
  | str _ => true
  | _ => false

/-- The test `Array.isArray(v)`. -/
def isArray : JSVal → Bool
  | arr _ _ => true
  | _ => false

/-- The value of `v.length` for an array `v` (used only after `Array.isArray`). -/
def arrayLength : JSVal → Nat
  | arr _ elems => elems.length
  | _ => 0

/-- The truthiness of a value, as in `if (v)`. -/
def toBoolean : JSVal → Bool
  | undefined => false
  | null => false
  | bool b => b
  | num n => n != 0
  | str s => s != ""
  | obj _ _ => true
  | arr _ _ => true

/-- The comparison `SameValueZero`, by which a `Map` compares its keys:
primitives by value, objects and arrays by reference. -/
def sameValueZero : JSVal → JSVal → Bool
  | undefined, undefined => true
  | null, null => true
  | bool a, bool b => a == b
  | num a, num b => a == b
  | str a, str b => a == b
  | obj r _, obj s _ => r == s
  | arr r _, arr s _ => r == s
  | _, _ => false

/-- The property read `v.key` for one of the property names the interpreter
reads (`states`, `initial`, `name`, `events`, `on`, `goto`, `do`): a
`TypeError` on `undefined` and `null`, the stored value on an object that has
the property, and `undefined` otherwise (none of these names is defined on a
primitive, an array or `Object.prototype`). -/
def getProp (v : JSVal) (key : String) : Except JSError JSVal :=
  match v with
  | undefined => .error .typeError
  | null => .error .typeError
  | obj _ props =>
    match props.find? (fun p => p.1 == key) with
    | some p => .ok p.2
    | none => .ok undefined
  | _ => .ok undefined

/-- The values `for (let e of v)` iterates over: the elements of an array, the
characters of a string; any other value is not iterable and raises a
`TypeError`. -/
def iterate : JSVal → Except JSError (List JSVal)
  | arr _ elems => .ok elems
  | str s => .ok (s.toList.map (fun c => str (String.singleton c)))
  | _ => .error .typeError

end JSVal

/-! ## The `Map` of states by name -/

/-- A JavaScript `Map`, as its entries in insertion order. -/
abbrev JSMap := List (JSVal × JSVal)

namespace JSMap

/-- The test `m.has(k)`. -/
def has (m : JSMap) (k : JSVal) : Bool :=
  m.any (fun e => JSVal.sameValueZero e.1 k)

/-- The read `m.get(k)`: `undefined` when there is no entry for `k`. -/
def get (m : JSMap) (k : JSVal) : JSVal :=
  match m.find? (fun e => JSVal.sameValueZero e.1 k) with
  | some e => e.2
  | none => JSVal.undefined

/-- The write `m.set(k, v)`: an existing entry for `k` gets the new value and
keeps its place, otherwise the entry is added at the end. -/
def set : JSMap → JSVal → JSVal → JSMap
  | [], k, v => [(k, v)]
  | e :: rest, k, v =>
    if JSVal.sameValueZero e.1 k then (e.1, v) :: rest else e :: set rest k v

end JSMap

/-! ## The coordinator, seen from the interpreter -/

/-- A call the interpreter makes on the coordinator. -/
inductive Call where
  | executeTransition (config : JSVal)
  | executeState (config : JSVal)

/-- One entry of the trace: the call, and the value of `this._currentState`
at the moment the call is made. -/
structure CallRecord where
  call : Call
  state : JSVal

/-- What the coordinator answers. Each answer may depend on the calls received
before. `executeState` returns or raises; `executeTransition` raises, or
returns a promise (`some p`, with `p` the identity of the promise), or returns
a value that has no `then` method (`none`). -/
structure Behavior where
  executeState : List CallRecord → JSVal → Except JSError Unit
  executeTransition : List CallRecord → JSVal → Except JSError (Option Nat)

/-- A `then` callback of `_performTransition` waiting on promise `promise`;
when run it calls `this._behavior.executeState(target.do)`. -/
structure Reaction where
  promise : Nat
  target : JSVal

/-! ## The interpreter -/

/-- The fields of an `AAIMInterpreter` object. `_loadedStates` is `none` while
the field is `undefined`. -/
structure AAIMInterpreter where
  _behavior : Option Behavior
  _running : Bool
  _currentAAIM : JSVal
  _currentState : JSVal
  _loadedStates : Option JSMap

/-- An interpreter together with the trace of calls made on its coordinator
(oldest first) and the callbacks registered on promises and not yet run. -/
structure World where
  self : AAIMInterpreter
  calls : List CallRecord
  reactions : List Reaction

/-- The completion of a call together with the state it leaves. -/
abbrev Outcome (α : Type) := World × Except JSError α

/-- The expression `new AAIMInterpreter(behavior)`. -/
def World.new (behavior : Option Behavior) : World :=
  { self :=
      { _behavior := behavior
        _running := false
        _currentAAIM := JSVal.undefined
        _currentState := JSVal.undefined
        _loadedStates := none }
    calls := []
    reactions := [] }

/-- The getter `running`. -/
def World.running (w : World) : Bool := w.self._running

/-- The getter `aaim`. -/
def World.aaim (w : World) : JSVal := w.self._currentAAIM

/-- The getter `state`. -/
def World.state (w : World) : JSVal := w.self._currentState

/-- The method `_performTransition(target, config)`. -/
def _performTransition (w : World) (target config : JSVal) : Outcome Unit :=
  let w1 : World := { w with self := { w.self with _currentState := target } }
  match config.toBoolean, w1.self._behavior with
  | true, some b =>
    let w2 : World :=
      { w1 with calls := w1.calls ++ [⟨Call.executeTransition config, w1.self._currentState⟩] }
    match b.executeTransition w1.calls config with
    | .error e => (w2, .error e)
    | .ok none => (w2, .error JSError.typeError)
    | .ok (some p) => ({ w2 with reactions := w2.reactions ++ [⟨p, target⟩] }, .ok ())
  | _, some b =>
    match target.getProp "do" with
    | .error e => (w1, .error e)
    | .ok d =>
      let w2 : World :=
        { w1 with calls := w1.calls ++ [⟨Call.executeState d, w1.self._currentState⟩] }
      match b.executeState w1.calls d with
      | .error e => (w2, .error e)
      | .ok _ => (w2, .ok ())
  | _, none => (w1, .ok ())

/-- The setter `running = run`. -/
def setRunning (w : World) (run : JSVal) : Outcome Unit :=
  if run.toBoolean && !w.self._running && !w.self._currentAAIM.isUndefined then
    let w1 : World := { w with self := { w.self with _running := true } }
    if w1.self._currentState.isUndefined then
      match w1.self._currentAAIM.getProp "initial" with
      | .error e => (w1, .error e)
      | .ok initial =>
        if initial.typeofString then
          match w1.self._loadedStates with
          | none => (w1, .error JSError.typeError)
          | some m =>
            if m.has initial then
              _performTransition w1 (m.get initial) JSVal.undefined
            else
              ({ w1 with self := { w1.self with _running := false } }, .ok ())
        else
          ({ w1 with self := { w1.self with _running := false } }, .ok ())
    else
      (w1, .ok ())
  else
    ({ w with self := { w.self with _running := false } }, .ok ())

/-- The loop of `load`: `for (let s of states) this._loadedStates.set(s.name, s)`,
run on the map built so far. Reading `s.name` may raise; the entries set before
remain. -/
def loadLoop : JSMap → List JSVal → JSMap × Except JSError Unit
  | m, [] => (m, .ok ())
  | m, s :: rest =>
    match s.getProp "name" with
    | .error e => (m, .error e)
    | .ok name => loadLoop (m.set name s) rest

/-- The method `load(aaim)`. -/
def load (w : World) (aaim : JSVal) : Outcome Bool :=
  if !w.self._running then
    if aaim.typeofObject && !aaim.isNull then
      match aaim.getProp "states" with
      | .error e => (w, .error e)
      | .ok states =>
        if states.isArray && decide (states.arrayLength > 0) then
          match states.iterate with
          | .error e =>
            ({ w with self := { w.self with _currentAAIM := aaim, _loadedStates := some [] } },
              .error e)
          | .ok elems =>
            let r := loadLoop [] elems
            let w1 : World :=
              { w with self := { w.self with _currentAAIM := aaim, _loadedStates := some r.1 } }
            match r.2 with
            | .error e => (w1, .error e)
            | .ok _ => (w1, .ok true)
        else (w, .ok false)
    else (w, .ok false)
  else (w, .ok false)

/-- The method `reset()`. -/
def reset (w : World) : Outcome Unit :=
  if !w.self._running then
    ({ w with self := { w.self with _currentState := JSVal.undefined } }, .ok ())
  else (w, .ok ())

/-- The loop of `executeEvent`: the events not yet visited are scanned in
order; the first one with `e.on == name` whose `goto` is a key of the index is
taken, and the scan stops there. `looseEq` is the operator `==`. -/
def executeEventLoop (looseEq : JSVal → JSVal → Bool) (w : World) (name : JSVal) :
    List JSVal → Outcome Unit
  | [] => (w, .ok ())
  | e :: rest =>
    match e.getProp "on" with
    | .error err => (w, .error err)
    | .ok trigger =>
      if looseEq trigger name then
        match w.self._loadedStates with
        | none => (w, .error JSError.typeError)
        | some m =>
          match e.getProp "goto" with
          | .error err => (w, .error err)
          | .ok goto =>
            if m.has goto then
              match e.getProp "do" with
              | .error err => (w, .error err)
              | .ok d => _performTransition w (m.get goto) d
            else executeEventLoop looseEq w name rest
      else executeEventLoop looseEq w name rest

/-- The method `executeEvent(name)`. `looseEq` is the operator `==` of the
language, which the method uses to compare `e.on` with `name`. -/
def executeEvent (looseEq : JSVal → JSVal → Bool) (w : World) (name : JSVal) : Outcome Unit :=
  if w.self._running then
    match w.self._currentState.getProp "events" with
    | .error err => (w, .error err)
    | .ok events =>
      match events.iterate with
      | .error err => (w, .error err)
      | .ok es => executeEventLoop looseEq w name es
  else (w, .ok ())

/-! ## Promises settling -/

/-- The callback `function() { this._behavior.executeState(target.do); }` that
`_performTransition` hands to `then`, run for the reaction `r`. An error raised
inside it rejects the promise `then` returned and reaches nobody. -/
def runReaction (w : World) (r : Reaction) : World :=
  match w.self._behavior with
  | none => w
  | some _ =>
    match r.target.getProp "do" with
    | .error _ => w
    | .ok d => { w with calls := w.calls ++ [⟨Call.executeState d, w.self._currentState⟩] }

/-- Promise `p` is fulfilled: the callbacks registered on it run in the order
of their registration and are no longer pending. -/
def promiseFulfilled (w : World) (p : Nat) : World :=
  (w.reactions.filter (fun r => r.promise == p)).foldl runReaction
    { w with reactions := w.reactions.filter (fun r => r.promise != p) }

/-- Promise `p` is rejected: the callbacks registered on it with `then` are
dropped without being run. -/
def promiseRejected (w : World) (p : Nat) : World :=
  { w with reactions := w.reactions.filter (fun r => r.promise != p) }

/-! ## The coordinator: `src/aaim-behavior.js`

A promise made by the coordinator is modelled by what running it to its end
does: how it settles, and which service methods are executed on the way, in
order.  The part of a method that runs before it returns is a plain function
that returns or raises; service methods are executed only inside `then`
callbacks, that is, only when a promise is run.  Chains that JavaScript runs
side by side (the entries of `Promise.all`) are run one after the other, in
the order of the list. -/

/-- How a promise ends. -/
inductive Settled (α : Type) where
  | fulfilled (value : α)
  | rejected (reason : JSError)

/-- One call `service.execute(method, ...args)`; `service` is the reference of
the service object. -/
structure Execution where
  service : Nat
  method : String
  args : List JSVal

/-- A service object, as far as the coordinator uses it. `provides` and
`execute` are `none` when the object has no such method. `execute` raises, or
returns a promise (or a plain value) that settles as given; its answer depends
on the method name and the arguments only. -/
structure Service where
  ref : Nat
  provides : Option (String → Bool)
  execute : Option (String → List JSVal → Except JSError (Settled JSVal))

/-- The `Map` of services by name, as its entries in insertion order. -/
abbrev Registry := List (JSVal × Service)

namespace Registry

/-- The test `services.has(k)`. -/
def has (m : Registry) (k : JSVal) : Bool :=
  m.any (fun e => JSVal.sameValueZero e.1 k)

/-- The read `services.get(k)`: `none` stands for `undefined`. -/
def get? (m : Registry) (k : JSVal) : Option Service :=
  match m.find? (fun e => JSVal.sameValueZero e.1 k) with
  | some e => some e.2
  | none => none

/-- The write `services.set(k, v)`. -/
def set : Registry → JSVal → Service → Registry
  | [], k, v => [(k, v)]
  | e :: rest, k, v =>
    if JSVal.sameValueZero e.1 k then (e.1, v) :: rest else e :: set rest k v

end Registry

/-- A situation factory: an object with the methods `create` and `refresh`,
both of which return. -/
structure SituationFactory where
  ref : Nat

/-- The second argument the factory is given: the array of resolved
parameters that `executeState` has made, or the value a service call has
resolved to. -/
inductive FactoryArg where
  | list (values : List JSVal)
  | value (v : JSVal)

/-- A call on the factory, with the content of the data context at the moment
of the call. -/
inductive FactoryCall where
  | create (situation : JSVal) (parameters : FactoryArg) (context : JSMap)
  | refresh (situation : JSVal) (parameters : FactoryArg) (context : JSMap)

/-- The fields of an `AAIMBehavior` object. `_factory` is `none` when the
constructor was given `null` or nothing. -/
structure AAIMBehavior where
  _factory : Option SituationFactory
  _services : Registry
  _data : JSMap
  _currentConfig : JSVal

/-- A promise: run on the coordinator as it is at that time, it settles and
has executed the listed service methods. -/
abbrev JSPromise (α : Type) := AAIMBehavior → Settled α × List Execution

namespace JSPromise

/-- The promise `Promise.resolve(v)`. -/
def resolve {α : Type} (v : α) : JSPromise α := fun _ => (.fulfilled v, [])

/-- The promise `p.then(f)`: `f` runs on the value `p` is fulfilled with, and
the promise settles as the promise `f` returns; a rejection of `p` is passed
on and `f` does not run. -/
def andThen {α β : Type} (p : JSPromise α) (f : α → JSPromise β) : JSPromise β :=
  fun b =>
    match p b with
    | (.fulfilled v, t) => ((f v b).1, t ++ (f v b).2)
    | (.rejected e, t) => (.rejected e, t)

/-- The promise `Promise.all(items)`: fulfilled with the list of values when
every item is fulfilled, rejected when one is (here: with the reason of the
first rejected item of the list); every item runs. -/
def all {α : Type} : List (JSPromise α) → JSPromise (List α)
  | [] => fun _ => (.fulfilled [], [])
  | p :: ps => fun b =>
    (match (p b).1, (all ps b).1 with
      | .fulfilled v, .fulfilled vs => .fulfilled (v :: vs)
      | .rejected e, _ => .rejected e
      | .fulfilled _, .rejected e => .rejected e,
     (p b).2 ++ (all ps b).2)

end JSPromise

/-- The coordinator together with the trace of the service methods executed
and of the calls made on the factory, oldest first. -/
structure BWorld where
  self : AAIMBehavior
  executions : List Execution
  factoryCalls : List FactoryCall

/-- The expression `new AAIMBehavior(situationFactory, defaultService)`. -/
def AAIMBehavior.new (situationFactory : Option SituationFactory)
    (defaultService : Option Service) : AAIMBehavior :=
  { _factory := situationFactory
    _services :=
      match defaultService with
      | some s => Registry.set [] (.str "") s
      | none => []
    _data := []
    _currentConfig := JSVal.undefined }

namespace JSVal

/-- The elements of an array; no elements for any other value. -/
def elems : JSVal → List JSVal
  | arr _ es => es
  | _ => []

/-- The property read `v.key` on a value that is neither `undefined` nor
`null`, where the read cannot raise: the value `getProp` gives. -/
def prop (v : JSVal) (key : String) : JSVal :=
  match v.getProp key with
  | .ok x => x
  | .error _ => undefined

/-- The conversion `ToString` of a value. -/
def toStr : JSVal → String
  | undefined => "undefined"
  | null => "null"
  | bool b => if b then "true" else "false"
  | num n => toString n
  | str s => s
  | obj _ _ => "[object Object]"
  | arr _ es => ",".intercalate (toStrs es)
where
  /-- The strings `Array.prototype.join` puts together: the empty string for
  `undefined` and `null`, `ToString` of the element otherwise. -/
  toStrs : List JSVal → List String
  | [] => []
  | e :: rest =>
    (match e with
      | undefined => ""
      | null => ""
      | _ => toStr e) :: toStrs rest

/-- The index a property key denotes on an array: the key is the decimal
writing of a number, without a sign and without leading zeros. -/
def arrayIndex (key : String) : Option Nat :=
  if key.toList.isEmpty || !key.toList.all Char.isDigit then none
  else if key.toList.head? == some '0' && decide (key.toList.length > 1) then none
  else some (key.toList.foldl (fun n c => 10 * n + (c.toNat - 48)) 0)

/-- The property read `v[key]` for any key, on the values `typeof` calls
objects: a `TypeError` on `null`, the stored value or `undefined` on an
object, the element or the length or `undefined` on an array. Inherited
methods are functions, which are no data values: they read as `undefined`
here. On the remaining values, which the coordinator never reads from, the
result is `undefined` (and a `TypeError` on `undefined`). -/
def member (v : JSVal) (key : String) : Except JSError JSVal :=
  match v with
  | undefined => .error .typeError
  | null => .error .typeError
  | obj _ props =>
    match props.find? (fun p => p.1 == key) with
    | some p => .ok p.2
    | none => .ok undefined
  | arr _ es =>
    if key == "length" then .ok (num es.length)
    else
      match arrayIndex key with
      | some i => .ok (es.getD i undefined)
      | none => .ok undefined
  | _ => .ok undefined

end JSVal

/-! ### The parameter resolver

The pattern `/\$\x7b(?:(\w+)|([\w\.]+))\x7d/` is searched in the string of the
parameter, from the left. At a position where `$\x7b` stands, the first
alternative takes the longest run of word characters and needs `\x7d` right
after it; a shorter run would be followed by a word character, so there is
nothing to gain by backtracking. If it fails, the second alternative does the
same with word characters and dots. -/

/-- A character of the class `\w`. -/
def isWordChar (c : Char) : Bool := c.isAlphanum || c == '_'

/-- A character of the class `[\w\.]`. -/
def isPathChar (c : Char) : Bool := isWordChar c || c == '.'

/-- What the pattern has captured: group 1, an identifier, or group 2, a
dotted path. -/
inductive VarRef where
  | simple (identifier : List Char)
  | path (steps : List Char)

/-- The match of the pattern that starts at the first character, if any. -/
def matchVarHere : List Char → Option VarRef
  | '$' :: '\x7b' :: rest =>
    if !(rest.takeWhile isWordChar).isEmpty
        && (rest.dropWhile isWordChar).head? == some '\x7d' then
      some (.simple (rest.takeWhile isWordChar))
    else if !(rest.takeWhile isPathChar).isEmpty
        && (rest.dropWhile isPathChar).head? == some '\x7d' then
      some (.path (rest.takeWhile isPathChar))
    else none
  | _ => none

/-- The call `varPattern.exec(...)` on the characters of a string: the
leftmost match. -/
def execVarPattern : List Char → Option VarRef
  | [] => none
  | c :: cs =>
    match matchVarHere (c :: cs) with
    | some m => some m
    | none => execVarPattern cs

/-- The call `split(".")` on the characters of a string. -/
def splitDots : List Char → List (List Char)
  | [] => [[]]
  | c :: cs =>
    if c == '.' then [] :: splitDots cs
    else
      match splitDots cs with
      | [] => [[c]]
      | step :: steps => (c :: step) :: steps

/-- The loop `for (let i=1; typeof val == "object" && i<steps.length; i++)
val = val[steps[i]]`, on the steps not yet taken. -/
def navigate : JSVal → List String → Except JSError JSVal
  | val, [] => .ok val
  | val, step :: rest =>
    if val.typeofObject then
      match val.member step with
      | .error e => .error e
      | .ok next => navigate next rest
    else .ok val

/-- The function `_resolveParameters` maps over the array, for one entry. -/
def resolveParameter (data : JSMap) (param : JSVal) : Except JSError JSVal :=
  match execVarPattern param.toStr.toList with
  | some (.simple identifier) => .ok (data.get (.str (String.mk identifier)))
  | some (.path steps) =>
    match splitDots steps with
    | [] => .ok JSVal.undefined
    | first :: rest => navigate (data.get (.str (String.mk first))) (rest.map String.mk)
  | none => .ok param

/-- The method `_resolveParameters(parameters)`, on the elements of the
array. -/
def _resolveParameters (self : AAIMBehavior) : List JSVal → Except JSError (List JSVal)
  | [] => .ok []
  | param :: rest =>
    match resolveParameter self._data param with
    | .error e => .error e
    | .ok value =>
      match _resolveParameters self rest with
      | .error e => .error e
      | .ok values => .ok (value :: values)

/-! ### Service calls -/

/-- The checks of `_callService` on `name` and `service` and the choice of
the service, made on a configuration that is a non-null object: the service
and the method name, or the error raised. -/
def checkCall (self : AAIMBehavior) (config : JSVal) : Except JSError (Service × String) :=
  match config.prop "name" with
  | .str name =>
    if decide (name.length < 1) then
      .error (.error "Invalid service configuration: \x27name\x27 is required!")
    else if (config.prop "service").toBoolean
        && (!(config.prop "service").typeofString
          || decide ((config.prop "service").toStr.length < 1)) then
      .error (.error
        "Invalid service configuration: \x27service\x27 has to be a non-empty string, if defined!")
    else
      match self._services.get?
          (if (config.prop "service").toBoolean then config.prop "service" else .str "") with
      | none =>
        .error (.error ("Invalid service configuration: There is no "
          ++ (if (config.prop "service").toBoolean
                && decide ((config.prop "service").toStr.length > 0)
              then "service named \x27" ++ (config.prop "service").toStr ++ "\x27!"
              else "default service!")))
      | some service =>
        match service.provides with
        | none => .error .typeError
        | some provides =>
          if !provides name then
            .error (.error ("Invalid service configuration: "
              ++ (if (config.prop "service").toBoolean
                    && decide ((config.prop "service").toStr.length > 0)
                  then "Service \x27" ++ (config.prop "service").toStr ++ "\x27"
                  else "Default service")
              ++ " does not provide a method \x27" ++ name ++ "\x27!"))
          else .ok (service, name)
  | _ => .error (.error "Invalid service configuration: \x27name\x27 is required!")

/-- The callback `(values) => service.execute(config.name, ...values)`. A
service without `execute` makes the callback raise, which rejects the
promise. -/
def invoke (service : Service) (name : String) (values : List JSVal) : JSPromise JSVal :=
  fun _ =>
    match service.execute with
    | none => (.rejected .typeError, [])
    | some execute =>
      match execute name values with
      | .error e => (.rejected e, [⟨service.ref, name, values⟩])
      | .ok settled => (settled, [⟨service.ref, name, values⟩])

/-- The call `array.map(f)` with `f` given the element and its index, counted
from `index`. -/
def mapIndexed {α β : Type} (f : Nat → α → β) : Nat → List α → List β
  | _, [] => []
  | index, a :: rest => f index a :: mapIndexed f (index + 1) rest

/-- The results of callbacks that may raise, in order: the first error
raised, or all the values returned. -/
def collect {ε α : Type} : List (Except ε α) → Except ε (List α)
  | [] => .ok []
  | .error e :: _ => .error e
  | .ok a :: rest =>
    match collect rest with
    | .error e => .error e
    | .ok as => .ok (a :: as)

set_option linter.unusedVariables false in
/-- The method `_callService(config, defaultParameters)`, up to its `return`:
it raises, or returns the promise of the result. `defaultParameters` is `none`
when the argument is not given. -/
def _callService (self : AAIMBehavior) (config : JSVal)
    (defaultParameters : Option (List JSVal)) : Except JSError (JSPromise JSVal) :=
  if hobj : config.typeofObject = true ∧ config.isNull = false then do
    -- Check configuration object, determine service
    let call ← checkCall self config
    let service := call.1
    let name := call.2
    -- Prepare parameters
    let prepared : JSPromise (List JSVal) ←
      if (config.prop "parameters").isArray then do
        let values ← _resolveParameters self (config.prop "parameters").elems
        pure (JSPromise.resolve values)
      else if (config.prop "parameters").typeofObject then do
        let p ← _callService self (config.prop "parameters") none
        pure (p.andThen fun value => JSPromise.resolve [value])
      else
        match defaultParameters with
        | some defaults => pure (JSPromise.resolve defaults)
        | none => pure (JSPromise.resolve [])
    -- Map parameters
    let parameters : JSPromise (List JSVal) ←
      if (config.prop "parameterMapping").isArray
          && decide ((config.prop "parameterMapping").arrayLength > 0) then
        if (config.prop "parameters").isArray then do
          let items ← collect (mapIndexed (fun index value =>
            match he : (config.prop "parameterMapping").elems[index]? with
            | some entry =>
              if entry.typeofObject && !entry.isNull then
                _callService self entry (some [value])
              else pure (JSPromise.resolve value)
            | none => pure (JSPromise.resolve value))
            0 (config.prop "parameters").elems)
          pure (JSPromise.all items)
        else throw JSError.typeError
      else pure prepared
    -- Perform service call
    let result := parameters.andThen (invoke service name)
    -- Map result
    if (config.prop "resultMapping").typeofObject
        && !(config.prop "resultMapping").isNull then
      pure (result.andThen fun value b =>
        match _callService b (config.prop "resultMapping") (some [value]) with
        | .error e => (.rejected e, [])
        | .ok p => p b)
    else pure result
  else throw (.error "No service configuration object provided!")
termination_by sizeOf config
decreasing_by
  all_goals
    have hprop : ∀ (v : JSVal) (key : String),
        v.typeofObject = true ∧ v.isNull = false → sizeOf (v.prop key) < sizeOf v := by
      intro v key hv
      cases v with
      | obj r props =>
        have h0 : 0 < sizeOf props := by cases props <;> simp
        simp only [JSVal.prop, JSVal.getProp]
        cases hf : props.find? (fun p => p.1 == key) with
        | none => simp only [JSVal.obj.sizeOf_spec, JSVal.undefined.sizeOf_spec]; omega
        | some p =>
          have h1 := List.sizeOf_lt_of_mem (List.mem_of_find?_eq_some hf)
          have h2 : sizeOf p = 1 + sizeOf p.1 + sizeOf p.2 := by cases p; rfl
          simp only [JSVal.obj.sizeOf_spec]
          omega
      | arr r es =>
        have h0 : 0 < sizeOf es := by cases es <;> simp
        simp only [JSVal.prop, JSVal.getProp, JSVal.arr.sizeOf_spec,
          JSVal.undefined.sizeOf_spec]
        omega
      | null => simp [JSVal.isNull] at hv
      | _ => simp [JSVal.typeofObject] at hv
    have helem : ∀ (v e : JSVal) (i : Nat), v.elems[i]? = some e → sizeOf e < sizeOf v := by
      intro v e i h
      cases v with
      | arr r es =>
        simp only [JSVal.elems] at h
        have h1 := List.sizeOf_lt_of_mem (List.getElem?_mem h)
        simp only [JSVal.arr.sizeOf_spec]
        omega
      | _ => simp [JSVal.elems] at h
  · exact hprop _ _ hobj
  · exact Nat.lt_trans (helem _ _ _ he) (hprop _ _ hobj)
  · exact hprop _ _ hobj

/-- The promise `_callService` has in `parameters` after the step "Prepare
parameters", or the error raised there. -/
def preparedParameters (self : AAIMBehavior) (config : JSVal)
    (defaultParameters : Option (List JSVal)) : Except JSError (JSPromise (List JSVal)) :=
  if (config.prop "parameters").isArray then
    match _resolveParameters self (config.prop "parameters").elems with
    | .error e => .error e
    | .ok values => .ok (JSPromise.resolve values)
  else if (config.prop "parameters").typeofObject then
    match _callService self (config.prop "parameters") none with
    | .error e => .error e
    | .ok p => .ok (p.andThen fun value => JSPromise.resolve [value])
  else
    match defaultParameters with
    | some defaults => .ok (JSPromise.resolve defaults)
    | none => .ok (JSPromise.resolve [])

/-- The callback of `config.parameters.map` in the step "Map parameters": the
mapping call for the entry at `index` when that entry is a non-null object,
the value itself otherwise. -/
def mappingItem (self : AAIMBehavior) (config : JSVal) (index : Nat) (value : JSVal) :
    Except JSError (JSPromise JSVal) :=
  match (config.prop "parameterMapping").elems[index]? with
  | some entry =>
    if entry.typeofObject && !entry.isNull then _callService self entry (some [value])
    else .ok (JSPromise.resolve value)
  | none => .ok (JSPromise.resolve value)

/-- The promise `_callService` has in `parameters` after the step "Map
parameters", or the error raised there; `prepared` is what the step before
has left. -/
def mappedParameters (self : AAIMBehavior) (config : JSVal)
    (prepared : JSPromise (List JSVal)) : Except JSError (JSPromise (List JSVal)) :=
  if (config.prop "parameterMapping").isArray
      && decide ((config.prop "parameterMapping").arrayLength > 0) then
    if (config.prop "parameters").isArray then
      match collect (mapIndexed (mappingItem self config) 0 (config.prop "parameters").elems) with
      | .error e => .error e
      | .ok items => .ok (JSPromise.all items)
    else .error JSError.typeError
  else .ok prepared

/-- The callback `(value) => this._callService(config.resultMapping, [ value ])`,
run on the coordinator as it is then; an error it raises rejects the
promise. -/
def resultCallback (config : JSVal) (value : JSVal) : JSPromise JSVal :=
  fun b =>
    match _callService b (config.prop "resultMapping") (some [value]) with
    | .error e => (.rejected e, [])
    | .ok p => p b

/-- The promise `_callService` returns, made from the promise of the
parameters: the service method is executed, and its result is mapped when
`resultMapping` is a non-null object. -/
def callResult (config : JSVal) (service : Service) (name : String)
    (parameters : JSPromise (List JSVal)) : JSPromise JSVal :=
  if (config.prop "resultMapping").typeofObject && !(config.prop "resultMapping").isNull then
    (parameters.andThen (invoke service name)).andThen (resultCallback config)
  else parameters.andThen (invoke service name)

/-! ### The public methods of the coordinator -/

/-- The callback `executeState` hands to `situationParameters.then`, run on
the coordinator as it is then: the promise is run; if it is fulfilled the
factory is asked to refresh when `config` is the configuration executed last
(by `===`), and to create otherwise, after which `config` is stored. With no
factory the callback raises before anything is stored, and with a rejected
promise it does not run. -/
def stateCallback (config : JSVal) (situationParameters : JSPromise FactoryArg)
    (w : BWorld) : BWorld :=
  match (situationParameters w.self).1 with
  | .rejected _ => { w with executions := w.executions ++ (situationParameters w.self).2 }
  | .fulfilled result =>
    match w.self._factory with
    | none => { w with executions := w.executions ++ (situationParameters w.self).2 }
    | some _ =>
      if JSVal.sameValueZero w.self._currentConfig config then
        { w with
          executions := w.executions ++ (situationParameters w.self).2
          factoryCalls := w.factoryCalls
            ++ [FactoryCall.refresh (config.prop "situation") result w.self._data] }
      else
        { self := { w.self with _currentConfig := config }
          executions := w.executions ++ (situationParameters w.self).2
          factoryCalls := w.factoryCalls
            ++ [FactoryCall.create (config.prop "situation") result w.self._data] }

/-- The method `executeState(config)`, up to its return: it raises, or
returns after registering the callback, which is the result here and runs
later. -/
def executeState (self : AAIMBehavior) (config : JSVal) : Except JSError (BWorld → BWorld) :=
  match config.getProp "parameters" with
  | .error e => .error e
  | .ok parameters =>
    if parameters.isArray then
      match _resolveParameters self parameters.elems with
      | .error e => .error e
      | .ok values => .ok (stateCallback config (JSPromise.resolve (FactoryArg.list values)))
    else if parameters.typeofObject then
      match _callService self parameters none with
      | .error e => .error e
      | .ok p =>
        .ok (stateCallback config (p.andThen fun value => JSPromise.resolve (FactoryArg.value value)))
    else .ok (stateCallback config (JSPromise.resolve (FactoryArg.list [])))

/-- The method `executeTransition(config)`: it raises, or returns a promise. -/
def executeTransition (self : AAIMBehavior) (config : JSVal) :
    Except JSError (JSPromise JSVal) :=
  if config.typeofObject then _callService self config none
  else .ok (JSPromise.resolve JSVal.undefined)

/-- The test `name.length < 1` of `registerService`, on a name that is not
falsy: by the length of a string or an array; on an object by its property
`length` when that is a number, a boolean or `null` (a `length` of another
kind would first be converted to a number, which is not modelled: the test
counts as false); every other value has no `length`, and the test is false. -/
def JSVal.lengthBelowOne : JSVal → Bool
  | .str s => decide (s.length < 1)
  | .arr _ es => decide (es.length < 1)
  | .obj r props =>
    match (JSVal.obj r props).prop "length" with
    | .num n => decide (n < 1)
    | .bool b => !b
    | .null => true
    | _ => false
  | _ => false

/-- The method `registerService(name, service)`. `service` is `none` for a
falsy argument. -/
def registerService (self : AAIMBehavior) (name : JSVal) (service : Option Service) :
    AAIMBehavior × Except JSError Unit :=
  if !name.toBoolean || name.lengthBelowOne then
    (self, .error (.error "A service cannot be registered without a name."))
  else
    match service with
    | none =>
      (self, .error (.error "Services are required to provide an \x27execute\x27 function."))
    | some s =>
      if s.execute.isNone then
        (self, .error (.error "Services are required to provide an \x27execute\x27 function."))
      else if self._services.has name then
        (self, .error (.error ("There is already a service named \x27" ++ name.toStr ++ "\x27.")))
      else
        ({ self with _services := self._services.set name s }, .ok ())

/-! ## The test models of `spec/aaim-interpreter.js` -/

/-- The state `Second` of `aaims.simple`. -/
def simpleSecond : JSVal :=
  .obj 2 [("name", .str "Second"), ("do", .str "NothingSecond"),
    ("events", .arr 3 [
      .obj 4 [("on", .str "win"), ("goto", .str "First")],
      .obj 5 [("on", .str "loose"), ("goto", .str "Third")]])]

/-- The state `First` of `aaims.simple`. -/
def simpleFirst : JSVal :=
  .obj 6 [("name", .str "First"), ("do", .str "NothingFirst"),
    ("events", .arr 7 [
      .obj 8 [("on", .str "secondarize"), ("goto", .str "Second")],
      .obj 9 [("on", .str "thirdify"), ("goto", .str "Third"), ("do", .str "NothingOnTheWay")]])]

/-- The state `Third` of `aaims.simple`. -/
def simpleThird : JSVal :=
  .obj 10 [("name", .str "Third"), ("do", .str "NothingThird"),
    ("events", .arr 11 [.obj 12 [("on", .str "top"), ("goto", .str "First")]])]

/-- The model `aaims.simple`. -/
def simple : JSVal :=
  .obj 0 [("initial", .str "First"), ("states", .arr 1 [simpleSecond, simpleFirst, simpleThird])]

/-- The model `aaims.empty`. -/
def emptyModel : JSVal :=
  .obj 20 [("initial", .str "Init"), ("states", .arr 21 [])]

/-- The model `aaims.missingInitial`. -/
def missingInitial : JSVal :=
  .obj 30 [("initial", .str "Init"), ("states", .arr 31 [.obj 32 [("name", .str "One")]])]

/-- The model `aaims.noInitial`. -/
def noInitial : JSVal :=
  .obj 40 [("states", .arr 41 [.obj 42 [("name", .str "One")]])]

/-- The model `aaims.missingTarget`. -/
def missingTarget : JSVal :=
  .obj 50 [("initial", .str "Init"), ("states", .arr 51 [
    .obj 52 [("name", .str "Init"),
      ("events", .arr 53 [.obj 54 [("on", .str "move"), ("goto", .str "Other")]])],
    .obj 55 [("name", .str "Different")]])]

/-- The first of two states named `A`. -/
def duplicateFirst : JSVal :=
  .obj 61 [("name", .str "A"), ("do", .str "first"),
    ("events", .arr 64 [.obj 65 [("on", .str "again"), ("goto", .str "A")]])]

/-- The second of two states named `A`. -/
def duplicateSecond : JSVal :=
  .obj 62 [("name", .str "A"), ("do", .str "second"),
    ("events", .arr 66 [.obj 67 [("on", .str "again"), ("goto", .str "A")]])]

/-- A model with two states of the same name: `\x7b initial: 'A', states:
[\x7b name: 'A', do: 'first', ... \x7d, \x7b name: 'A', do: 'second', ... \x7d] \x7d`. -/
def duplicates : JSVal :=
  .obj 60 [("initial", .str "A"), ("states", .arr 63 [duplicateFirst, duplicateSecond])]

/-- The comparison `===`: primitives by value, objects and arrays by
reference. On two strings it is also what `==` computes. -/
def strictEq (a b : JSVal) : Bool := JSVal.sameValueZero a b

/-- The spy coordinator of the test suite: `executeState` returns, and
`executeTransition` returns one and the same promise at each call. -/
def spy : Behavior :=
  { executeState := fun _ _ => .ok ()
    executeTransition := fun _ _ => .ok (some 0) }

/-- A new interpreter with the spy coordinator, after `load(aaims.simple)`. -/
def simpleLoaded : World := (load (World.new (some spy)) simple).1

/-- The interpreter `simpleLoaded` after `running = true`: it is in `First`. -/
def simpleRunning : World := (setRunning simpleLoaded (.bool true)).1

/-- A new interpreter with the spy coordinator, after
`load(aaims.missingInitial)`. -/
def missingInitialLoaded : World := (load (World.new (some spy)) missingInitial).1

/-! ## Notions used to state the properties of the coordinator -/

/-- The world after the call `executeState(config)` and, when the call has
returned, after its callback has run, together with the completion of the
call. -/
def BWorld.doExecuteState (w : BWorld) (config : JSVal) : BWorld × Except JSError Unit :=
  match executeState w.self config with
  | .error e => (w, .error e)
  | .ok callback => (callback w, .ok ())

/-- The world after a call that returns a promise (or raises) and, when it has
returned one, after the promise has been run, together with the completion of
the call: the error raised, or the way the promise has settled. -/
def BWorld.run (w : BWorld) (call : Except JSError (JSPromise JSVal)) :
    BWorld × Except JSError (Settled JSVal) :=
  match call with
  | .error e => (w, .error e)
  | .ok p => ({ w with executions := w.executions ++ (p w.self).2 }, .ok (p w.self).1)

/-- The way the promise settles that a service method hands back: a method
that raises inside a `then` callback rejects the promise of that callback. -/
def settle {α : Type} : Except JSError (Settled α) → Settled α
  | .error e => .rejected e
  | .ok s => s

/-- The service a configuration is aimed at: the one registered under
`config.service`, or the default service, registered under the empty name,
when `service` is omitted. -/
def targetService (self : AAIMBehavior) (config : JSVal) : Option Service :=
  match config.prop "service" with
  | .undefined => self._services.get? (.str "")
  | service => self._services.get? service

/-- A valid service-call configuration: a non-null object whose `name` is the
non-empty string `name`, whose `service` is omitted or a non-empty string, and
whose target service is registered as `service` and provides `name`. -/
structure ValidCall (behavior : AAIMBehavior) (config : JSVal) (service : Service)
    (name : String) : Prop where
  isObject : config.typeofObject = true ∧ config.isNull = false
  hasName : config.prop "name" = .str name ∧ name ≠ ""
  hasService : config.prop "service" = .undefined ∨
    ∃ s, config.prop "service" = .str s ∧ s ≠ ""
  registered : targetService behavior config = some service
  provided : ∃ provides, service.provides = some provides ∧ provides name = true

/-! ## The services and coordinators of `spec/aaim-behavior.js` -/

/-- A service with both methods, as the test suite registers them: it provides
every method, and every method returns a promise fulfilled with `42`. -/
def fancyService : Service :=
  { ref := 100
    provides := some fun _ => true
    execute := some fun _ _ => .ok (.fulfilled (.num 42)) }

/-- The object `illegalService` of the test suite: `provides` but no
`execute`. -/
def illegalService : Service :=
  { ref := 101
    provides := some fun _ => true
    execute := none }

/-- A default service that provides the one method `theMethod`; executing a
method returns a promise fulfilled with `42`. -/
def defaultService : Service :=
  { ref := 1
    provides := some fun m => m == "theMethod"
    execute := some fun _ _ => .ok (.fulfilled (.num 42)) }

/-- The factory of the test suite. -/
def testFactory : SituationFactory := { ref := 200 }

/-- A coordinator with the test factory and no service. -/
def noServices : AAIMBehavior := AAIMBehavior.new (some testFactory) none

/-- A coordinator with the test factory and `defaultService` as its default
service. -/
def withDefault : AAIMBehavior := AAIMBehavior.new (some testFactory) (some defaultService)

/-- The service-call configuration `{ name: 'theMethod', parameters:
['anyParam', 42] }` of the test suite. -/
def theMethodCall : JSVal :=
  .obj 300 [("name", .str "theMethod"), ("parameters", .arr 301 [.str "anyParam", .num 42])]

/-- The state configuration `{ situation: 'SomeSituation', parameters: ... }`
of the test suite, with `theMethodCall` as its parameters. -/
def stateWithCall : JSVal :=
  .obj 302 [("situation", .str "SomeSituation"), ("parameters", theMethodCall)]

/-- The service-call configuration `{ service: '', name: 'theMethod' }`. -/
def emptyServiceCall : JSVal :=
  .obj 310 [("service", .str ""), ("name", .str "theMethod")]

/-- The service-call configuration `{ name: 'theMethod', resultMapping:
{ name: 'missing' } }`, whose result mapping names a method the default
service `defaultService` does not provide. -/
def missingMapperCall : JSVal :=
  .obj 320 [("name", .str "theMethod"), ("resultMapping", .obj 321 [("name", .str "missing")])]

/-- The named service of the test "mapping the returned result": it provides
every method; `mappingMethod` returns a promise fulfilled with `'Towel'`, every
other method one fulfilled with `42`. -/
def namedService : Service :=
  { ref := 2
    provides := some fun _ => true
    execute := some fun m _ =>
      if m == "mappingMethod" then .ok (.fulfilled (.str "Towel")) else .ok (.fulfilled (.num 42)) }

/-- A coordinator with the test factory, no default service, and
`namedService` registered as `TheName`. -/
def withNamed : AAIMBehavior :=
  (registerService noServices (.str "TheName") (some namedService)).1

/-- The service-call configuration `{ service: 'TheName', name: 'theMethod',
resultMapping: { service: 'TheName', name: 'mappingMethod' } }` of the test
suite. -/
def mappedResultCall : JSVal :=
  .obj 330 [("service", .str "TheName"), ("name", .str "theMethod"),
    ("resultMapping", .obj 331 [("service", .str "TheName"), ("name", .str "mappingMethod")])]

/-- The named service of the test "with mapped parameters": `p1mapper`
returns a promise fulfilled with `'Towel'`, every other method one fulfilled
with `'Guide'`. -/
def mapperService : Service :=
  { ref := 3
    provides := some fun _ => true
    execute := some fun m _ =>
      if m == "p1mapper" then .ok (.fulfilled (.str "Towel")) else .ok (.fulfilled (.str "Guide")) }

/-- A coordinator with `fancyService` as its default service and
`mapperService` registered as `TheName`. -/
def withMappers : AAIMBehavior :=
  (registerService (AAIMBehavior.new none (some fancyService)) (.str "TheName")
    (some mapperService)).1

/-- The configuration of the test "with mapped parameters". -/
def mappedParamsCall : JSVal :=
  .obj 340 [("name", .str "defaultMethod"),
    ("parameters", .arr 341 [.num 1, .num 2, .num 3]),
    ("parameterMapping", .arr 342 [
      .obj 343 [("service", .str "TheName"), ("name", .str "p1mapper")],
      .obj 344 [("service", .str "TheName"), ("name", .str "p2mapper")]])]

/-- The coordinator `withDefault` with `'X'` stored under `name` in its data
context. -/
def withData : AAIMBehavior := { withDefault with _data := [(.str "name", .str "X")] }

/-- The configuration `{ name: 'theMethod', parameters: ['$\x7bname\x7d'],
parameterMapping: [null] }`: a reference at an index without mapping entry. -/
def refCall : JSVal :=
  .obj 350 [("name", .str "theMethod"), ("parameters", .arr 351 [.str "$\x7bname\x7d"]),
    ("parameterMapping", .arr 352 [.null])]

/-- The configuration `{ name: 'theMethod', parameters: ['$\x7bname\x7d'],
parameterMapping: [{ name: 'theMethod' }] }`: a reference at an index with a
mapping entry. -/
def refMappedCall : JSVal :=
  .obj 360 [("name", .str "theMethod"), ("parameters", .arr 361 [.str "$\x7bname\x7d"]),
    ("parameterMapping", .arr 362 [.obj 363 [("name", .str "theMethod")]])]

/-- The configuration `{ name: 'theMethod', parameterMapping: [{ name:
'theMethod' }] }`: a mapping and no parameters of its own. -/
def defaultsMappedCall : JSVal :=
  .obj 370 [("name", .str "theMethod"),
    ("parameterMapping", .arr 371 [.obj 372 [("name", .str "theMethod")]])]

/-- The state configuration of the test "refreshing the current state if it is
identically configured". -/
def refreshConfig : JSVal :=
  .obj 380 [("situation", .str "SomeSituation"),
    ("parameters", .arr 381 [.str "anyParam", .num 42, .str "$\x7bname\x7d"])]

/-- A default service that provides every method: `theMethod` returns a
promise that is rejected with the error `'Nope'`, every other method one
fulfilled with `42`. -/
def failingService : Service :=
  { ref := 4
    provides := some fun _ => true
    execute := some fun m _ =>
      if m == "theMethod" then .ok (.rejected (.error "Nope")) else .ok (.fulfilled (.num 42)) }

/-- A coordinator with the test factory and `failingService` as its default
service. -/
def withFailing : AAIMBehavior := AAIMBehavior.new (some testFactory) (some failingService)

/-- The configuration `{ name: 'theMethod', resultMapping: { name:
'mappingMethod' } }`. -/
def failingMappedCall : JSVal :=
  .obj 390 [("name", .str "theMethod"),
    ("resultMapping", .obj 391 [("name", .str "mappingMethod")])]

/-- The state configuration `{ situation: 'SomeSituation', parameters: ... }`
with `failingMappedCall` as its parameters. -/
def stateWithFailing : JSVal :=
  .obj 392 [("situation", .str "SomeSituation"), ("parameters", failingMappedCall)]

/-- The second argument of a call on the factory. -/
def FactoryCall.parameters : FactoryCall → FactoryArg
  | .create _ parameters _ => parameters
  | .refresh _ parameters _ => parameters

/-! ## Notions used to state the properties -/

/-- The value is `undefined` or `null`: the values on which a property read
raises. -/
def JSVal.isNullish : JSVal → Bool
  | .undefined => true
  | .null => true
  | _ => false

/-- An event fires on `name`: its `on` matches `name` and its `goto` is a key
of the index `m`. -/
def fires (looseEq : JSVal → JSVal → Bool) (m : JSMap) (name e : JSVal) : Bool :=
  match e.getProp "on", e.getProp "goto" with
  | .ok trigger, .ok goto => looseEq trigger name && m.has goto
  | _, _ => false

/-- Two states have different names, for the comparison of `Map` keys. -/
def distinctNames (a b : JSVal) : Prop :=
  ∀ na nb, a.getProp "name" = .ok na → b.getProp "name" = .ok nb →
    JSVal.sameValueZero na nb = false

/-- Every entry of the index `m` holds an element of `all` under a key that is
the same value as the name of that element. -/
def Indexed (all : List JSVal) (m : JSMap) : Prop :=
  ∀ e ∈ m, e.2 ∈ all ∧ ∃ n, e.2.getProp "name" = .ok n ∧ JSVal.sameValueZero n e.1 = true

/-- One step of the life of an interpreter: a call of one of its public
members, or one of the promises it waits on settling. -/
inductive Step (looseEq : JSVal → JSVal → Bool) : World → World → Prop where
  | load (w : World) (aaim : JSVal) : Step looseEq w (load w aaim).1
  | setRunning (w : World) (run : JSVal) : Step looseEq w (setRunning w run).1
  | reset (w : World) : Step looseEq w (reset w).1
  | executeEvent (w : World) (name : JSVal) : Step looseEq w (executeEvent looseEq w name).1
  | fulfilled (w : World) (p : Nat) : Step looseEq w (promiseFulfilled w p)
  | rejected (w : World) (p : Nat) : Step looseEq w (promiseRejected w p)

/-- The states an interpreter can be in: those reached from
`new AAIMInterpreter(behavior)` by any sequence of steps. -/
inductive Reachable (looseEq : JSVal → JSVal → Bool) : World → Prop where
  | new (behavior : Option Behavior) : Reachable looseEq (World.new behavior)
  | step {w w' : World} : Reachable looseEq w → Step looseEq w w' → Reachable looseEq w'

/-- What holds of the fields of every interpreter: a loaded model is not
`null` and comes with its index, the index holds no `undefined` or `null`
state, the current state is never `null`, and a running interpreter has a
model and a current state. -/
structure Consistent (w : World) : Prop where
  model : w.self._currentAAIM.isUndefined = false →
    w.self._currentAAIM.isNull = false ∧ w.self._loadedStates.isSome = true
  index : ∀ m, w.self._loadedStates = some m → ∀ e ∈ m, e.2.isNullish = false
  state : w.self._currentState.isNull = false
  run : w.self._running = true →
    w.self._currentAAIM.isUndefined = false ∧ w.self._currentState.isUndefined = false

/-! ## Notions used to state the properties of the parameter resolver -/

/-- A non-empty string of word characters: an identifier, or a number used as
an index. -/
def isIdentifier (s : String) : Bool := !s.toList.isEmpty && s.toList.all isWordChar

/-- The characters of `first.step_1. ... .step_n`. -/
def dotted (first : List Char) (steps : List (List Char)) : List Char :=
  first ++ (steps.map fun step => '.' :: step).flatten

/-- The reference string `$\x7bidentifier\x7d`, for an empty path, or
`$\x7bidentifier.step_1. ... .step_n\x7d`. -/
def reference (identifier : String) (path : List String) : String :=
  String.mk ('$' :: '\x7b' :: (dotted identifier.toList (path.map String.toList) ++ ['\x7d']))

/-- Navigation as the specification describes it: from a plain object a step
leads to the value of the property of that name (`undefined` when there is
none), from an array a step that is the decimal writing of an index leads to
the element at that index (`undefined` beyond the end); there is no step
from any other value. -/
def reach : JSVal → List String → Option JSVal
  | v, [] => some v
  | .obj _ props, step :: rest =>
    match props.find? (fun p => p.1 == step) with
    | some p => reach p.2 rest
    | none => reach .undefined rest
  | .arr _ es, step :: rest =>
    match JSVal.arrayIndex step with
    | some i => reach (es.getD i .undefined) rest
    | none => none
  | _, _ :: _ => none

/-- The characters contain a reference: `$\x7b`, a non-empty run of word
characters and dots, and `\x7d`. -/
def ContainsReference (s : List Char) : Prop :=
  ∃ pre body post, s = pre ++ '$' :: '\x7b' :: (body ++ '\x7d' :: post) ∧ body ≠ [] ∧
    ∀ c ∈ body, isPathChar c = true

/-- The coordinator of the tests "resolves parameters": no factory, no
service, and six entries in the data context. -/
def resolverBehavior : AAIMBehavior :=
  { AAIMBehavior.new none none with
    _data :=
      [(.str "name", .str "Just A. String"),
       (.str "age", .num 42),
       (.str "flag", .bool true),
       (.str "complex", .obj 400 [("part", .num 1), ("value", .str "Some")]),
       (.str "list", .arr 401 [.num 0, .num 8, .num 15]),
       (.str "deep", .obj 402 [("first", .obj 403 [("sec", .obj 404 [("val", .num 42)])])])] }

/-! ## The service base class: `src/aaim-service.js` -/

/-- A promise a function of a service hands back: its identity and the way it
settles. -/
structure PromiseObject where
  ref : Nat
  outcome : Settled JSVal

/-- How the call of a function of a service ends: it returns a value that is
no promise, it returns a promise, or it throws. -/
inductive FunctionResult where
  | value (v : JSVal)
  | promise (p : PromiseObject)
  | thrown (e : JSError)

/-- What the map `_functions` holds under a method name: a function, given by
what its call with the given arguments does, or a value that is no function. -/
inductive FunctionEntry where
  | function (call : List JSVal → FunctionResult)
  | other (v : JSVal)

/-- The fields of an `AAIMService` object; `ref` is the identity of the
object, `_functions` the entries of the map in insertion order. -/
structure AAIMService where
  ref : Nat
  _functions : List (JSVal × FunctionEntry)

/-- What `execute` returns: the promise the function has returned, handed on
as it is, or a promise made by `new Promise`, which settles as given. -/
inductive ReturnedPromise where
  | forwarded (p : PromiseObject)
  | created (outcome : Settled JSVal)

/-- The way the promise `execute` has returned settles. -/
def ReturnedPromise.outcome : ReturnedPromise → Settled JSVal
  | .forwarded p => p.outcome
  | .created outcome => outcome

namespace AAIMService

/-- The expression `new AAIMService()`. -/
def new (ref : Nat) : AAIMService := { ref := ref, _functions := [] }

/-- The test `this._functions.has(method)`. -/
def has (s : AAIMService) (method : JSVal) : Bool :=
  s._functions.any (fun e => JSVal.sameValueZero e.1 method)

/-- The read `this._functions.get(method)`: `none` stands for `undefined`. -/
def get? (s : AAIMService) (method : JSVal) : Option FunctionEntry :=
  match s._functions.find? (fun e => JSVal.sameValueZero e.1 method) with
  | some e => some e.2
  | none => none

/-- The method `execute(method, ...params)`. Applying a value that is no
function raises a `TypeError` inside the `try` block, which is caught like
an error the function throws. -/
def execute (s : AAIMService) (method : JSVal) (params : List JSVal) :
    Except JSError ReturnedPromise :=
  if !s.has method then
    .error (.error ("Function \x27" ++ method.toStr ++ "\x27 is not provided by this service."))
  else
    match s.get? method with
    | some (.function call) =>
      match call params with
      | .promise p => .ok (.forwarded p)
      | .value v => .ok (.created (.fulfilled v))
      | .thrown e => .ok (.created (.rejected e))
    | _ => .ok (.created (.rejected .typeError))

/-- The method `provides(method)`. -/
def provides (s : AAIMService) (method : JSVal) : Bool := s.has method

/-- The service as the coordinator uses it: it calls `provides` and `execute`
with a method name that is a string, and waits for the promise. -/
def asService (s : AAIMService) : Service :=
  { ref := s.ref
    provides := some fun m => s.provides (.str m)
    execute := some fun m args =>
      match s.execute (.str m) args with
      | .error e => .error e
      | .ok returned => .ok returned.outcome }

end AAIMService

/-- The service of `spec/aaim-service.js`: `primitive` returns its argument,
`promised` returns a promise fulfilled with its argument, `thrown` throws an
error whose message is its argument. -/
def testService : AAIMService :=
  { ref := 500
    _functions :=
      [(.str "primitive", .function fun args => .value (args.headD .undefined)),
       (.str "promised", .function fun args =>
          .promise { ref := 501, outcome := .fulfilled (args.headD .undefined) }),
       (.str "thrown", .function fun args =>
          .thrown (.error (match args.headD .undefined with
            | .undefined => ""
            | v => v.toStr)))] }

/-- A coordinator without factory that has `testService` as its default
service. -/
def withTestService : AAIMBehavior := AAIMBehavior.new none (some testService.asService)

/-! ## Notions used to state the properties of sequences of operations -/

/-- An operation on an interpreter: a call of one of its public members, or
one of the promises it waits on settling. -/
inductive Op where
  | load (aaim : JSVal)
  | setRunning (run : JSVal)
  | reset
  | executeEvent (name : JSVal)
  | fulfilled (p : Nat)
  | rejected (p : Nat)

/-- The interpreter after the operation. -/
def applyOp (looseEq : JSVal → JSVal → Bool) (w : World) : Op → World
  | .load aaim => (load w aaim).1
  | .setRunning run => (setRunning w run).1
  | .reset => (reset w).1
  | .executeEvent name => (executeEvent looseEq w name).1
  | .fulfilled p => promiseFulfilled w p
  | .rejected p => promiseRejected w p

/-- The interpreter after a sequence of operations. -/
def runOps (looseEq : JSVal → JSVal → Bool) (w : World) (ops : List Op) : World :=
  ops.foldl (applyOp looseEq) w

/-- The assignment `running = run` enters a state: it reaches the call of
`_performTransition`, which it does on a paused interpreter with a model and
without current state, when `initial` is a string and a key of the index. -/
def setRunningEnters (w : World) (run : JSVal) : Bool :=
  run.toBoolean && !w.self._running && !w.self._currentAAIM.isUndefined
    && w.self._currentState.isUndefined
    && (match w.self._currentAAIM.getProp "initial", w.self._loadedStates with
        | .ok initial, some m => initial.typeofString && m.has initial
        | _, _ => false)

/-- The scan of the events of the current state comes to an event that
fires, without meeting `undefined` or `null` before. -/
def scanFires (looseEq : JSVal → JSVal → Bool) (m : JSMap) (name : JSVal) : List JSVal → Bool
  | [] => false
  | e :: rest =>
    if e.isNullish then false
    else if fires looseEq m name e then true
    else scanFires looseEq m name rest

/-- The call `executeEvent(name)` enters a state: it reaches the call of
`_performTransition`, which it does on a running interpreter when the scan of
the events of the current state comes to an event that fires. -/
def executeEventEnters (looseEq : JSVal → JSVal → Bool) (w : World) (name : JSVal) : Bool :=
  w.self._running
    && (match w.self._currentState.getProp "events", w.self._loadedStates with
        | .ok events, some m =>
          match events.iterate with
          | .ok es => scanFires looseEq m name es
          | .error _ => false
        | _, _ => false)

/-- The operation enters a state. -/
def entersState (looseEq : JSVal → JSVal → Bool) (w : World) : Op → Bool
  | .setRunning run => setRunningEnters w run
  | .executeEvent name => executeEventEnters looseEq w name
  | _ => false

/-- Whether, after the operations, a state has been entered since the most
recent call of `reset` and the most recent `load` that returned `true`;
`entered` says so for the time before the operations. -/
def enteredSinceResetOrLoad (looseEq : JSVal → JSVal → Bool) :
    World → Bool → List Op → Bool
  | _, entered, [] => entered
  | w, entered, op :: rest =>
    enteredSinceResetOrLoad looseEq (applyOp looseEq w op)
      (match op with
        | .reset => false
        | .load aaim =>
          match (load w aaim).2 with
          | .ok true => false
          | _ => entered
        | _ => entered || entersState looseEq w op)
      rest

/-- Whether, after the operations, a state has been entered since the most
recent call of `reset` made while the interpreter was not running; `entered`
says so for the time before the operations. -/
def enteredSinceReset (looseEq : JSVal → JSVal → Bool) : World → Bool → List Op → Bool
  | _, entered, [] => entered
  | w, entered, op :: rest =>
    enteredSinceReset looseEq (applyOp looseEq w op)
      (match op with
        | .reset => if w.self._running then entered else false
        | _ => entered || entersState looseEq w op)
      rest

/-- The interpreter with its coordinator taken away, and with it the trace of
the calls made on the coordinator and the callbacks waiting for its
promises. -/
def withoutBehavior (w : World) : World :=
  { self := { w.self with _behavior := none }, calls := [], reactions := [] }

/-! ## Models, configurations and coordinators for the properties of robustness -/

/-- A coordinator with the test factory, `fancyService` as its default
service and `mapperService` registered as `TheName`. -/
def withFactoryAndMappers : AAIMBehavior :=
  (registerService (AAIMBehavior.new (some testFactory) (some fancyService)) (.str "TheName")
    (some mapperService)).1

/-- The mapping entry `\x7b service: 'TheName', name: 'p1mapper' \x7d`. -/
def firstMapperCall : JSVal :=
  .obj 423 [("service", .str "TheName"), ("name", .str "p1mapper")]

/-- A state configuration with three parameters and two mapping entries:
`\x7b situation: 'SomeSituation', parameters: [1, 2, 3], parameterMapping: [...] \x7d`. -/
def mappedStateConfig : JSVal :=
  .obj 420 [("situation", .str "SomeSituation"),
    ("parameters", .arr 421 [.num 1, .num 2, .num 3]),
    ("parameterMapping", .arr 422 [firstMapperCall,
      .obj 424 [("service", .str "TheName"), ("name", .str "p2mapper")]])]

/-- The state `\x7b name: 'A' \x7d` of the models below. -/
def plainState : JSVal := .obj 72 [("name", .str "A")]

/-- A model whose second state is `null`:
`\x7b initial: 'A', states: [\x7b name: 'A' \x7d, null] \x7d`. -/
def nullStateModel : JSVal :=
  .obj 70 [("initial", .str "A"), ("states", .arr 71 [plainState, .null])]

/-- A model whose only state is `undefined`. -/
def undefinedStateModel : JSVal :=
  .obj 73 [("initial", .str "A"), ("states", .arr 74 [.undefined])]

/-- A model whose only state is the number `5`. -/
def numberStateModel : JSVal :=
  .obj 75 [("initial", .str "A"), ("states", .arr 76 [.num 5])]

/-- The state `\x7b name: 'One' \x7d`, as in the models `missingInitial` and
`noInitial`: no `do`, no `events`. -/
def loneState : JSVal := .obj 82 [("name", .str "One")]

/-- The model `\x7b initial: 'One', states: [\x7b name: 'One' \x7d] \x7d`: the
model `missingInitial` with the name of its state as `initial`. -/
def loneStateModel : JSVal :=
  .obj 80 [("initial", .str "One"), ("states", .arr 81 [loneState])]

/-- The state `Start` of `silentTargetModel`: it has a `do` and an event
without `do` that leads to `Quiet`. -/
def startState : JSVal :=
  .obj 92 [("name", .str "Start"), ("do", .obj 93 [("situation", .str "SomeSituation")]),
    ("events", .arr 94 [.obj 95 [("on", .str "go"), ("goto", .str "Quiet")]])]

/-- The state `Quiet` of `silentTargetModel`: no `do`. -/
def quietState : JSVal := .obj 96 [("name", .str "Quiet"), ("events", .arr 97 [])]

/-- A model whose initial state has a `do` and whose other state has none. -/
def silentTargetModel : JSVal :=
  .obj 90 [("initial", .str "Start"), ("states", .arr 91 [startState, quietState])]

/-- A coordinator whose data context holds `null` under `a` and an object
with a `null` property under `deep`. -/
def nullContext : AAIMBehavior :=
  { AAIMBehavior.new none none with
    _data := [(.str "a", .null), (.str "deep", .obj 430 [("first", .null)])] }

/-- An `AAIMBehavior` as the coordinator of an interpreter. `state calls` is
the coordinator object as it is when it has received the calls `calls`;
`executeState` returns or raises as the method of the coordinator does, and
`executeTransition` raises as the method does or returns a promise, a new one
at each call. -/
def AAIMBehavior.asBehavior (state : List CallRecord → AAIMBehavior) : Behavior :=
  { executeState := fun calls config =>
      match executeState (state calls) config with
      | .error e => .error e
      | .ok _ => .ok ()
    executeTransition := fun calls config =>
      match executeTransition (state calls) config with
      | .error e => .error e
      | .ok _ => .ok (some calls.length) }

/-! ## Lemmas on values and maps -/

theorem JSVal.sameValueZero_refl (a : JSVal) : JSVal.sameValueZero a a = true := by
  cases a <;> simp [JSVal.sameValueZero]

theorem JSVal.sameValueZero_symm (a b : JSVal) :
    JSVal.sameValueZero a b = JSVal.sameValueZero b a := by
  cases a <;> cases b <;> simp [JSVal.sameValueZero, eq_comm]

theorem JSVal.sameValueZero_trans {a b c : JSVal}
    (hab : JSVal.sameValueZero a b = true) (hbc : JSVal.sameValueZero b c = true) :
    JSVal.sameValueZero a c = true := by
  cases a <;> cases b <;> simp [JSVal.sameValueZero] at hab <;>
    cases c <;> simp [JSVal.sameValueZero] at hbc ⊢ <;> simp_all

theorem JSVal.getProp_ok_of_not_nullish {v : JSVal} (h : v.isNullish = false) (key : String) :
    ∃ x, v.getProp key = .ok x := by
  cases v <;> simp [JSVal.isNullish] at h <;> simp [JSVal.getProp]
  case obj r props =>
    cases props.find? (fun p => p.1 == key) <;> simp

theorem JSVal.not_nullish_of_getProp_ok {v x : JSVal} {key : String}
    (h : v.getProp key = .ok x) : v.isNullish = false := by
  cases v <;> simp [JSVal.getProp] at h <;> simp [JSVal.isNullish]

theorem JSMap.has_set (m : JSMap) (k v k' : JSVal) :
    (JSMap.set m k v).has k' = (m.has k' || JSVal.sameValueZero k k') := by
  induction m with
  | nil => simp [JSMap.set, JSMap.has]
  | cons e rest ih =>
    unfold JSMap.set
    by_cases h : JSVal.sameValueZero e.1 k = true
    · rw [if_pos h]
      simp only [JSMap.has, List.any_cons]
      by_cases h1 : JSVal.sameValueZero e.1 k' = true
      · simp [h1]
      · have h2 : JSVal.sameValueZero k k' = false := by
          by_contra hc
          exact h1 (JSVal.sameValueZero_trans h (by simpa using hc))
        simp [h1, h2]
    · rw [if_neg h]
      simp only [JSMap.has, List.any_cons] at ih ⊢
      rw [ih, Bool.or_assoc]

theorem JSMap.get_set (m : JSMap) (k v k' : JSVal) :
    (JSMap.set m k v).get k' = if JSVal.sameValueZero k k' then v else m.get k' := by
  induction m with
  | nil =>
    by_cases h : JSVal.sameValueZero k k' = true <;> simp [JSMap.set, JSMap.get, List.find?, h]
  | cons e rest ih =>
    unfold JSMap.set
    by_cases h : JSVal.sameValueZero e.1 k = true
    · rw [if_pos h]
      by_cases h1 : JSVal.sameValueZero e.1 k' = true
      · have h2 : JSVal.sameValueZero k k' = true :=
          JSVal.sameValueZero_trans (by rw [JSVal.sameValueZero_symm]; exact h) h1
        simp [JSMap.get, List.find?, h1, h2]
      · have h2 : JSVal.sameValueZero k k' = false := by
          by_contra hc
          exact h1 (JSVal.sameValueZero_trans h (by simpa using hc))
        simp [JSMap.get, List.find?, h1, h2]
    · rw [if_neg h]
      by_cases h1 : JSVal.sameValueZero e.1 k' = true
      · have h2 : JSVal.sameValueZero k k' = false := by
          by_contra hc
          have hc' : JSVal.sameValueZero k k' = true := by simpa using hc
          exact h (JSVal.sameValueZero_trans h1 (by rw [JSVal.sameValueZero_symm]; exact hc'))
        simp [JSMap.get, List.find?, h1, h2]
      · have h1' : JSVal.sameValueZero e.1 k' = false := by simpa using h1
        simp only [JSMap.get, List.find?, h1'] at ih ⊢
        exact ih

theorem JSMap.get_mem_of_has {m : JSMap} {k : JSVal} (h : m.has k = true) :
    ∃ e ∈ m, JSVal.sameValueZero e.1 k = true ∧ m.get k = e.2 := by
  induction m with
  | nil => simp [JSMap.has] at h
  | cons e rest ih =>
    by_cases h1 : JSVal.sameValueZero e.1 k = true
    · exact ⟨e, List.mem_cons_self _ _, h1, by simp [JSMap.get, List.find?, h1]⟩
    · have h1' : JSVal.sameValueZero e.1 k = false := by simpa using h1
      have h2 : JSMap.has rest k = true := by
        simpa [JSMap.has, List.any_cons, h1'] using h
      obtain ⟨e', he', hk, hg⟩ := ih h2
      refine ⟨e', List.mem_cons_of_mem _ he', hk, ?_⟩
      simp only [JSMap.get, List.find?, h1'] at hg ⊢
      exact hg

theorem JSMap.mem_set {m : JSMap} {k v : JSVal} {e : JSVal × JSVal}
    (h : e ∈ JSMap.set m k v) :
    e ∈ m ∨ (e.2 = v ∧ JSVal.sameValueZero e.1 k = true) := by
  induction m with
  | nil =>
    simp only [JSMap.set, List.mem_singleton] at h
    subst h
    exact Or.inr ⟨rfl, JSVal.sameValueZero_refl _⟩
  | cons e0 rest ih =>
    unfold JSMap.set at h
    by_cases h0 : JSVal.sameValueZero e0.1 k = true
    · rw [if_pos h0] at h
      rcases List.mem_cons.mp h with h1 | h1
      · subst h1
        exact Or.inr ⟨rfl, h0⟩
      · exact Or.inl (List.mem_cons_of_mem _ h1)
    · rw [if_neg h0] at h
      rcases List.mem_cons.mp h with h1 | h1
      · subst h1
        exact Or.inl (List.mem_cons_self _ _)
      · rcases ih h1 with h2 | h2
        · exact Or.inl (List.mem_cons_of_mem _ h2)
        · exact Or.inr h2

theorem loadLoop_indexed (all : List JSVal) (elems : List JSVal) :
    ∀ m : JSMap, Indexed all m → (∀ s ∈ elems, s ∈ all) → Indexed all (loadLoop m elems).1 := by
  induction elems with
  | nil => intro m hm _; simpa [loadLoop] using hm
  | cons s rest ih =>
    intro m hm hsub
    unfold loadLoop
    cases hn : s.getProp "name" with
    | error err => simpa using hm
    | ok name =>
      simp only
      apply ih
      · intro e he
        rcases JSMap.mem_set he with h1 | ⟨h1, h2⟩
        · exact hm e h1
        · refine ⟨by rw [h1]; exact hsub s (List.mem_cons_self _ _), name, by rw [h1]; exact hn, ?_⟩
          rw [JSVal.sameValueZero_symm]; exact h2
      · intro x hx
        exact hsub x (List.mem_cons_of_mem _ hx)

theorem loadLoop_ok (elems : List JSVal) (h : ∀ s ∈ elems, s.isNullish = false) :
    ∀ m : JSMap, (loadLoop m elems).2 = .ok () := by
  induction elems with
  | nil => intro m; rfl
  | cons s rest ih =>
    intro m
    obtain ⟨name, hn⟩ := JSVal.getProp_ok_of_not_nullish (h s (List.mem_cons_self _ _)) "name"
    unfold loadLoop
    rw [hn]
    exact ih (fun x hx => h x (List.mem_cons_of_mem _ hx)) _

theorem loadLoop_has (elems : List JSVal) :
    ∀ m : JSMap, (loadLoop m elems).2 = .ok () → ∀ k,
      ((loadLoop m elems).1.has k = true ↔
        (m.has k = true ∨
          ∃ s ∈ elems, ∃ n, s.getProp "name" = .ok n ∧ JSVal.sameValueZero n k = true)) := by
  induction elems with
  | nil => intro m _ k; simp [loadLoop]
  | cons s rest ih =>
    intro m hok k
    unfold loadLoop at hok ⊢
    cases hn : s.getProp "name" with
    | error err => rw [hn] at hok; simp at hok
    | ok name =>
      rw [hn] at hok
      simp only at hok ⊢
      rw [ih _ hok k, JSMap.has_set]
      constructor
      · rintro (h | ⟨x, hx, n, hxn, hk⟩)
        · rcases Bool.or_eq_true _ _ ▸ h with h1 | h1
          · exact Or.inl h1
          · exact Or.inr ⟨s, List.mem_cons_self _ _, name, hn, h1⟩
        · exact Or.inr ⟨x, List.mem_cons_of_mem _ hx, n, hxn, hk⟩
      · rintro (h | ⟨x, hx, n, hxn, hk⟩)
        · exact Or.inl (by simp [h])
        · rcases List.mem_cons.mp hx with h1 | h1
          · subst h1
            rw [hn] at hxn
            cases hxn
            exact Or.inl (by simp [hk])
          · exact Or.inr ⟨x, h1, n, hxn, hk⟩

theorem loadLoop_values (elems : List JSVal) :
    ∀ m : JSMap, (∀ e ∈ m, e.2.isNullish = false) →
      ∀ e ∈ (loadLoop m elems).1, e.2.isNullish = false := by
  induction elems with
  | nil => intro m hm; simpa [loadLoop] using hm
  | cons s rest ih =>
    intro m hm
    unfold loadLoop
    cases hn : s.getProp "name" with
    | error err => simpa using hm
    | ok name =>
      simp only
      apply ih
      intro e he
      rcases JSMap.mem_set he with h1 | ⟨h1, _⟩
      · exact hm e h1
      · rw [h1]; exact JSVal.not_nullish_of_getProp_ok hn

/-! ## Lemmas on the methods -/

theorem _performTransition_self (w : World) (target config : JSVal) :
    (_performTransition w target config).1.self = { w.self with _currentState := target } := by
  unfold _performTransition
  cases hc : config.toBoolean <;> cases hb : w.self._behavior with
  | none => simp [hb]
  | some b =>
    simp only [hb]
    first
    | (cases b.executeTransition w.calls config with
        | error e => rfl
        | ok o => cases o <;> rfl)
    | (cases target.getProp "do" with
        | error e => rfl
        | ok d => simp only; cases b.executeState w.calls d <;> rfl)

theorem runReaction_self (w : World) (r : Reaction) : (runReaction w r).self = w.self := by
  unfold runReaction
  cases w.self._behavior with
  | none => rfl
  | some b => simp only; cases r.target.getProp "do" <;> rfl

theorem foldl_runReaction_self (rs : List Reaction) :
    ∀ w : World, (rs.foldl runReaction w).self = w.self := by
  induction rs with
  | nil => intro w; rfl
  | cons r rest ih => intro w; rw [List.foldl_cons, ih, runReaction_self]

theorem promiseFulfilled_self (w : World) (p : Nat) : (promiseFulfilled w p).self = w.self := by
  unfold promiseFulfilled
  rw [foldl_runReaction_self]

theorem executeEventLoop_self (looseEq : JSVal → JSVal → Bool) (w : World) (name : JSVal)
    (es : List JSVal) :
    (executeEventLoop looseEq w name es).1.self = w.self ∨
      ∃ m goto, w.self._loadedStates = some m ∧ m.has goto = true ∧
        (executeEventLoop looseEq w name es).1.self =
          { w.self with _currentState := m.get goto } := by
  induction es with
  | nil => exact Or.inl rfl
  | cons e rest ih =>
    unfold executeEventLoop
    cases e.getProp "on" with
    | error err => exact Or.inl rfl
    | ok trigger =>
      simp only
      by_cases hq : looseEq trigger name = true
      · rw [if_pos hq]
        cases hm : w.self._loadedStates with
        | none => exact Or.inl rfl
        | some m =>
          simp only
          cases e.getProp "goto" with
          | error err => exact Or.inl rfl
          | ok goto =>
            simp only
            by_cases hh : m.has goto = true
            · rw [if_pos hh]
              cases e.getProp "do" with
              | error err => exact Or.inl rfl
              | ok d =>
                refine Or.inr ⟨m, goto, rfl, hh, ?_⟩
                rw [_performTransition_self]
                simp [hm]
            · rw [if_neg hh]; simpa [hm] using ih
      · rw [if_neg hq]; exact ih

/-- The two ways `load` can go: it returns `false` and changes nothing, or the
input is accepted, stored, and indexed by the loop. -/
theorem load_cases (w : World) (x : JSVal) :
    ((load w x).1 = w ∧ (load w x).2 = .ok false) ∨
    (w.self._running = false ∧ x.typeofObject = true ∧ x.isNull = false ∧
      ∃ r elems, x.getProp "states" = .ok (.arr r elems) ∧ elems ≠ [] ∧
        (load w x).1 =
          { w with self :=
              { w.self with _currentAAIM := x, _loadedStates := some (loadLoop [] elems).1 } } ∧
        (load w x).2 =
          (match (loadLoop [] elems).2 with
            | .error e => .error e
            | .ok _ => .ok true)) := by
  cases hr : w.self._running with
  | true => left; simp [load, hr]
  | false =>
    cases ht : x.typeofObject with
    | false => left; simp [load, hr, ht]
    | true =>
      cases hn : x.isNull with
      | true => left; simp [load, hr, hn]
      | false =>
        have hnn : x.isNullish = false := by
          cases x <;> simp_all [JSVal.isNullish, JSVal.isNull, JSVal.typeofObject]
        obtain ⟨states, hs⟩ := JSVal.getProp_ok_of_not_nullish hnn "states"
        cases states with
        | arr r elems =>
          cases elems with
          | nil => left; simp [load, hr, ht, hn, hs, JSVal.isArray, JSVal.arrayLength]
          | cons e rest =>
            right
            refine ⟨rfl, rfl, rfl, r, e :: rest, hs, by simp, ?_, ?_⟩
            · simp only [load, hr, ht, hn, hs, JSVal.isArray, JSVal.arrayLength, JSVal.iterate,
                List.length_cons, gt_iff_lt, Nat.zero_lt_succ, decide_True, Bool.and_self,
                Bool.not_false, if_true]
              cases (loadLoop [] (e :: rest)).2 <;> rfl
            · simp only [load, hr, ht, hn, hs, JSVal.isArray, JSVal.arrayLength, JSVal.iterate,
                List.length_cons, gt_iff_lt, Nat.zero_lt_succ, decide_True, Bool.and_self,
                Bool.not_false, if_true]
              cases (loadLoop [] (e :: rest)).2 <;> rfl
        | _ => left; simp [load, hr, ht, hn, hs, JSVal.isArray]

theorem consistent_new (behavior : Option Behavior) : Consistent (World.new behavior) where
  model := by simp [World.new, JSVal.isUndefined]
  index := by simp [World.new]
  state := rfl
  run := by simp [World.new]

theorem consistent_load {w : World} (h : Consistent w) (x : JSVal) :
    Consistent (load w x).1 := by
  rcases load_cases w x with ⟨h1, _⟩ | ⟨hr, ht, hn, r, elems, _, _, h1, _⟩
  · rw [h1]; exact h
  · rw [h1]
    exact
      { model := fun _ => ⟨hn, rfl⟩
        index := by
          intro m hm e he
          simp only [Option.some.injEq] at hm
          subst hm
          exact loadLoop_values elems [] (by simp) e he
        state := h.state
        run := by intro hrun; simp [hr] at hrun }

theorem consistent_reset {w : World} (h : Consistent w) : Consistent (reset w).1 := by
  unfold reset
  cases hr : w.self._running with
  | true => simpa using h
  | false =>
    exact
      { model := h.model
        index := h.index
        state := rfl
        run := by intro hrun; simp [hr] at hrun }

theorem consistent_promiseFulfilled {w : World} (h : Consistent w) (p : Nat) :
    Consistent (promiseFulfilled w p) := by
  have hs := promiseFulfilled_self w p
  exact
    { model := by rw [hs]; exact h.model
      index := by rw [hs]; exact h.index
      state := by rw [hs]; exact h.state
      run := by rw [hs]; exact h.run }

theorem consistent_promiseRejected {w : World} (h : Consistent w) (p : Nat) :
    Consistent (promiseRejected w p) :=
  { model := h.model, index := h.index, state := h.state, run := h.run }

/-- Entering a state that is neither `undefined` nor `null` keeps the fields
consistent. -/
theorem consistent_enter {w : World} (h : Consistent w) {target : JSVal}
    (ht : target.isNullish = false) {self' : AAIMInterpreter}
    (hs : self' = { w.self with _currentState := target }) {w' : World} (hw : w'.self = self') :
    Consistent w' := by
  have hu : target.isUndefined = false := by
    cases target <;> simp_all [JSVal.isNullish, JSVal.isUndefined]
  have hn : target.isNull = false := by
    cases target <;> simp_all [JSVal.isNullish, JSVal.isNull]
  subst hs
  exact
    { model := by rw [hw]; exact h.model
      index := by rw [hw]; exact h.index
      state := by rw [hw]; exact hn
      run := by
        rw [hw]
        intro hrun
        exact ⟨(h.run hrun).1, hu⟩ }

theorem consistent_executeEvent (looseEq : JSVal → JSVal → Bool) {w : World}
    (h : Consistent w) (name : JSVal) : Consistent (executeEvent looseEq w name).1 := by
  unfold executeEvent
  cases hr : w.self._running with
  | false => simpa using h
  | true =>
    simp only [if_true]
    cases w.self._currentState.getProp "events" with
    | error err => exact h
    | ok events =>
      simp only
      cases events.iterate with
      | error err => exact h
      | ok es =>
        simp only
        rcases executeEventLoop_self looseEq w name es with h1 | ⟨m, goto, hm, hh, h1⟩
        · exact
            { model := by rw [h1]; exact h.model
              index := by rw [h1]; exact h.index
              state := by rw [h1]; exact h.state
              run := by rw [h1]; exact h.run }
        · obtain ⟨e, he, _, hg⟩ := JSMap.get_mem_of_has hh
          have ht : (m.get goto).isNullish = false := by rw [hg]; exact h.index m hm e he
          exact consistent_enter h ht rfl h1

theorem consistent_of {w w' : World} (h : Consistent w)
    (hA : w'.self._currentAAIM = w.self._currentAAIM)
    (hL : w'.self._loadedStates = w.self._loadedStates)
    (hS : w'.self._currentState.isNull = false)
    (hR : w'.self._running = true →
      w.self._currentAAIM.isUndefined = false ∧ w'.self._currentState.isUndefined = false) :
    Consistent w' :=
  { model := by rw [hA, hL]; exact h.model
    index := by rw [hL]; exact h.index
    state := hS
    run := by rw [hA]; exact hR }

theorem JSVal.isNullish_eq_false_iff (v : JSVal) :
    v.isNullish = false ↔ v.isUndefined = false ∧ v.isNull = false := by
  cases v <;> simp [JSVal.isNullish, JSVal.isUndefined, JSVal.isNull]

theorem consistent_setRunning {w : World} (h : Consistent w) (run : JSVal) :
    Consistent (setRunning w run).1 := by
  unfold setRunning
  by_cases hc : (run.toBoolean && !w.self._running && !w.self._currentAAIM.isUndefined) = true
  · rw [if_pos hc]
    simp only [Bool.and_eq_true, Bool.not_eq_true'] at hc
    obtain ⟨⟨_, _⟩, hu⟩ := hc
    obtain ⟨hnull, hsome⟩ := h.model hu
    simp only
    by_cases hst : w.self._currentState.isUndefined = true
    · rw [if_pos hst]
      have hnn : w.self._currentAAIM.isNullish = false :=
        (JSVal.isNullish_eq_false_iff _).mpr ⟨hu, hnull⟩
      obtain ⟨initial, hi⟩ := JSVal.getProp_ok_of_not_nullish hnn "initial"
      rw [hi]
      simp only
      by_cases hty : initial.typeofString = true
      · rw [if_pos hty]
        obtain ⟨m, hm⟩ := Option.isSome_iff_exists.mp hsome
        rw [hm]
        simp only
        by_cases hh : m.has initial = true
        · rw [if_pos hh]
          obtain ⟨e, he, _, hg⟩ := JSMap.get_mem_of_has hh
          have ht : (m.get initial).isNullish = false := by rw [hg]; exact h.index m hm e he
          have ht' := (JSVal.isNullish_eq_false_iff _).mp ht
          refine consistent_of h ?_ ?_ ?_ ?_ <;> rw [_performTransition_self] <;>
            simp [hm, ht'.1, ht'.2, hu]
        · rw [if_neg hh]
          exact consistent_of h rfl (by simp [hm]) h.state (by intro hr; simp at hr)
      · rw [if_neg hty]
        exact consistent_of h rfl rfl h.state (by intro hr; simp at hr)
    · rw [if_neg hst]
      exact consistent_of h rfl rfl h.state (fun _ => ⟨hu, by simpa using hst⟩)
  · rw [if_neg hc]
    exact consistent_of h rfl rfl h.state (by intro hr; simp at hr)

theorem consistent_step {looseEq : JSVal → JSVal → Bool} {w w' : World}
    (h : Consistent w) (hs : Step looseEq w w') : Consistent w' := by
  cases hs with
  | load x => exact consistent_load h x
  | setRunning run => exact consistent_setRunning h run
  | reset => exact consistent_reset h
  | executeEvent name => exact consistent_executeEvent looseEq h name
  | fulfilled p => exact consistent_promiseFulfilled h p
  | rejected p => exact consistent_promiseRejected h p

/-- Every state an interpreter can be in is consistent. -/
theorem reachable_consistent {looseEq : JSVal → JSVal → Bool} {w : World}
    (h : Reachable looseEq w) : Consistent w := by
  induction h with
  | new behavior => exact consistent_new behavior
  | step _ hs ih => exact consistent_step ih hs

theorem load_accept (w : World) (M : JSVal) (r : Nat) (elems : List JSVal)
    (hp : w.self._running = false) (hs : M.getProp "states" = .ok (.arr r elems))
    (hne : elems ≠ []) :
    load w M =
      ({ w with self :=
          { w.self with _currentAAIM := M, _loadedStates := some (loadLoop [] elems).1 } },
        match (loadLoop [] elems).2 with
          | .error e => .error e
          | .ok _ => .ok true) := by
  have hobj : M.typeofObject = true ∧ M.isNull = false := by
    cases M <;> simp_all [JSVal.getProp, JSVal.typeofObject, JSVal.isNull]
  cases elems with
  | nil => exact absurd rfl hne
  | cons e rest =>
    simp only [load, hp, hobj.1, hobj.2, hs, JSVal.isArray, JSVal.arrayLength, JSVal.iterate,
      List.length_cons, gt_iff_lt, Nat.zero_lt_succ, decide_True, Bool.and_self,
      Bool.not_false, if_true]
    cases (loadLoop [] (e :: rest)).2 <;> rfl

theorem distinctNames_symm : Symmetric distinctNames := by
  intro a b h nb na hb ha
  rw [JSVal.sameValueZero_symm]
  exact h na nb ha hb

/-- In an index built from states with pairwise distinct names, a name leads
to the one state that bears it. -/
theorem indexed_get_unique {elems : List JSVal} {m : JSMap} (hm : Indexed elems m)
    (hd : elems.Pairwise distinctNames) {s n k : JSVal} (hs : s ∈ elems)
    (hn : s.getProp "name" = .ok n) (hk : JSVal.sameValueZero n k = true)
    (hh : m.has k = true) : m.get k = s := by
  obtain ⟨e, he, hek, hg⟩ := JSMap.get_mem_of_has hh
  obtain ⟨hmem, n', hn', hne⟩ := hm e he
  rw [hg]
  by_contra hc
  have hdist := hd.forall distinctNames_symm hmem hs hc n' n hn' hn
  have h1 : JSVal.sameValueZero n' k = true := JSVal.sameValueZero_trans hne hek
  have h2 : JSVal.sameValueZero n' n = true :=
    JSVal.sameValueZero_trans h1 (by rw [JSVal.sameValueZero_symm]; exact hk)
  rw [h2] at hdist
  exact Bool.noConfusion hdist

/-! ## The claims -/

/-- C1: for a model `M` whose `states` is a non-empty array of states with
pairwise distinct names and whose `initial` is a string naming the state `s`,
on an interpreter that is not running and has no current state, `load(M)`
returns `true`, and setting `running = true` afterwards leaves `running` true
and `s` the current state. -/
theorem load_then_run_enters_initial (w : World) (M : JSVal) (r : Nat) (elems : List JSVal)
    (i : String) (s : JSVal)
    (hpaused : w.self._running = false)
    (hstate : w.self._currentState = JSVal.undefined)
    (hstates : M.getProp "states" = .ok (.arr r elems))
    (hobjs : ∀ x ∈ elems, x.isNullish = false)
    (hdistinct : elems.Pairwise distinctNames)
    (hinitial : M.getProp "initial" = .ok (.str i))
    (hs : s ∈ elems) (hname : s.getProp "name" = .ok (.str i)) :
    (load w M).2 = .ok true ∧
      (setRunning (load w M).1 (.bool true)).1.self._running = true ∧
      (setRunning (load w M).1 (.bool true)).1.self._currentState = s := by
  have hne : elems ≠ [] := List.ne_nil_of_mem hs
  have hload := load_accept w M r elems hpaused hstates hne
  have hok := loadLoop_ok elems hobjs []
  have hhas : (loadLoop [] elems).1.has (.str i) = true :=
    (loadLoop_has elems [] hok (.str i)).mpr
      (Or.inr ⟨s, hs, .str i, hname, JSVal.sameValueZero_refl _⟩)
  have hidx : Indexed elems (loadLoop [] elems).1 :=
    loadLoop_indexed elems elems [] (by intro e he; cases he) (fun _ h => h)
  have hget := indexed_get_unique hidx hdistinct hs hname (JSVal.sameValueZero_refl _) hhas
  have hM : M.isUndefined = false := by
    cases M <;> simp_all [JSVal.getProp, JSVal.isUndefined]
  have hU : JSVal.undefined.isUndefined = true := rfl
  rw [hload, hok]
  refine ⟨rfl, ?_⟩
  simp only [setRunning, JSVal.toBoolean, hpaused, hM, hstate, hU, hinitial,
    JSVal.typeofString, hhas, Bool.not_false, Bool.and_self, if_true]
  rw [_performTransition_self]
  exact ⟨rfl, hget⟩

/-- C2: when the elements of `x.states` (if it is an array) are objects,
`load(x)` returns a boolean, which is `true` exactly when the interpreter is
not running and `x` is a non-null object whose `states` is a non-empty array;
when it is `false` nothing has changed. -/
theorem load_true_iff (w : World) (x : JSVal)
    (hobjs : ∀ r elems, x.getProp "states" = .ok (.arr r elems) →
      ∀ s ∈ elems, s.isNullish = false) :
    ∃ b, (load w x).2 = .ok b ∧
      (b = true ↔
        (w.self._running = false ∧ x.typeofObject = true ∧ x.isNull = false ∧
          ∃ r elems, x.getProp "states" = .ok (.arr r elems) ∧ elems ≠ [])) ∧
      (b = false → (load w x).1 = w) := by
  rcases load_cases w x with ⟨h1, h2⟩ | ⟨hr, ht, hn, r, elems, hs, hne, _, h2⟩
  · refine ⟨false, h2, ?_, fun _ => h1⟩
    constructor
    · intro h; cases h
    · rintro ⟨hr, _, _, r, elems, hs, hne⟩
      have hload := load_accept w x r elems hr hs hne
      rw [hload, loadLoop_ok elems (hobjs r elems hs) []] at h2
      cases h2
  · rw [loadLoop_ok elems (hobjs r elems hs) []] at h2
    refine ⟨true, h2, ?_, fun h => by cases h⟩
    exact ⟨fun _ => ⟨hr, ht, hn, r, elems, hs, hne⟩, fun _ => rfl⟩

theorem simple_distinct : [simpleSecond, simpleFirst, simpleThird].Pairwise distinctNames := by
  simp only [List.pairwise_cons, List.mem_cons, List.mem_singleton, List.not_mem_nil,
    forall_eq_or_imp, forall_eq, List.Pairwise.nil, and_true, IsEmpty.forall_iff,
    implies_true]
  refine ⟨⟨?_, ?_⟩, ?_⟩ <;> intro na nb ha hb <;> cases ha <;> cases hb <;> rfl

/-- C1 at the model `aaims.simple` of the test suite, loaded into a new
interpreter and started: it enters `First`, the second state of the list. -/
theorem load_then_run_enters_initial_witness :
    (load (World.new none) simple).2 = .ok true ∧
      (setRunning (load (World.new none) simple).1 (.bool true)).1.self._running = true ∧
      (setRunning (load (World.new none) simple).1 (.bool true)).1.self._currentState
        = simpleFirst :=
  load_then_run_enters_initial (World.new none) simple 1
    [simpleSecond, simpleFirst, simpleThird] "First" simpleFirst rfl rfl rfl
    (by intro x hx; simp only [List.mem_cons, List.mem_singleton, List.not_mem_nil, or_false] at hx
        rcases hx with h | h | h <;> subst h <;> rfl)
    simple_distinct rfl (by simp) rfl

/-- C2 at the model `aaims.simple`, whose states are objects, on a new
interpreter. -/
theorem load_true_iff_witness :
    ∃ b, (load (World.new none) simple).2 = .ok b ∧
      (b = true ↔
        ((World.new none).self._running = false ∧
          simple.typeofObject = true ∧ simple.isNull = false ∧
          ∃ r elems, simple.getProp "states" = .ok (.arr r elems) ∧ elems ≠ [])) ∧
      (b = false → (load (World.new none) simple).1 = World.new none) :=
  load_true_iff (World.new none) simple
    (by intro r elems h s hs
        have h' : JSVal.arr 1 [simpleSecond, simpleFirst, simpleThird] = JSVal.arr r elems :=
          Except.ok.inj h
        cases h'
        simp only [List.mem_cons, List.mem_singleton, List.not_mem_nil, or_false] at hs
        rcases hs with h | h | h <;> subst h <;> rfl)

theorem executeEventLoop_skip (looseEq : JSVal → JSVal → Bool) (w : World) (m : JSMap)
    (hm : w.self._loadedStates = some m) (name : JSVal) (rest : List JSVal) :
    ∀ pre : List JSVal, (∀ x ∈ pre, x.isNullish = false) →
      (∀ x ∈ pre, fires looseEq m name x = false) →
      executeEventLoop looseEq w name (pre ++ rest) = executeEventLoop looseEq w name rest := by
  intro pre
  induction pre with
  | nil => intro _ _; rfl
  | cons e pre ih =>
    intro hobj hno
    have ih' := ih (fun x hx => hobj x (List.mem_cons_of_mem _ hx))
      (fun x hx => hno x (List.mem_cons_of_mem _ hx))
    obtain ⟨t, ht⟩ := JSVal.getProp_ok_of_not_nullish (hobj e (List.mem_cons_self _ _)) "on"
    obtain ⟨g, hg⟩ := JSVal.getProp_ok_of_not_nullish (hobj e (List.mem_cons_self _ _)) "goto"
    have hf := hno e (List.mem_cons_self _ _)
    simp only [fires, ht, hg, Bool.and_eq_false_iff] at hf
    rw [List.cons_append, executeEventLoop]
    simp only [ht, hm, hg]
    by_cases hq : looseEq t name = true
    · rw [if_pos hq]
      have hh : m.has g = false := by
        rcases hf with h | h
        · rw [hq] at h; cases h
        · exact h
      simp only [hh, Bool.false_eq_true, if_false]
      exact ih'
    · rw [if_neg hq]
      exact ih'

theorem executeEventLoop_fire (looseEq : JSVal → JSVal → Bool) (w : World) (m : JSMap)
    (hm : w.self._loadedStates = some m) (name e goto : JSVal) (post : List JSVal)
    (hf : fires looseEq m name e = true) (hg : e.getProp "goto" = .ok goto) :
    ∃ d, e.getProp "do" = .ok d ∧
      executeEventLoop looseEq w name (e :: post) = _performTransition w (m.get goto) d := by
  have hnn := JSVal.not_nullish_of_getProp_ok hg
  obtain ⟨t, ht⟩ := JSVal.getProp_ok_of_not_nullish hnn "on"
  obtain ⟨d, hd⟩ := JSVal.getProp_ok_of_not_nullish hnn "do"
  simp only [fires, ht, hg, Bool.and_eq_true] at hf
  refine ⟨d, hd, ?_⟩
  unfold executeEventLoop
  simp only [ht, hf.1, hm, hg, hf.2, hd, if_true]

theorem executeEventLoop_none (looseEq : JSVal → JSVal → Bool) (w : World) (m : JSMap)
    (hm : w.self._loadedStates = some m) (name : JSVal) (es : List JSVal)
    (hobj : ∀ x ∈ es, x.isNullish = false) (hno : ∀ x ∈ es, fires looseEq m name x = false) :
    executeEventLoop looseEq w name es = (w, .ok ()) := by
  have h := executeEventLoop_skip looseEq w m hm name [] es hobj hno
  rw [List.append_nil] at h
  rw [h]
  rfl

/-- C3: on a running interpreter whose current state has a list of events,
`executeEvent(name)` performs exactly the transition of the first event, in
the order of the list, whose `on` matches `name` and whose `goto` is a key of
the index: the current state becomes the state the index holds for that
`goto`, and nothing else of the interpreter changes; events that match but
whose `goto` is no key are passed over. When no event fires, nothing changes. -/
theorem executeEvent_first_match (looseEq : JSVal → JSVal → Bool) (w : World)
    (hreach : Reachable looseEq w) (hrun : w.self._running = true) (name : JSVal)
    (r : Nat) (es : List JSVal)
    (hevents : w.self._currentState.getProp "events" = .ok (.arr r es))
    (hobjs : ∀ e ∈ es, e.isNullish = false) :
    ∃ m, w.self._loadedStates = some m ∧
      (∀ pre e post goto, es = pre ++ e :: post →
        (∀ x ∈ pre, fires looseEq m name x = false) →
        fires looseEq m name e = true → e.getProp "goto" = .ok goto →
        (∃ d, e.getProp "do" = .ok d ∧
          executeEvent looseEq w name = _performTransition w (m.get goto) d) ∧
        (executeEvent looseEq w name).1.self = { w.self with _currentState := m.get goto }) ∧
      ((∀ x ∈ es, fires looseEq m name x = false) →
        executeEvent looseEq w name = (w, .ok ())) := by
  have hc := reachable_consistent hreach
  obtain ⟨m, hm⟩ := Option.isSome_iff_exists.mp (hc.model (hc.run hrun).1).2
  have hev : executeEvent looseEq w name = executeEventLoop looseEq w name es := by
    simp only [executeEvent, hrun, hevents, JSVal.iterate, if_true]
  refine ⟨m, hm, ?_, ?_⟩
  · intro pre e post goto hes hpre hf hg
    subst hes
    have hskip := executeEventLoop_skip looseEq w m hm name (e :: post) pre
      (fun x hx => hobjs x (List.mem_append_left _ hx)) hpre
    obtain ⟨d, hd, hfire⟩ := executeEventLoop_fire looseEq w m hm name e goto post hf hg
    have heq : executeEvent looseEq w name = _performTransition w (m.get goto) d := by
      rw [hev, hskip, hfire]
    exact ⟨⟨d, hd, heq⟩, by rw [heq, _performTransition_self]⟩
  · intro hno
    rw [hev]
    exact executeEventLoop_none looseEq w m hm name es hobjs hno

theorem simpleLoaded_reachable : Reachable strictEq simpleLoaded :=
  Reachable.step (Reachable.new (some spy)) (Step.load _ simple)

theorem simpleRunning_reachable : Reachable strictEq simpleRunning :=
  Reachable.step simpleLoaded_reachable (Step.setRunning _ (.bool true))

/-- C3 at the running interpreter of the test suite, in state `First`, for
the event name `secondarize`. -/
theorem executeEvent_first_match_witness :
    ∃ m, simpleRunning.self._loadedStates = some m ∧
      (∀ pre e post goto,
        [JSVal.obj 8 [("on", .str "secondarize"), ("goto", .str "Second")],
          JSVal.obj 9 [("on", .str "thirdify"), ("goto", .str "Third"),
            ("do", .str "NothingOnTheWay")]] = pre ++ e :: post →
        (∀ x ∈ pre, fires strictEq m (.str "secondarize") x = false) →
        fires strictEq m (.str "secondarize") e = true → e.getProp "goto" = .ok goto →
        (∃ d, e.getProp "do" = .ok d ∧
          executeEvent strictEq simpleRunning (.str "secondarize")
            = _performTransition simpleRunning (m.get goto) d) ∧
        (executeEvent strictEq simpleRunning (.str "secondarize")).1.self
          = { simpleRunning.self with _currentState := m.get goto }) ∧
      ((∀ x ∈ [JSVal.obj 8 [("on", .str "secondarize"), ("goto", .str "Second")],
          JSVal.obj 9 [("on", .str "thirdify"), ("goto", .str "Third"),
            ("do", .str "NothingOnTheWay")]], fires strictEq m (.str "secondarize") x = false) →
        executeEvent strictEq simpleRunning (.str "secondarize") = (simpleRunning, .ok ())) :=
  executeEvent_first_match strictEq simpleRunning simpleRunning_reachable rfl
    (.str "secondarize") 7 _ rfl
    (by intro e he
        simp only [List.mem_cons, List.mem_singleton, List.not_mem_nil, or_false] at he
        rcases he with h | h <;> subst h <;> rfl)

/-- C4, evaluated: on the running interpreter of the test suite, setting
`running = true` once more leaves `running` false (the current state and the
model are kept). -/
theorem setRunning_true_while_running_pauses :
    simpleRunning.self._running = true ∧
      (setRunning simpleRunning (.bool true)).1.self._running = false ∧
      (setRunning simpleRunning (.bool true)).1.self._currentState
        = simpleRunning.self._currentState ∧
      (setRunning simpleRunning (.bool true)).1.self._currentAAIM
        = simpleRunning.self._currentAAIM :=
  ⟨rfl, rfl, rfl, rfl⟩

/-- C5: setting `running = false` leaves `running` false and everything else
as it was, and doing it twice is doing it once; on a running interpreter,
setting `running = false` and then `running = true` gives back the state
before the pause: `running` is true, the current state is the same, and the
coordinator has received no call. -/
theorem pause_then_resume (looseEq : JSVal → JSVal → Bool) (w : World) :
    setRunning w (.bool false) = ({ w with self := { w.self with _running := false } }, .ok ()) ∧
      setRunning (setRunning w (.bool false)).1 (.bool false) = setRunning w (.bool false) ∧
      (Reachable looseEq w → w.self._running = true →
        setRunning (setRunning w (.bool false)).1 (.bool true) = (w, .ok ()) ∧
        (setRunning (setRunning w (.bool false)).1 (.bool true)).1.self._running = true ∧
        (setRunning (setRunning w (.bool false)).1 (.bool true)).1.self._currentState
          = w.self._currentState ∧
        (setRunning (setRunning w (.bool false)).1 (.bool true)).1.calls = w.calls) := by
  have h1 : ∀ v : World, setRunning v (.bool false)
      = ({ v with self := { v.self with _running := false } }, .ok ()) := by
    intro v
    simp [setRunning, JSVal.toBoolean]
  refine ⟨h1 w, by rw [h1 w, h1], ?_⟩
  intro hreach hrun
  have hc := reachable_consistent hreach
  obtain ⟨hu, hs⟩ := hc.run hrun
  have heq : setRunning (setRunning w (.bool false)).1 (.bool true) = (w, .ok ()) := by
    rw [h1 w]
    simp only [setRunning, JSVal.toBoolean, hu, hs, Bool.not_false, Bool.and_self, if_true,
      Bool.false_eq_true, if_false]
    rw [← hrun]
  rw [heq]
  exact ⟨rfl, hrun, rfl, rfl⟩

/-- C5 at the running interpreter of the test suite. -/
theorem pause_then_resume_witness :
    setRunning (setRunning simpleRunning (.bool false)).1 (.bool true) = (simpleRunning, .ok ()) ∧
      (setRunning (setRunning simpleRunning (.bool false)).1 (.bool true)).1.self._running
        = true ∧
      (setRunning (setRunning simpleRunning (.bool false)).1 (.bool true)).1.self._currentState
        = simpleRunning.self._currentState ∧
      (setRunning (setRunning simpleRunning (.bool false)).1 (.bool true)).1.calls
        = simpleRunning.calls :=
  (pause_then_resume strictEq simpleRunning).2.2 simpleRunning_reachable rfl

/-- C6: on a paused interpreter without a current state, setting
`running = true` changes nothing and calls nothing on the coordinator when no
model is loaded, when `initial` of the loaded model is not a string, or when
it is no key of the index: `running` stays false and the current state
`undefined`. -/
theorem run_without_initial_fails (w : World)
    (hpaused : w.self._running = false)
    (hstate : w.self._currentState = JSVal.undefined)
    (h : w.self._currentAAIM = JSVal.undefined ∨
      ∃ i, w.self._currentAAIM.getProp "initial" = .ok i ∧
        (i.typeofString = false ∨ ∃ m, w.self._loadedStates = some m ∧ m.has i = false)) :
    setRunning w (.bool true) = (w, .ok ()) ∧
      (setRunning w (.bool true)).1.self._running = false ∧
      (setRunning w (.bool true)).1.self._currentState = JSVal.undefined ∧
      (setRunning w (.bool true)).1.self._currentAAIM = w.self._currentAAIM ∧
      (setRunning w (.bool true)).1.calls = w.calls := by
  have heq : setRunning w (.bool true) = (w, .ok ()) := by
    obtain ⟨⟨b, rn, aaim, st, idx⟩, cs, rs⟩ := w
    simp only at hpaused hstate h
    subst hpaused hstate
    have hU : JSVal.undefined.isUndefined = true := rfl
    rcases h with h | ⟨i, hi, h⟩
    · subst h
      simp [setRunning, hU]
    · have hu : aaim.isUndefined = false := by
        cases aaim <;> simp_all [JSVal.getProp, JSVal.isUndefined]
      rcases h with h | ⟨m, hm, hh⟩
      · simp [setRunning, JSVal.toBoolean, hu, hU, hi, h]
      · subst hm
        cases hty : i.typeofString <;> simp [setRunning, JSVal.toBoolean, hu, hU, hi, hty, hh]
  rw [heq]
  exact ⟨rfl, hpaused, hstate, rfl, rfl⟩

/-- C6 at the model `aaims.missingInitial` of the test suite, whose `initial`
names no state. -/
theorem run_without_initial_fails_witness :
    setRunning missingInitialLoaded (.bool true) = (missingInitialLoaded, .ok ()) ∧
      (setRunning missingInitialLoaded (.bool true)).1.self._running = false ∧
      (setRunning missingInitialLoaded (.bool true)).1.self._currentState = JSVal.undefined ∧
      (setRunning missingInitialLoaded (.bool true)).1.self._currentAAIM
        = missingInitialLoaded.self._currentAAIM ∧
      (setRunning missingInitialLoaded (.bool true)).1.calls = missingInitialLoaded.calls :=
  run_without_initial_fails missingInitialLoaded rfl rfl
    (Or.inr ⟨.str "Init", rfl, Or.inr ⟨[(.str "One", .obj 32 [("name", .str "One")])], rfl, rfl⟩⟩)

/-- C7: `reset()` on an interpreter that is not running sets the current
state to `undefined` and changes nothing else; on a running interpreter it
changes nothing. -/
theorem reset_effect (w : World) :
    (w.self._running = false →
      reset w = ({ w with self := { w.self with _currentState := JSVal.undefined } }, .ok ())) ∧
    (w.self._running = true → reset w = (w, .ok ())) := by
  constructor <;> intro h <;> simp [reset, h]

/-- C7 at the interpreter of the test suite, paused in `First`, and at the
same interpreter running. -/
theorem reset_effect_witness :
    reset (setRunning simpleRunning (.bool false)).1 =
        ({ (setRunning simpleRunning (.bool false)).1 with
            self := { (setRunning simpleRunning (.bool false)).1.self with
              _currentState := JSVal.undefined } }, .ok ()) ∧
      reset simpleRunning = (simpleRunning, .ok ()) :=
  ⟨(reset_effect (setRunning simpleRunning (.bool false)).1).1 rfl,
    (reset_effect simpleRunning).2 rfl⟩

/-- C8: when `load(M)` returns `true`, the loaded model is `M`, the index has
a key for a name exactly when a state of `M` has that name, and what it holds
for the key is a state of `M` with that name; the current state, the running
flag and the coordinator are untouched. -/
theorem load_builds_index (w : World) (M : JSVal) (h : (load w M).2 = .ok true) :
    (load w M).1.self._currentAAIM = M ∧
      (∃ m r elems, (load w M).1.self._loadedStates = some m ∧
        M.getProp "states" = .ok (.arr r elems) ∧
        (∀ k, m.has k = true ↔
          ∃ s ∈ elems, ∃ n, s.getProp "name" = .ok n ∧ JSVal.sameValueZero n k = true) ∧
        (∀ k, m.has k = true →
          m.get k ∈ elems ∧
            ∃ n, (m.get k).getProp "name" = .ok n ∧ JSVal.sameValueZero n k = true)) ∧
      (load w M).1.self._currentState = w.self._currentState ∧
      (load w M).1.self._running = w.self._running ∧
      (load w M).1.self._behavior = w.self._behavior ∧
      (load w M).1.calls = w.calls ∧ (load w M).1.reactions = w.reactions := by
  rcases load_cases w M with ⟨_, h2⟩ | ⟨_, _, _, r, elems, hs, _, h1, h2⟩
  · rw [h2] at h; cases h
  · have hok : (loadLoop [] elems).2 = .ok () := by
      cases hl : (loadLoop [] elems).2 with
      | error e => rw [h2, hl] at h; cases h
      | ok u => rfl
    have hidx : Indexed elems (loadLoop [] elems).1 :=
      loadLoop_indexed elems elems [] (by intro e he; cases he) (fun _ hx => hx)
    rw [h1]
    refine ⟨rfl, ⟨(loadLoop [] elems).1, r, elems, rfl, hs, ?_, ?_⟩, rfl, rfl, rfl, rfl, rfl⟩
    · intro k
      rw [loadLoop_has elems [] hok k]
      simp [JSMap.has]
    · intro k hk
      obtain ⟨e, he, hek, hg⟩ := JSMap.get_mem_of_has hk
      obtain ⟨hmem, n, hn, hne⟩ := hidx e he
      rw [hg]
      exact ⟨hmem, n, hn, JSVal.sameValueZero_trans hne hek⟩

/-- C8 at `load(aaims.missingInitial)` on the paused interpreter of the test
suite, which keeps `First` as its current state. -/
theorem load_builds_index_witness :
    (load (setRunning simpleRunning (.bool false)).1 missingInitial).1.self._currentAAIM
        = missingInitial ∧
      (load (setRunning simpleRunning (.bool false)).1 missingInitial).1.self._currentState
        = simpleFirst :=
  ⟨(load_builds_index (setRunning simpleRunning (.bool false)).1 missingInitial rfl).1,
    (load_builds_index (setRunning simpleRunning (.bool false)).1 missingInitial rfl).2.2.1⟩

/-- C9: on an interpreter that is not running, `executeEvent(name)` changes
nothing and calls nothing on the coordinator, whatever the name. -/
theorem executeEvent_paused (looseEq : JSVal → JSVal → Bool) (w : World) (name : JSVal)
    (h : w.self._running = false) :
    executeEvent looseEq w name = (w, .ok ()) ∧
      (executeEvent looseEq w name).1.self._currentState = w.self._currentState ∧
      (executeEvent looseEq w name).1.self._running = false ∧
      (executeEvent looseEq w name).1.self._currentAAIM = w.self._currentAAIM ∧
      (executeEvent looseEq w name).1.calls = w.calls := by
  have heq : executeEvent looseEq w name = (w, .ok ()) := by simp [executeEvent, h]
  rw [heq]
  exact ⟨rfl, rfl, h, rfl, rfl⟩

/-- C9 at the paused interpreter of the test suite and the event name
`secondarize`, which would fire if it were running. -/
theorem executeEvent_paused_witness :
    executeEvent strictEq (setRunning simpleRunning (.bool false)).1 (.str "secondarize")
        = ((setRunning simpleRunning (.bool false)).1, .ok ()) ∧
      (executeEvent strictEq (setRunning simpleRunning (.bool false)).1
        (.str "secondarize")).1.self._currentState = simpleFirst :=
  ⟨(executeEvent_paused strictEq (setRunning simpleRunning (.bool false)).1
      (.str "secondarize") rfl).1,
    (executeEvent_paused strictEq (setRunning simpleRunning (.bool false)).1
      (.str "secondarize") rfl).2.1⟩

theorem runReaction_calls {w : World} {b : Behavior} (hb : w.self._behavior = some b)
    {r : Reaction} {d : JSVal} (hd : r.target.getProp "do" = .ok d) :
    (runReaction w r).calls = w.calls ++ [⟨Call.executeState d, w.self._currentState⟩] := by
  simp only [runReaction, hb, hd]

theorem runReaction_reactions (w : World) (r : Reaction) :
    (runReaction w r).reactions = w.reactions := by
  unfold runReaction
  cases w.self._behavior with
  | none => rfl
  | some b => simp only; cases r.target.getProp "do" <;> rfl

theorem runReaction_calls_grow (w : World) (r : Reaction) :
    ∃ mid, (runReaction w r).calls = w.calls ++ mid := by
  unfold runReaction
  cases w.self._behavior with
  | none => exact ⟨[], by simp⟩
  | some b =>
    simp only
    cases r.target.getProp "do" with
    | error e => exact ⟨[], by simp⟩
    | ok d => exact ⟨_, rfl⟩

theorem foldl_runReaction_calls (rs : List Reaction) :
    ∀ w : World, ∃ mid, (rs.foldl runReaction w).calls = w.calls ++ mid := by
  induction rs with
  | nil => intro w; exact ⟨[], by simp⟩
  | cons r rest ih =>
    intro w
    obtain ⟨mid1, h1⟩ := runReaction_calls_grow w r
    obtain ⟨mid2, h2⟩ := ih (runReaction w r)
    exact ⟨mid1 ++ mid2, by rw [List.foldl_cons, h2, h1, List.append_assoc]⟩

theorem promiseRejected_none_left (w : World) (p : Nat) :
    ∀ r ∈ (promiseRejected w p).reactions, r.promise ≠ p := by
  intro r hr
  simp only [promiseRejected, List.mem_filter, bne_iff_ne, ne_eq] at hr
  exact hr.2

theorem promiseFulfilled_of_none {w : World} {p : Nat}
    (h : ∀ r ∈ w.reactions, r.promise ≠ p) : (promiseFulfilled w p).calls = w.calls := by
  have h1 : w.reactions.filter (fun r => r.promise == p) = [] := by
    rw [List.filter_eq_nil_iff]
    intro r hr
    simpa using h r hr
  simp only [promiseFulfilled, h1, List.foldl_nil]

theorem promiseFulfilled_append (w : World) (p : Nat) (rs : List Reaction) (r : Reaction)
    (hr : r.promise = p) (hw : w.reactions = rs ++ [r]) :
    promiseFulfilled w p =
      runReaction
        ((rs.filter (fun x => x.promise == p)).foldl runReaction
          { w with reactions := w.reactions.filter (fun x => x.promise != p) }) r := by
  unfold promiseFulfilled
  rw [hw]
  simp only [List.filter_append, List.filter_cons, List.filter_nil, hr, beq_self_eq_true,
    if_true, List.foldl_append, List.foldl_cons, List.foldl_nil]

/-- C10: with a coordinator attached, `_performTransition(target, config)`
makes `target` the current state, and every call it makes on the coordinator
sees `target` as the current state. With a transition configuration it makes
one call, `executeTransition(config)`, and registers a callback on the promise
returned: when that promise is fulfilled, `executeState(target.do)` is called,
after the callbacks registered earlier on the same promise; when it is
rejected, nothing is called, the callback is dropped for good and the current
state stays `target`. Without a transition configuration it makes exactly one
call, `executeState(target.do)`, and registers nothing. -/
theorem performTransition_order (w : World) (b : Behavior) (hb : w.self._behavior = some b)
    (target config : JSVal) :
    (_performTransition w target config).1.self = { w.self with _currentState := target } ∧
    (∃ new, (_performTransition w target config).1.calls = w.calls ++ new ∧
      ∀ c ∈ new, c.state = target) ∧
    (config.toBoolean = true →
      (_performTransition w target config).1.calls
        = w.calls ++ [⟨Call.executeTransition config, target⟩] ∧
      ∀ p, b.executeTransition w.calls config = .ok (some p) →
        (_performTransition w target config).2 = .ok () ∧
        (_performTransition w target config).1.reactions = w.reactions ++ [⟨p, target⟩] ∧
        ∀ d, target.getProp "do" = .ok d →
          (∃ mid, (promiseFulfilled (_performTransition w target config).1 p).calls
            = (_performTransition w target config).1.calls ++ mid
              ++ [⟨Call.executeState d, target⟩]) ∧
          ((∀ r ∈ w.reactions, r.promise ≠ p) →
            (promiseFulfilled (_performTransition w target config).1 p).calls
              = w.calls ++ [⟨Call.executeTransition config, target⟩,
                  ⟨Call.executeState d, target⟩]) ∧
          (promiseRejected (_performTransition w target config).1 p).calls
            = (_performTransition w target config).1.calls ∧
          (promiseRejected (_performTransition w target config).1 p).self._currentState
            = target ∧
          (∀ r ∈ (promiseRejected (_performTransition w target config).1 p).reactions,
            r.promise ≠ p) ∧
          (promiseFulfilled (promiseRejected (_performTransition w target config).1 p) p).calls
            = (_performTransition w target config).1.calls) ∧
    (config.toBoolean = false → ∀ d, target.getProp "do" = .ok d →
      (_performTransition w target config).1.calls
        = w.calls ++ [⟨Call.executeState d, target⟩] ∧
      (_performTransition w target config).1.reactions = w.reactions) := by
  refine ⟨_performTransition_self w target config, ?_, ?_, ?_⟩
  · unfold _performTransition
    cases hc : config.toBoolean
    · simp only [hb]
      cases target.getProp "do" with
      | error e => exact ⟨[], by simp, by simp⟩
      | ok d =>
        simp only
        cases b.executeState w.calls d <;> exact ⟨_, rfl, by simp⟩
    · simp only [hb]
      cases b.executeTransition w.calls config with
      | error e => exact ⟨_, rfl, by simp⟩
      | ok o => cases o <;> exact ⟨_, rfl, by simp⟩
  · intro hc
    have hcalls : (_performTransition w target config).1.calls
        = w.calls ++ [⟨Call.executeTransition config, target⟩] := by
      unfold _performTransition
      simp only [hc, hb]
      cases b.executeTransition w.calls config with
      | error e => rfl
      | ok o => cases o <;> rfl
    refine ⟨hcalls, ?_⟩
    intro p hp
    have hout : _performTransition w target config =
        ({ self := { w.self with _currentState := target }
           calls := w.calls ++ [⟨Call.executeTransition config, target⟩]
           reactions := w.reactions ++ [⟨p, target⟩] }, .ok ()) := by
      unfold _performTransition
      simp only [hc, hb, hp]
    refine ⟨by rw [hout], by rw [hout], ?_⟩
    intro d hd
    have hrej := promiseRejected_none_left (_performTransition w target config).1 p
    have hfold := promiseFulfilled_append (_performTransition w target config).1 p
      w.reactions ⟨p, target⟩ rfl (by rw [hout])
    have hself := foldl_runReaction_self (w.reactions.filter (fun r => r.promise == p))
      { (_performTransition w target config).1 with
        reactions := (_performTransition w target config).1.reactions.filter
          (fun r => r.promise != p) }
    obtain ⟨mid, hmid⟩ := foldl_runReaction_calls (w.reactions.filter (fun r => r.promise == p))
      { (_performTransition w target config).1 with
        reactions := (_performTransition w target config).1.reactions.filter
          (fun r => r.promise != p) }
    have hst : (_performTransition w target config).1.self._currentState = target := by
      rw [hout]
    have hb' : ((w.reactions.filter (fun r => r.promise == p)).foldl runReaction
        { (_performTransition w target config).1 with
          reactions := (_performTransition w target config).1.reactions.filter
            (fun r => r.promise != p) }).self._behavior = some b := by
      rw [hself, hout]; exact hb
    refine ⟨⟨mid, ?_⟩, ?_, rfl, ?_, hrej, promiseFulfilled_of_none hrej⟩
    · rw [hfold, runReaction_calls hb' hd, hmid, hself, hst]
    · intro hfresh
      have h1 : w.reactions.filter (fun r => r.promise == p) = [] := by
        rw [List.filter_eq_nil_iff]
        intro r hr
        simpa using hfresh r hr
      rw [hfold, runReaction_calls hb' hd, h1]
      simp only [List.foldl_nil, hst, hcalls, List.append_assoc, List.singleton_append]
    · rw [hout]; rfl
  · intro hc d hd
    unfold _performTransition
    simp only [hc, hb, hd]
    cases b.executeState w.calls d <;> exact ⟨rfl, rfl⟩

/-- C10 at the transition of the test suite from `First` to `Third` with the
configuration `NothingOnTheWay`, the spy coordinator attached: the coordinator
receives `executeTransition('NothingOnTheWay')`, and `executeState('NothingThird')`
once the promise is fulfilled. -/
theorem performTransition_order_witness :
    (_performTransition simpleRunning simpleThird (.str "NothingOnTheWay")).1.self._currentState
        = simpleThird ∧
      (_performTransition simpleRunning simpleThird (.str "NothingOnTheWay")).1.calls
        = simpleRunning.calls
          ++ [⟨Call.executeTransition (.str "NothingOnTheWay"), simpleThird⟩] ∧
      (promiseFulfilled
          (_performTransition simpleRunning simpleThird (.str "NothingOnTheWay")).1 0).calls
        = simpleRunning.calls
          ++ [⟨Call.executeTransition (.str "NothingOnTheWay"), simpleThird⟩,
              ⟨Call.executeState (.str "NothingThird"), simpleThird⟩] ∧
      (promiseRejected
          (_performTransition simpleRunning simpleThird (.str "NothingOnTheWay")).1 0).calls
        = (_performTransition simpleRunning simpleThird (.str "NothingOnTheWay")).1.calls :=
  have h := performTransition_order simpleRunning spy rfl simpleThird (.str "NothingOnTheWay")
  have h3 := ((h.2.2.1 rfl).2 0 rfl).2.2 (.str "NothingThird") rfl
  ⟨by rw [h.1], (h.2.2.1 rfl).1, h3.2.1 (by intro r hr; cases hr), h3.2.2.1⟩

/-- On a running interpreter the setter `running` ends in its `else` branch
whatever it is given, `true` included: `running` becomes false. -/
theorem setRunning_while_running (w : World) (run : JSVal) (h : w.self._running = true) :
    setRunning w run = ({ w with self := { w.self with _running := false } }, .ok ()) := by
  simp [setRunning, h]

/-! ## The coordinator: lemmas -/

/-- The method `_callService`, step by step. -/
theorem _callService_steps (self : AAIMBehavior) (config : JSVal)
    (defaultParameters : Option (List JSVal)) :
    _callService self config defaultParameters =
      if config.typeofObject = true ∧ config.isNull = false then
        match checkCall self config with
        | .error e => .error e
        | .ok (service, name) =>
          match preparedParameters self config defaultParameters with
          | .error e => .error e
          | .ok prepared =>
            match mappedParameters self config prepared with
            | .error e => .error e
            | .ok parameters => .ok (callResult config service name parameters)
      else .error (.error "No service configuration object provided!") := by
  rw [_callService]
  by_cases hobj : config.typeofObject = true ∧ config.isNull = false
  · rw [dif_pos hobj, if_pos hobj]
    cases hck : checkCall self config with
    | error e => rfl
    | ok call =>
      obtain ⟨service, name⟩ := call
      have hitem : (fun index value =>
          match he : (config.prop "parameterMapping").elems[index]? with
          | some entry =>
            if (entry.typeofObject && !entry.isNull) = true then
              _callService self entry (some [value])
            else (pure (JSPromise.resolve value) : Except JSError (JSPromise JSVal))
          | none => pure (JSPromise.resolve value)) = mappingItem self config := by
        funext index value
        unfold mappingItem
        cases (config.prop "parameterMapping").elems[index]? <;> rfl
      have hres : (fun value b =>
          match _callService b (config.prop "resultMapping") (some [value]) with
          | .error e => ((Settled.rejected e, []) : Settled JSVal × List Execution)
          | .ok p => p b) = resultCallback config := rfl
      simp only [hitem, hres]
      simp only [bind, Except.bind, pure, Except.pure, throw, throwThe, MonadExceptOf.throw,
        preparedParameters, mappedParameters, callResult]
      cases (config.prop "parameters").isArray <;>
        cases (config.prop "parameters").typeofObject <;>
        cases ((config.prop "parameterMapping").isArray
          && decide ((config.prop "parameterMapping").arrayLength > 0)) <;>
        cases ((config.prop "resultMapping").typeofObject
          && !(config.prop "resultMapping").isNull) <;>
        cases defaultParameters <;>
        cases _resolveParameters self (config.prop "parameters").elems <;>
        cases _callService self (config.prop "parameters") none <;>
        cases collect (mapIndexed (mappingItem self config) 0 (config.prop "parameters").elems) <;>
        rfl
  · rw [dif_neg hobj, if_neg hobj]
    rfl

theorem length_lt_one_iff (s : String) : s.length < 1 ↔ s = "" := by
  constructor
  · intro h
    cases s with
    | mk data =>
      cases data with
      | nil => rfl
      | cons c cs => simp [String.length] at h
  · intro h; subst h; decide

/-- The checks of `_callService` let a valid configuration through. -/
theorem checkCall_ok {self : AAIMBehavior} {config : JSVal} {service : Service} {name : String}
    (h : ValidCall self config service name) : checkCall self config = .ok (service, name) := by
  obtain ⟨provides, hp, hpn⟩ := h.provided
  have hlen : ¬ name.length < 1 := fun hl => h.hasName.2 ((length_lt_one_iff name).mp hl)
  have hreg := h.registered
  unfold checkCall
  rw [h.hasName.1]
  rcases h.hasService with hs | ⟨s, hs, hne⟩
  · simp only [hs, targetService] at hreg ⊢
    simp [JSVal.toBoolean, hlen, hreg, hp, hpn]
  · have hlen2 : ¬ s.length < 1 := fun hl => hne ((length_lt_one_iff s).mp hl)
    simp only [hs, targetService] at hreg ⊢
    simp [JSVal.toBoolean, JSVal.typeofString, JSVal.toStr, hlen, hlen2, hne, hreg, hp, hpn]

theorem Registry.has_after_set (m : Registry) (k : JSVal) (v : Service) (k' : JSVal) :
    (Registry.set m k v).has k' = (m.has k' || JSVal.sameValueZero k k') := by
  induction m with
  | nil => simp [Registry.set, Registry.has]
  | cons e rest ih =>
    unfold Registry.set
    by_cases h : JSVal.sameValueZero e.1 k = true
    · rw [if_pos h]
      simp only [Registry.has, List.any_cons]
      by_cases h1 : JSVal.sameValueZero e.1 k' = true
      · simp [h1]
      · have h2 : JSVal.sameValueZero k k' = false := by
          by_contra hc
          exact h1 (JSVal.sameValueZero_trans h (by simpa using hc))
        simp [h1, h2]
    · rw [if_neg h]
      simp only [Registry.has, List.any_cons] at ih ⊢
      rw [ih, Bool.or_assoc]

theorem Registry.get?_set (m : Registry) (k : JSVal) (v : Service) (k' : JSVal) :
    (Registry.set m k v).get? k' = if JSVal.sameValueZero k k' then some v else m.get? k' := by
  induction m with
  | nil =>
    by_cases h : JSVal.sameValueZero k k' = true <;>
      simp [Registry.set, Registry.get?, List.find?, h]
  | cons e rest ih =>
    unfold Registry.set
    by_cases h : JSVal.sameValueZero e.1 k = true
    · rw [if_pos h]
      by_cases h1 : JSVal.sameValueZero e.1 k' = true
      · have h2 : JSVal.sameValueZero k k' = true :=
          JSVal.sameValueZero_trans (by rw [JSVal.sameValueZero_symm]; exact h) h1
        simp [Registry.get?, List.find?, h1, h2]
      · have h2 : JSVal.sameValueZero k k' = false := by
          by_contra hc
          exact h1 (JSVal.sameValueZero_trans h (by simpa using hc))
        simp [Registry.get?, List.find?, h1, h2]
    · rw [if_neg h]
      by_cases h1 : JSVal.sameValueZero e.1 k' = true
      · have h2 : JSVal.sameValueZero k k' = false := by
          by_contra hc
          have hc' : JSVal.sameValueZero k k' = true := by simpa using hc
          exact h (JSVal.sameValueZero_trans h1 (by rw [JSVal.sameValueZero_symm]; exact hc'))
        simp [Registry.get?, List.find?, h1, h2]
      · have h1' : JSVal.sameValueZero e.1 k' = false := by simpa using h1
        simp only [Registry.get?, List.find?, h1'] at ih ⊢
        exact ih

/-! ## The claims on the coordinator -/

/-- C13: for a name that is a string or absent, `registerService(name, service)`
raises exactly when the name is absent or empty, or the service is absent or
has no `execute` method, or the name is already registered. When it raises the
coordinator is unchanged; when it returns, the registry holds the service
under the name and every other name, the empty name of the default service
included, leads to what it led to before. -/
theorem registerService_raises_iff (self : AAIMBehavior) (name : JSVal) (service : Option Service)
    (hname : name = JSVal.undefined ∨ name = JSVal.null ∨ ∃ s, name = JSVal.str s) :
    ((∃ e, (registerService self name service).2 = .error e) ↔
      (name = JSVal.undefined ∨ name = JSVal.null ∨ name = JSVal.str "" ∨ service = none ∨
        (∃ s, service = some s ∧ s.execute = none) ∨ self._services.has name = true)) ∧
    ((∃ e, (registerService self name service).2 = .error e) →
      (registerService self name service).1 = self) ∧
    ((registerService self name service).2 = .ok () →
      ∃ s, service = some s ∧
        (registerService self name service).1._services.get? name = some s ∧
        (∀ k, JSVal.sameValueZero name k = false →
          (registerService self name service).1._services.get? k = self._services.get? k ∧
          (registerService self name service).1._services.has k = self._services.has k) ∧
        (registerService self name service).1._factory = self._factory ∧
        (registerService self name service).1._data = self._data ∧
        (registerService self name service).1._currentConfig = self._currentConfig) := by
  rcases hname with h | h | ⟨n, h⟩
  · subst h
    simp [registerService, JSVal.toBoolean]
  · subst h
    simp [registerService, JSVal.toBoolean]
  · subst h
    by_cases hn : n = ""
    · subst hn
      simp [registerService, JSVal.toBoolean]
    · have hlen : ¬ n.length < 1 := fun hl => hn ((length_lt_one_iff n).mp hl)
      cases service with
      | none => simp [registerService, JSVal.toBoolean, JSVal.lengthBelowOne, hn, hlen]
      | some s =>
        cases hex : s.execute with
        | none => simp [registerService, JSVal.toBoolean, JSVal.lengthBelowOne, hn, hlen, hex]
        | some f =>
          cases hh : self._services.has (.str n) with
          | true =>
            simp [registerService, JSVal.toBoolean, JSVal.lengthBelowOne, hn, hlen, hex, hh]
          | false =>
            have heq : registerService self (.str n) (some s) =
                ({ self with _services := self._services.set (.str n) s }, .ok ()) := by
              simp [registerService, JSVal.toBoolean, JSVal.lengthBelowOne, hn, hlen, hex, hh]
            rw [heq]
            refine ⟨?_, ?_, ?_⟩
            · simp [hn, hex, hh]
            · rintro ⟨e, he⟩; cases he
            · intro _
              refine ⟨s, rfl, ?_, ?_, rfl, rfl, rfl⟩
              · simp only [Registry.get?_set, JSVal.sameValueZero_refl, if_true]
              · intro k hk
                simp only [Registry.get?_set, Registry.has_after_set, hk, Bool.false_eq_true, if_false,
                  Bool.or_false, and_self]

/-- C13 at `registerService('fancy', service)` on a coordinator made with a
default service. -/
theorem registerService_raises_iff_witness :
    (registerService (AAIMBehavior.new none (some defaultService)) (.str "fancy")
        (some fancyService)).2 = .ok () ∧
      (registerService (AAIMBehavior.new none (some defaultService)) (.str "fancy")
        (some fancyService)).1._services.get? (.str "fancy") = some fancyService ∧
      (registerService (AAIMBehavior.new none (some defaultService)) (.str "fancy")
        (some fancyService)).1._services.get? (.str "") = some defaultService :=
  have h := registerService_raises_iff (AAIMBehavior.new none (some defaultService))
    (.str "fancy") (some fancyService) (Or.inr (Or.inr ⟨"fancy", rfl⟩))
  have hok : (registerService (AAIMBehavior.new none (some defaultService)) (.str "fancy")
      (some fancyService)).2 = .ok () := rfl
  match h.2.2 hok with
  | ⟨s, hs, hget, hrest, _⟩ =>
    ⟨hok, by rw [hget, hs], by rw [(hrest (.str "") rfl).1]; rfl⟩

/-- The registry key `_callService` looks up is the target of the
configuration, when `service` is omitted or a string. -/
theorem targetService_eq (self : AAIMBehavior) (config : JSVal)
    (hsvc : config.prop "service" = JSVal.undefined ∨ ∃ s, config.prop "service" = JSVal.str s) :
    self._services.get?
        (if (config.prop "service").toBoolean then config.prop "service" else .str "")
      = targetService self config := by
  rcases hsvc with h | ⟨s, h⟩
  · simp [targetService, h, JSVal.toBoolean]
  · by_cases hs : s = ""
    · subst hs; simp [targetService, h, JSVal.toBoolean]
    · simp [targetService, h, JSVal.toBoolean, hs]

theorem checkCall_error_of_invalid (self : AAIMBehavior) (config : JSVal)
    (hsvc : config.prop "service" = JSVal.undefined ∨ ∃ s, config.prop "service" = JSVal.str s)
    (hbad : (∀ n, config.prop "name" = JSVal.str n → n = "") ∨
      targetService self config = none ∨
      (∃ svc provides n, targetService self config = some svc ∧ svc.provides = some provides ∧
        config.prop "name" = JSVal.str n ∧ provides n = false)) :
    ∃ e, checkCall self config = .error e := by
  have hkey := targetService_eq self config hsvc
  have hskip : ((config.prop "service").toBoolean
      && (!(config.prop "service").typeofString
        || decide ((config.prop "service").toStr.length < 1))) = false := by
    rcases hsvc with h | ⟨s, h⟩
    · simp [h, JSVal.toBoolean]
    · by_cases hs : s = ""
      · subst hs; simp [h, JSVal.toBoolean]
      · have hlen : ¬ s.length < 1 := fun hl => hs ((length_lt_one_iff s).mp hl)
        simp [h, JSVal.toBoolean, JSVal.typeofString, JSVal.toStr, hs, hlen]
  unfold checkCall
  cases hn : config.prop "name" with
  | str n =>
    simp only
    by_cases hlen : n.length < 1
    · simp only [hlen, decide_True, if_true]
      exact ⟨_, rfl⟩
    · have hne : n ≠ "" := fun h => hlen ((length_lt_one_iff n).mpr h)
      simp only [hlen, decide_False, Bool.false_eq_true, if_false, hskip, hkey]
      rcases hbad with h | h | ⟨svc, provides, n', hreg, hp, hn', hpn⟩
      · exact absurd (h n hn) hne
      · rw [h]; exact ⟨_, rfl⟩
      · rw [hn] at hn'
        cases hn'
        rw [hreg]
        simp only [hp, hpn, Bool.not_false, if_true]
        exact ⟨_, rfl⟩
  | _ => exact ⟨_, rfl⟩

theorem callService_check_error {self : AAIMBehavior} {config : JSVal} {e : JSError}
    (h : checkCall self config = .error e) (d : Option (List JSVal)) :
    ∃ e', _callService self config d = .error e' := by
  rw [_callService_steps]
  by_cases hobj : config.typeofObject = true ∧ config.isNull = false
  · rw [if_pos hobj, h]; exact ⟨_, rfl⟩
  · rw [if_neg hobj]; exact ⟨_, rfl⟩

/-- C14: a service-call configuration whose `name` is not a non-empty string,
or whose target service is not registered, or whose target service does not
provide `name`, makes `_callService` raise, and with it `executeTransition` on
that configuration and `executeState` on a state configuration that has it as
`parameters`; nothing is executed and the factory is not called: the traces
are as before. -/
theorem invalid_call_raises (w : BWorld) (config : JSVal) (d : Option (List JSVal))
    (hobj : config.typeofObject = true ∧ config.isNull = false ∧ config.isArray = false)
    (hsvc : config.prop "service" = JSVal.undefined ∨ ∃ s, config.prop "service" = JSVal.str s)
    (hbad : (∀ n, config.prop "name" = JSVal.str n → n = "") ∨
      targetService w.self config = none ∨
      (∃ svc provides n, targetService w.self config = some svc ∧
        svc.provides = some provides ∧ config.prop "name" = JSVal.str n ∧ provides n = false)) :
    (∃ e, _callService w.self config d = .error e) ∧
    (∃ e, w.run (_callService w.self config d) = (w, .error e)) ∧
    (∃ e, w.run (executeTransition w.self config) = (w, .error e)) ∧
    (∀ c, c.getProp "parameters" = .ok config → ∃ e, w.doExecuteState c = (w, .error e)) := by
  obtain ⟨e0, he0⟩ := checkCall_error_of_invalid w.self config hsvc hbad
  obtain ⟨e1, he1⟩ := callService_check_error he0 d
  obtain ⟨e2, he2⟩ := callService_check_error he0 none
  refine ⟨⟨e1, he1⟩, ⟨e1, by rw [he1]; rfl⟩, ⟨e2, ?_⟩, ?_⟩
  · simp only [executeTransition, hobj.1, if_true, he2]
    rfl
  · intro c hc
    refine ⟨e2, ?_⟩
    simp only [BWorld.doExecuteState, executeState, hc, hobj.2.2, hobj.1, he2,
      Bool.false_eq_true, if_false, if_true]

/-! ### Running the promise of a service call -/

theorem invoke_run {service : Service} {f : String → List JSVal → Except JSError (Settled JSVal)}
    (hf : service.execute = some f) (name : String) (values : List JSVal) (b : AAIMBehavior) :
    invoke service name values b = (settle (f name values), [⟨service.ref, name, values⟩]) := by
  unfold invoke
  rw [hf]
  simp only
  cases f name values <;> rfl

theorem andThen_fulfilled {α β : Type} {p : JSPromise α} {b : AAIMBehavior} {v : α}
    {t : List Execution} (h : p b = (.fulfilled v, t)) (f : α → JSPromise β) :
    p.andThen f b = ((f v b).1, t ++ (f v b).2) := by
  simp only [JSPromise.andThen, h]

theorem andThen_rejected {α β : Type} {p : JSPromise α} {b : AAIMBehavior} {e : JSError}
    {t : List Execution} (h : p b = (.rejected e, t)) (f : α → JSPromise β) :
    p.andThen f b = (.rejected e, t) := by
  simp only [JSPromise.andThen, h]

/-- A valid configuration passes the checks: what `_callService` does is
what its steps after the checks do. -/
theorem callService_of_valid {self : AAIMBehavior} {config : JSVal} {service : Service}
    {name : String} (h : ValidCall self config service name) (d : Option (List JSVal)) :
    _callService self config d =
      match preparedParameters self config d with
      | .error e => .error e
      | .ok prepared =>
        match mappedParameters self config prepared with
        | .error e => .error e
        | .ok parameters => .ok (callResult config service name parameters) := by
  rw [_callService_steps, if_pos h.isObject, checkCall_ok h]

/-- The primary service method is executed with the values the promise of the
parameters is fulfilled with, right after what that promise has executed. -/
theorem callResult_executes {config : JSVal} {service : Service} {name : String}
    {f : String → List JSVal → Except JSError (Settled JSVal)} (hf : service.execute = some f)
    {parameters : JSPromise (List JSVal)} {b : AAIMBehavior} {values : List JSVal}
    {t : List Execution} (hp : parameters b = (.fulfilled values, t)) :
    ∃ rest, (callResult config service name parameters b).2
      = t ++ ⟨service.ref, name, values⟩ :: rest := by
  have h1 : parameters.andThen (invoke service name) b
      = (settle (f name values), t ++ [⟨service.ref, name, values⟩]) := by
    rw [andThen_fulfilled hp, invoke_run hf]
  unfold callResult
  by_cases hr : ((config.prop "resultMapping").typeofObject
      && !(config.prop "resultMapping").isNull) = true
  · rw [if_pos hr]
    cases hs : settle (f name values) with
    | fulfilled v =>
      rw [hs] at h1
      rw [andThen_fulfilled h1]
      exact ⟨(resultCallback config v b).2, by simp⟩
    | rejected e =>
      rw [hs] at h1
      rw [andThen_rejected h1]
      exact ⟨[], by simp⟩
  · rw [if_neg hr, h1]
    exact ⟨[], by simp⟩

theorem mappedParameters_none {self : AAIMBehavior} {config : JSVal}
    (h : config.prop "parameterMapping" = JSVal.undefined) (prepared : JSPromise (List JSVal)) :
    mappedParameters self config prepared = .ok prepared := by
  simp [mappedParameters, h, JSVal.isArray]

/-- C16: for a valid service-call configuration without `parameterMapping`,
the service method is executed with: the resolved parameters when
`parameters` is an array; the one value the nested call is fulfilled with when
`parameters` is a service-call object; the default parameters when
`parameters` is absent and defaults are given; no arguments when neither is
there. Defaults play no part in the first two cases. -/
theorem execute_arguments (self : AAIMBehavior) (config : JSVal) (d : Option (List JSVal))
    (service : Service) (name : String)
    (f : String → List JSVal → Except JSError (Settled JSVal))
    (hvalid : ValidCall self config service name) (hexec : service.execute = some f)
    (hmap : config.prop "parameterMapping" = JSVal.undefined) :
    (∀ r ps values, config.prop "parameters" = JSVal.arr r ps →
      _resolveParameters self ps = .ok values →
      ∃ p, _callService self config d = .ok p ∧
        ∀ b, ∃ rest, (p b).2 = ⟨service.ref, name, values⟩ :: rest) ∧
    (∀ q, (config.prop "parameters").typeofObject = true →
      (config.prop "parameters").isArray = false →
      _callService self (config.prop "parameters") none = .ok q →
      ∃ p, _callService self config d = .ok p ∧
        ∀ b r t, q b = (.fulfilled r, t) →
          ∃ rest, (p b).2 = t ++ ⟨service.ref, name, [r]⟩ :: rest) ∧
    (∀ defaults, config.prop "parameters" = JSVal.undefined → d = some defaults →
      ∃ p, _callService self config d = .ok p ∧
        ∀ b, ∃ rest, (p b).2 = ⟨service.ref, name, defaults⟩ :: rest) ∧
    (config.prop "parameters" = JSVal.undefined → d = none →
      ∃ p, _callService self config d = .ok p ∧
        ∀ b, ∃ rest, (p b).2 = ⟨service.ref, name, []⟩ :: rest) := by
  have hcall := callService_of_valid hvalid d
  refine ⟨?_, ?_, ?_, ?_⟩
  · intro r ps values hps hres
    have hprep : preparedParameters self config d = .ok (JSPromise.resolve values) := by
      simp [preparedParameters, hps, JSVal.isArray, JSVal.elems, hres]
    rw [hprep] at hcall
    simp only [mappedParameters_none hmap] at hcall
    refine ⟨_, hcall, fun b => ?_⟩
    obtain ⟨rest, h⟩ := @callResult_executes config service name f hexec
      (JSPromise.resolve values) b values [] rfl
    exact ⟨rest, by simpa using h⟩
  · intro q hobj harr hq
    have hprep : preparedParameters self config d
        = .ok (q.andThen fun value => JSPromise.resolve [value]) := by
      simp [preparedParameters, hobj, harr, hq]
    rw [hprep] at hcall
    simp only [mappedParameters_none hmap] at hcall
    refine ⟨_, hcall, fun b r t hb => ?_⟩
    have hpar : (q.andThen fun value => JSPromise.resolve [value]) b = (.fulfilled [r], t) := by
      rw [andThen_fulfilled hb]
      simp [JSPromise.resolve]
    exact callResult_executes hexec hpar
  · intro defaults hps hd
    have hprep : preparedParameters self config d = .ok (JSPromise.resolve defaults) := by
      simp [preparedParameters, hps, hd, JSVal.isArray, JSVal.typeofObject]
    rw [hprep] at hcall
    simp only [mappedParameters_none hmap] at hcall
    refine ⟨_, hcall, fun b => ?_⟩
    obtain ⟨rest, h⟩ := @callResult_executes config service name f hexec
      (JSPromise.resolve defaults) b defaults [] rfl
    exact ⟨rest, by simpa using h⟩
  · intro hps hd
    have hprep : preparedParameters self config d = .ok (JSPromise.resolve []) := by
      simp [preparedParameters, hps, hd, JSVal.isArray, JSVal.typeofObject]
    rw [hprep] at hcall
    simp only [mappedParameters_none hmap] at hcall
    refine ⟨_, hcall, fun b => ?_⟩
    obtain ⟨rest, h⟩ := @callResult_executes config service name f hexec
      (JSPromise.resolve []) b [] [] rfl
    exact ⟨rest, by simpa using h⟩

/-- C14 at the test "throws an error if no default service is configured":
the configuration names a method of the default service, and there is none. -/
theorem invalid_call_raises_witness :
    (∃ e, _callService noServices theMethodCall none = .error e) ∧
      (∃ e, (BWorld.mk noServices [] []).doExecuteState stateWithCall
        = (BWorld.mk noServices [] [], .error e)) :=
  have h := invalid_call_raises (BWorld.mk noServices [] []) theMethodCall none
    ⟨rfl, rfl, rfl⟩ (Or.inl rfl) (Or.inr (Or.inl rfl))
  ⟨h.1, h.2.2.2 stateWithCall rfl⟩

theorem theMethodCall_valid : ValidCall withDefault theMethodCall defaultService "theMethod" :=
  { isObject := ⟨rfl, rfl⟩
    hasName := ⟨rfl, by decide⟩
    hasService := Or.inl rfl
    registered := rfl
    provided := ⟨_, rfl, rfl⟩ }

/-- C16 at the configuration `{ name: 'theMethod', parameters: ['anyParam',
42] }` and the default service: the method is executed with `'anyParam', 42`,
whatever defaults are handed in. -/
theorem execute_arguments_witness :
    ∃ p, _callService withDefault theMethodCall (some [.str "ignored"]) = .ok p ∧
      ∀ b, ∃ rest, (p b).2 = ⟨1, "theMethod", [.str "anyParam", .num 42]⟩ :: rest :=
  (execute_arguments withDefault theMethodCall (some [.str "ignored"]) defaultService
    "theMethod" _ theMethodCall_valid rfl rfl).1 301 _ _ rfl rfl

/-- C15, evaluated: with a default service registered, the configuration
`{ service: '', name: 'theMethod' }` does not make `_callService` raise: the
call returns a promise, and the method of the default service is executed. -/
theorem empty_service_name_reaches_default :
    emptyServiceCall.prop "service" = JSVal.str "" ∧
      ∃ p, _callService withDefault emptyServiceCall none = .ok p ∧
        p withDefault = (.fulfilled (.num 42), [⟨1, "theMethod", []⟩]) := by
  refine ⟨rfl, callResult emptyServiceCall defaultService "theMethod" (JSPromise.resolve []),
    ?_, rfl⟩
  rw [_callService_steps]
  rfl

/-- What a returned promise is made of, for a valid configuration. -/
theorem callService_ok_inv {self : AAIMBehavior} {config : JSVal} {service : Service}
    {name : String} (h : ValidCall self config service name) {d : Option (List JSVal)}
    {p : JSPromise JSVal} (hp : _callService self config d = .ok p) :
    ∃ prepared parameters,
      preparedParameters self config d = .ok prepared ∧
      mappedParameters self config prepared = .ok parameters ∧
      p = callResult config service name parameters := by
  have hcall := callService_of_valid h d
  rw [hp] at hcall
  cases hprep : preparedParameters self config d with
  | error e => simp [hprep] at hcall
  | ok prepared =>
    cases hmapped : mappedParameters self config prepared with
    | error e => simp [hprep, hmapped] at hcall
    | ok parameters =>
      simp only [hprep, hmapped] at hcall
      exact ⟨prepared, parameters, rfl, hmapped, Except.ok.inj hcall⟩

/-- C19: for a valid configuration whose parameters have been prepared, the
promise returned settles as the promise of the service method when there is no
`resultMapping`; with a `resultMapping` that is a valid configuration without
parameters, mappings or result mapping of its own, the mapping method is
executed with the result of the service method as its one argument, and the
promise returned settles as the promise of the mapping method. For every
`resultMapping` that is a non-null object, the promise returned settles as
the promise of the service call of `resultMapping`, made with the result as
its one default parameter, and that call is executed after the service
method. -/
theorem result_of_call (self : AAIMBehavior) (config : JSVal) (d : Option (List JSVal))
    (service : Service) (name : String)
    (f : String → List JSVal → Except JSError (Settled JSVal))
    (hvalid : ValidCall self config service name) (hexec : service.execute = some f)
    (p : JSPromise JSVal) (hp : _callService self config d = .ok p) :
    ∃ prepared parameters,
      preparedParameters self config d = .ok prepared ∧
      mappedParameters self config prepared = .ok parameters ∧
      (config.prop "resultMapping" = JSVal.undefined →
        ∀ b values t, parameters b = (.fulfilled values, t) →
          p b = (settle (f name values), t ++ [⟨service.ref, name, values⟩])) ∧
      (∀ b values t r mapper mname g, parameters b = (.fulfilled values, t) →
        f name values = .ok (.fulfilled r) →
        ValidCall b (config.prop "resultMapping") mapper mname → mapper.execute = some g →
        (config.prop "resultMapping").prop "parameters" = JSVal.undefined →
        (config.prop "resultMapping").prop "parameterMapping" = JSVal.undefined →
        (config.prop "resultMapping").prop "resultMapping" = JSVal.undefined →
        p b = (settle (g mname [r]),
          t ++ [⟨service.ref, name, values⟩, ⟨mapper.ref, mname, [r]⟩])) ∧
      (∀ b values t r q, parameters b = (.fulfilled values, t) →
        f name values = .ok (.fulfilled r) →
        (config.prop "resultMapping").typeofObject = true →
        (config.prop "resultMapping").isNull = false →
        _callService b (config.prop "resultMapping") (some [r]) = .ok q →
        p b = ((q b).1, t ++ [⟨service.ref, name, values⟩] ++ (q b).2)) := by
  obtain ⟨prepared, parameters, hprep, hmapped, hpeq⟩ := callService_ok_inv hvalid hp
  refine ⟨prepared, parameters, hprep, hmapped, ?_, ?_, ?_⟩
  · intro hrm b values t hb
    rw [hpeq]
    simp only [callResult, hrm, JSVal.typeofObject, Bool.false_and, Bool.false_eq_true,
      if_false]
    rw [andThen_fulfilled hb, invoke_run hexec]
  · intro b values t r mapper mname g hb hfr hm hg hmp hmm hmr
    have h1 : parameters.andThen (invoke service name) b
        = (.fulfilled r, t ++ [⟨service.ref, name, values⟩]) := by
      rw [andThen_fulfilled hb, invoke_run hexec, hfr]
      rfl
    have hmcall := callService_of_valid hm (some [r])
    have hmprep : preparedParameters b (config.prop "resultMapping") (some [r])
        = .ok (JSPromise.resolve [r]) := by
      simp [preparedParameters, hmp, JSVal.isArray, JSVal.typeofObject]
    rw [hmprep] at hmcall
    simp only [mappedParameters_none hmm] at hmcall
    have hcb : resultCallback config r b = (settle (g mname [r]), [⟨mapper.ref, mname, [r]⟩]) := by
      simp only [resultCallback, hmcall]
      simp only [callResult, hmr, JSVal.typeofObject, Bool.false_and, Bool.false_eq_true,
        if_false]
      rw [andThen_fulfilled (p := JSPromise.resolve [r]) (v := [r]) (t := []) rfl,
        invoke_run hg]
      rfl
    have hobj : ((config.prop "resultMapping").typeofObject
        && !(config.prop "resultMapping").isNull) = true := by
      simp [hm.isObject.1, hm.isObject.2]
    rw [hpeq]
    simp only [callResult, hobj, if_true]
    rw [andThen_fulfilled h1, hcb]
    simp
  · intro b values t r q hb hfr hobj hnull hq
    have h1 : parameters.andThen (invoke service name) b
        = (.fulfilled r, t ++ [⟨service.ref, name, values⟩]) := by
      rw [andThen_fulfilled hb, invoke_run hexec, hfr]
      rfl
    have hcb : resultCallback config r b = q b := by
      simp only [resultCallback, hq]
    rw [hpeq]
    simp only [callResult, hobj, hnull, Bool.not_false, Bool.and_self, if_true]
    rw [andThen_fulfilled h1, hcb]

theorem mappedResultCall_valid : ValidCall withNamed mappedResultCall namedService "theMethod" :=
  { isObject := ⟨rfl, rfl⟩
    hasName := ⟨rfl, by decide⟩
    hasService := Or.inr ⟨"TheName", rfl, by decide⟩
    registered := rfl
    provided := ⟨_, rfl, rfl⟩ }

/-- C19 at the test "mapping the returned result using a configured service
method": `theMethod` returns 42, `mappingMethod` is executed with 42, and the
promise is fulfilled with what `mappingMethod` returns. -/
theorem result_of_call_witness :
    ∃ p, _callService withNamed mappedResultCall none = .ok p ∧
      p withNamed = (.fulfilled (.str "Towel"),
        [⟨2, "theMethod", []⟩, ⟨2, "mappingMethod", [.num 42]⟩]) := by
  have hp : _callService withNamed mappedResultCall none
      = .ok (callResult mappedResultCall namedService "theMethod" (JSPromise.resolve [])) := by
    rw [_callService_steps]; rfl
  obtain ⟨prepared, parameters, h1, h2, _, h4, _⟩ :=
    result_of_call withNamed mappedResultCall none namedService "theMethod" _
      mappedResultCall_valid rfl _ hp
  have e1 : prepared = JSPromise.resolve [] :=
    Except.ok.inj (h1.symm.trans (rfl :
      preparedParameters withNamed mappedResultCall none = .ok (JSPromise.resolve [])))
  subst e1
  have e2 : parameters = JSPromise.resolve [] :=
    Except.ok.inj (h2.symm.trans (rfl :
      mappedParameters withNamed mappedResultCall (JSPromise.resolve [])
        = .ok (JSPromise.resolve [])))
  subst e2
  refine ⟨_, hp, ?_⟩
  exact h4 withNamed [] [] (.num 42) namedService "mappingMethod" _ rfl rfl
    { isObject := ⟨rfl, rfl⟩
      hasName := ⟨rfl, by decide⟩
      hasService := Or.inr ⟨"TheName", rfl, by decide⟩
      registered := rfl
      provided := ⟨_, rfl, rfl⟩ } rfl rfl rfl rfl

/-! ### Lists of callbacks -/

theorem mapIndexed_length {α β : Type} (f : Nat → α → β) (l : List α) :
    ∀ k, (mapIndexed f k l).length = l.length := by
  induction l with
  | nil => intro k; rfl
  | cons a rest ih => intro k; simp [mapIndexed, ih]

theorem mapIndexed_getElem? {α β : Type} (f : Nat → α → β) (l : List α) :
    ∀ k i, (mapIndexed f k l)[i]? = (l[i]?).map (f (k + i)) := by
  induction l with
  | nil => intro k i; simp [mapIndexed]
  | cons a rest ih =>
    intro k i
    cases i with
    | zero => simp [mapIndexed]
    | succ j =>
      simp only [mapIndexed, List.getElem?_cons_succ, ih]
      have hk : k + 1 + j = k + (j + 1) := by omega
      rw [hk]

theorem collect_error_of_mem {ε α : Type} {l : List (Except ε α)} {e : ε}
    (h : Except.error e ∈ l) : ∃ e', collect l = .error e' := by
  induction l with
  | nil => cases h
  | cons x rest ih =>
    cases x with
    | error e0 => exact ⟨e0, rfl⟩
    | ok a =>
      have h' : Except.error e ∈ rest := by
        rcases List.mem_cons.mp h with h1 | h1
        · cases h1
        · exact h1
      obtain ⟨e', he'⟩ := ih h'
      exact ⟨e', by simp [collect, he']⟩

theorem collect_ok_inv {ε α : Type} {l : List (Except ε α)} {as : List α}
    (h : collect l = .ok as) : l = as.map Except.ok := by
  induction l generalizing as with
  | nil => simp [collect] at h; subst h; rfl
  | cons x rest ih =>
    cases x with
    | error e0 => simp [collect] at h
    | ok a =>
      cases hr : collect rest with
      | error e => simp [collect, hr] at h
      | ok bs =>
        simp only [collect, hr, Except.ok.injEq] at h
        subst h
        rw [ih hr]
        rfl

theorem collect_ok {ε α : Type} {l : List (Except ε α)}
    (h : ∀ x ∈ l, ∃ a, x = Except.ok a) : ∃ as, collect l = .ok as := by
  induction l with
  | nil => exact ⟨[], rfl⟩
  | cons x rest ih =>
    obtain ⟨a, ha⟩ := h x (List.mem_cons_self _ _)
    obtain ⟨as, has⟩ := ih (fun y hy => h y (List.mem_cons_of_mem _ hy))
    subst ha
    exact ⟨a :: as, by simp [collect, has]⟩

theorem mappingItem_of_entry {self : AAIMBehavior} {config : JSVal} {index : Nat}
    {entry : JSVal} (he : (config.prop "parameterMapping").elems[index]? = some entry)
    (hobj : entry.typeofObject = true) (hnull : entry.isNull = false) (value : JSVal) :
    mappingItem self config index value = _callService self entry (some [value]) := by
  simp [mappingItem, he, hobj, hnull]

theorem mappingItem_of_no_entry {self : AAIMBehavior} {config : JSVal} {index : Nat}
    (h : ∀ entry, (config.prop "parameterMapping").elems[index]? = some entry →
      entry.typeofObject = false ∨ entry.isNull = true) (value : JSVal) :
    mappingItem self config index value = .ok (JSPromise.resolve value) := by
  unfold mappingItem
  cases he : (config.prop "parameterMapping").elems[index]? with
  | none => rfl
  | some entry =>
    rcases h entry he with h1 | h1 <;> simp [h1]

/-- C20, refuted: with the default service providing `theMethod` only, the
configuration `{ name: 'theMethod', resultMapping: { name: 'missing' } }` has a
result mapping that names a method its service does not provide, yet
`_callService` does not raise: it returns a promise, `theMethod` is executed,
and only then the promise is rejected. -/
theorem result_mapping_error_is_not_raised :
    (∃ e, checkCall withDefault (missingMapperCall.prop "resultMapping") = .error e) ∧
      ∃ p, _callService withDefault missingMapperCall none = .ok p ∧
        (p withDefault).2 = [⟨1, "theMethod", []⟩] ∧
        ∃ e, (p withDefault).1 = .rejected e := by
  have hck : checkCall withDefault (missingMapperCall.prop "resultMapping") = .error
      (.error "Invalid service configuration: Default service does not provide a method \x27missing\x27!") := by
    rfl
  obtain ⟨e', he'⟩ := callService_check_error hck (some [JSVal.num 42])
  have hcb : resultCallback missingMapperCall (.num 42) withDefault = (.rejected e', []) := by
    simp only [resultCallback, he']
  have h1 : (JSPromise.resolve ([] : List JSVal)).andThen (invoke defaultService "theMethod")
      withDefault = (.fulfilled (.num 42), [⟨1, "theMethod", []⟩]) := rfl
  refine ⟨⟨_, hck⟩,
    callResult missingMapperCall defaultService "theMethod" (JSPromise.resolve []), ?_, ?_, ?_⟩
  · rw [_callService_steps]; rfl
  · have hobj : ((missingMapperCall.prop "resultMapping").typeofObject
        && !(missingMapperCall.prop "resultMapping").isNull) = true := rfl
    simp only [callResult, hobj, if_true]
    rw [andThen_fulfilled h1, hcb]
    rfl
  · have hobj : ((missingMapperCall.prop "resultMapping").typeofObject
        && !(missingMapperCall.prop "resultMapping").isNull) = true := rfl
    simp only [callResult, hobj, if_true]
    rw [andThen_fulfilled h1, hcb]
    exact ⟨e', rfl⟩

/-- C20, amended: a configuration error in the configuration itself, in its
nested `parameters` configuration or in a `parameterMapping` entry that is
called makes `_callService` raise, before any service method is executed. A
configuration error in `resultMapping` does not: the call returns a promise,
the service method is executed, and when its promise is fulfilled the promise
returned is rejected with the error, which `_callService` raises on the
result mapping at that moment. -/
theorem configuration_errors (self : AAIMBehavior) (config : JSVal) (d : Option (List JSVal))
    (service : Service) (name : String)
    (f : String → List JSVal → Except JSError (Settled JSVal))
    (hvalid : ValidCall self config service name) (hexec : service.execute = some f) :
    (∀ other e, checkCall self other = .error e → ∃ e', _callService self other d = .error e') ∧
    (∀ e, (config.prop "parameters").isArray = false →
      (config.prop "parameters").typeofObject = true →
      _callService self (config.prop "parameters") none = .error e →
      _callService self config d = .error e) ∧
    (∀ prepared r ps r' ms i entry e, preparedParameters self config d = .ok prepared →
      config.prop "parameters" = JSVal.arr r ps →
      config.prop "parameterMapping" = JSVal.arr r' ms →
      ∀ h : i < ps.length, ms[i]? = some entry →
      entry.typeofObject = true → entry.isNull = false →
      _callService self entry (some [ps[i]]) = .error e →
      ∃ e', _callService self config d = .error e') ∧
    (∀ prepared parameters, preparedParameters self config d = .ok prepared →
      mappedParameters self config prepared = .ok parameters →
      (config.prop "resultMapping").typeofObject = true →
      (config.prop "resultMapping").isNull = false →
      ∃ p, _callService self config d = .ok p ∧
        ∀ b values t r e, parameters b = (.fulfilled values, t) →
          f name values = .ok (.fulfilled r) →
          _callService b (config.prop "resultMapping") (some [r]) = .error e →
          p b = (.rejected e, t ++ [⟨service.ref, name, values⟩])) := by
  have hcall := callService_of_valid hvalid d
  refine ⟨fun other e h => callService_check_error h d, ?_, ?_, ?_⟩
  · intro e harr hobj he
    have hprep : preparedParameters self config d = .error e := by
      simp [preparedParameters, harr, hobj, he]
    rw [hcall, hprep]
  · intro prepared r ps r' ms i entry e hprep hps hms hi hentry hobj hnull he
    have hne : ms ≠ [] := by
      intro h0; subst h0; simp at hentry
    have hitem : mappingItem self config i ps[i] = .error e := by
      rw [mappingItem_of_entry (by simpa [hms, JSVal.elems] using hentry) hobj hnull]
      exact he
    have hmem : Except.error e ∈ mapIndexed (mappingItem self config) 0 ps := by
      rw [List.mem_iff_getElem?]
      refine ⟨i, ?_⟩
      rw [mapIndexed_getElem?, List.getElem?_eq_getElem hi]
      simp [hitem]
    obtain ⟨e', he'⟩ := collect_error_of_mem hmem
    have hlen : 0 < ms.length := List.length_pos.mpr hne
    have hmapped : mappedParameters self config prepared = .error e' := by
      simp [mappedParameters, hps, hms, JSVal.isArray, JSVal.arrayLength, JSVal.elems, hlen, he']
    exact ⟨e', by rw [hcall, hprep]; simp only [hmapped]⟩
  · intro prepared parameters hprep hmapped hobj hnull
    refine ⟨callResult config service name parameters, ?_, ?_⟩
    · rw [hcall, hprep]; simp only [hmapped]
    · intro b values t r e hb hfr he
      have h1 : parameters.andThen (invoke service name) b
          = (.fulfilled r, t ++ [⟨service.ref, name, values⟩]) := by
        rw [andThen_fulfilled hb, invoke_run hexec, hfr]
        rfl
      have hcb : resultCallback config r b = (.rejected e, []) := by
        simp only [resultCallback, he]
      simp only [callResult, hobj, hnull, Bool.not_false, Bool.and_self, if_true]
      rw [andThen_fulfilled h1, hcb]
      simp

theorem valid_missingMapperCall :
    ValidCall withDefault missingMapperCall defaultService "theMethod" :=
  { isObject := ⟨rfl, rfl⟩
    hasName := ⟨rfl, by decide⟩
    hasService := Or.inl rfl
    registered := rfl
    provided := ⟨_, rfl, rfl⟩ }

/-- C20, amended, at the configuration `{ name: 'theMethod', resultMapping:
{ name: 'missing' } }`: the call returns a promise. -/
theorem configuration_errors_witness :
    ∃ p, _callService withDefault missingMapperCall none = .ok p ∧
      ∀ b e, _callService b (missingMapperCall.prop "resultMapping") (some [.num 42]) = .error e →
        p b = (.rejected e, [⟨1, "theMethod", []⟩]) :=
  match (configuration_errors withDefault missingMapperCall none defaultService "theMethod" _
    valid_missingMapperCall rfl).2.2.2 (JSPromise.resolve []) (JSPromise.resolve [])
    rfl rfl rfl rfl with
  | ⟨p, hp, h⟩ => ⟨p, hp, fun b e he => h b [] [] (.num 42) e rfl rfl he⟩

theorem resolveParameter_literal (data : JSMap) {param : JSVal}
    (h : execVarPattern param.toStr.toList = none) : resolveParameter data param = .ok param := by
  simp only [resolveParameter, h]

theorem resolveParameters_literals (self : AAIMBehavior) (ps : List JSVal)
    (h : ∀ p ∈ ps, execVarPattern p.toStr.toList = none) : _resolveParameters self ps = .ok ps := by
  induction ps with
  | nil => rfl
  | cons p rest ih =>
    simp only [_resolveParameters, resolveParameter_literal self._data (h p (List.mem_cons_self _ _)),
      ih (fun x hx => h x (List.mem_cons_of_mem _ hx))]

theorem all_trace {α : Type} (items : List (JSPromise α)) (b : AAIMBehavior) :
    (JSPromise.all items b).2 = (items.map fun q => (q b).2).flatten := by
  induction items with
  | nil => rfl
  | cons q rest ih => simp only [JSPromise.all, List.map_cons, List.flatten_cons, ih]

theorem all_fulfilled {α : Type} (items : List (JSPromise α)) (b : AAIMBehavior) :
    ∀ values, (JSPromise.all items b).1 = .fulfilled values →
      items.map (fun q => (q b).1) = values.map Settled.fulfilled := by
  induction items with
  | nil =>
    intro values h
    simp only [JSPromise.all, Settled.fulfilled.injEq] at h
    subst h
    rfl
  | cons q rest ih =>
    intro values h
    simp only [JSPromise.all] at h
    cases hq : (q b).1 with
    | rejected e => rw [hq] at h; simp at h
    | fulfilled v =>
      cases hr : (JSPromise.all rest b).1 with
      | rejected e => rw [hq, hr] at h; simp at h
      | fulfilled vs =>
        rw [hq, hr] at h
        simp only [Settled.fulfilled.injEq] at h
        subst h
        simp only [List.map_cons, hq, ih vs hr]

/-- C17: for a valid configuration whose `parameters` is an array of literal
values and whose `parameterMapping` is a non-empty array with valid entries,
the service method is executed with as many arguments as there are
parameters; argument `i` is what the service call of `parameterMapping[i]`,
given the parameter `i` as its one default parameter, is fulfilled with when
that entry is a non-null object, and the parameter itself when there is no
such entry. Nothing is called for entries beyond the last parameter: what is
executed before the service method is what the calls for the parameters
execute. -/
theorem mapped_arguments (self : AAIMBehavior) (config : JSVal) (d : Option (List JSVal))
    (service : Service) (name : String)
    (f : String → List JSVal → Except JSError (Settled JSVal))
    (hvalid : ValidCall self config service name) (hexec : service.execute = some f)
    (r : Nat) (ps : List JSVal) (hps : config.prop "parameters" = JSVal.arr r ps)
    (hlit : ∀ p ∈ ps, execVarPattern p.toStr.toList = none)
    (r' : Nat) (ms : List JSVal) (hms : config.prop "parameterMapping" = JSVal.arr r' ms)
    (hne : ms ≠ [])
    (hentries : ∀ i (h : i < ps.length), ∃ q, mappingItem self config i ps[i] = .ok q) :
    (∀ i value entry, ms[i]? = some entry → entry.typeofObject = true → entry.isNull = false →
      mappingItem self config i value = _callService self entry (some [value])) ∧
    (∀ i value, (∀ entry, ms[i]? = some entry → entry.typeofObject = false ∨ entry.isNull = true) →
      mappingItem self config i value = .ok (JSPromise.resolve value)) ∧
    ∃ p items, _callService self config d = .ok p ∧ items.length = ps.length ∧
      (∀ i (h : i < ps.length) (h' : i < items.length),
        mappingItem self config i ps[i] = .ok items[i]) ∧
      ∀ b values t, JSPromise.all items b = (.fulfilled values, t) →
        values.length = ps.length ∧
        (∀ i (h : i < items.length) (h' : i < values.length),
          (items[i] b).1 = .fulfilled values[i]) ∧
        t = (items.map fun q => (q b).2).flatten ∧
        ∃ rest, (p b).2 = t ++ ⟨service.ref, name, values⟩ :: rest := by
  have helems : (config.prop "parameterMapping").elems = ms := by rw [hms]; rfl
  refine ⟨?_, ?_, ?_⟩
  · intro i value entry he hobj hnull
    exact mappingItem_of_entry (by rw [helems]; exact he) hobj hnull value
  · intro i value h
    exact mappingItem_of_no_entry (by rw [helems]; exact h) value
  · have hall : ∀ x ∈ mapIndexed (mappingItem self config) 0 ps, ∃ a, x = Except.ok a := by
      intro x hx
      obtain ⟨i, hi⟩ := List.mem_iff_getElem?.mp hx
      rw [mapIndexed_getElem?] at hi
      cases hpi : ps[i]? with
      | none => rw [hpi] at hi; cases hi
      | some v =>
        obtain ⟨hlt, hv⟩ := List.getElem?_eq_some.mp hpi
        rw [hpi] at hi
        simp only [Option.map_some', Nat.zero_add, Option.some.injEq] at hi
        obtain ⟨q, hq⟩ := hentries i hlt
        rw [hv] at hq
        exact ⟨q, by rw [← hi, hq]⟩
    obtain ⟨items, hitems⟩ := collect_ok hall
    have hmapEq := collect_ok_inv hitems
    have hlen : items.length = ps.length := by
      have := congrArg List.length hmapEq
      simpa [mapIndexed_length] using this.symm
    have hidx : ∀ i (h : i < ps.length) (h' : i < items.length),
        mappingItem self config i ps[i] = .ok items[i] := by
      intro i h h'
      have h1 := congrArg (fun l => l[i]?) hmapEq
      simp only [mapIndexed_getElem?, List.getElem?_eq_getElem h, Option.map_some', Nat.zero_add,
        List.getElem?_map, List.getElem?_eq_getElem h'] at h1
      exact Option.some.inj h1
    have hprep : preparedParameters self config d = .ok (JSPromise.resolve ps) := by
      simp [preparedParameters, hps, JSVal.isArray, JSVal.elems,
        resolveParameters_literals self ps hlit]
    have hpos : 0 < ms.length := List.length_pos.mpr hne
    have hmapped : mappedParameters self config (JSPromise.resolve ps)
        = .ok (JSPromise.all items) := by
      simp [mappedParameters, hps, hms, JSVal.isArray, JSVal.arrayLength, JSVal.elems, hpos,
        hitems]
    have hcall := callService_of_valid hvalid d
    rw [hprep] at hcall
    simp only [hmapped] at hcall
    refine ⟨_, items, hcall, hlen, hidx, ?_⟩
    intro b values t hb
    have hful := all_fulfilled items b values (by rw [hb])
    have hvlen : values.length = items.length := by
      have := congrArg List.length hful
      simpa using this.symm
    refine ⟨by rw [hvlen, hlen], ?_, ?_, callResult_executes hexec hb⟩
    · intro i h h'
      have h1 := congrArg (fun l => l[i]?) hful
      simp only [List.getElem?_map, List.getElem?_eq_getElem h, List.getElem?_eq_getElem h',
        Option.map_some'] at h1
      exact Option.some.inj h1
    · have := all_trace items b
      rw [hb] at this
      exact this

theorem mappedParamsCall_valid :
    ValidCall withMappers mappedParamsCall fancyService "defaultMethod" :=
  { isObject := ⟨rfl, rfl⟩
    hasName := ⟨rfl, by decide⟩
    hasService := Or.inl rfl
    registered := rfl
    provided := ⟨_, rfl, rfl⟩ }

theorem mappedParamsCall_entries (i : Nat) (h : i < [JSVal.num 1, JSVal.num 2, JSVal.num 3].length) :
    ∃ q, mappingItem withMappers mappedParamsCall i [JSVal.num 1, JSVal.num 2, JSVal.num 3][i]
      = .ok q := by
  have h3 : i < 3 := h
  interval_cases i
  · refine ⟨callResult (.obj 343 [("service", .str "TheName"), ("name", .str "p1mapper")])
      mapperService "p1mapper" (JSPromise.resolve [.num 1]), ?_⟩
    rw [@mappingItem_of_entry _ _ _ (.obj 343 [("service", .str "TheName"),
      ("name", .str "p1mapper")]) rfl rfl rfl, _callService_steps]
    rfl
  · refine ⟨callResult (.obj 344 [("service", .str "TheName"), ("name", .str "p2mapper")])
      mapperService "p2mapper" (JSPromise.resolve [.num 2]), ?_⟩
    rw [@mappingItem_of_entry _ _ _ (.obj 344 [("service", .str "TheName"),
      ("name", .str "p2mapper")]) rfl rfl rfl, _callService_steps]
    rfl
  · exact ⟨JSPromise.resolve (.num 3), rfl⟩

/-- C17 at the test "with mapped parameters": three parameters and two
mapping entries give three items. -/
theorem mapped_arguments_witness :
    ∃ p items, _callService withMappers mappedParamsCall none = .ok p ∧ items.length = 3 ∧
      ∀ b values t, JSPromise.all items b = (.fulfilled values, t) →
        values.length = 3 ∧ ∃ rest, (p b).2 = t ++ ⟨100, "defaultMethod", values⟩ :: rest :=
  match (mapped_arguments withMappers mappedParamsCall none fancyService "defaultMethod" _
      mappedParamsCall_valid rfl 341 [.num 1, .num 2, .num 3] rfl
      (by intro p hp
          simp only [List.mem_cons, List.mem_singleton, List.not_mem_nil, or_false] at hp
          rcases hp with h | h | h <;> subst h <;> rfl)
      342 _ rfl (by simp) mappedParamsCall_entries).2.2 with
  | ⟨p, items, hp, hlen, _, h⟩ =>
    ⟨p, items, hp, hlen, fun b values t hb => ⟨(h b values t hb).1, (h b values t hb).2.2.2⟩⟩

/-- C18, evaluated: with `'X'` stored under `name`, the parameter
`'$\x7bname\x7d'` resolves to `'X'`, but with a non-empty `parameterMapping` the
service method receives the reference string itself when there is no mapping
entry at that index, the mapping method receives the reference string when
there is one, and with default parameters instead of parameters of its own
the call raises a `TypeError`. -/
theorem mapping_uses_unresolved_parameters :
    _resolveParameters withData [.str "$\x7bname\x7d"] = .ok [.str "X"] ∧
      (∃ p, _callService withData refCall none = .ok p ∧
        (p withData).2 = [⟨1, "theMethod", [.str "$\x7bname\x7d"]⟩]) ∧
      (∃ p, _callService withData refMappedCall none = .ok p ∧
        (p withData).2 = [⟨1, "theMethod", [.str "$\x7bname\x7d"]⟩,
          ⟨1, "theMethod", [.num 42]⟩]) ∧
      _callService withData defaultsMappedCall (some [.num 1]) = .error JSError.typeError := by
  refine ⟨rfl, ?_, ?_, ?_⟩
  · refine ⟨callResult refCall defaultService "theMethod"
      (JSPromise.all [JSPromise.resolve (.str "$\x7bname\x7d")]), ?_, rfl⟩
    rw [_callService_steps]
    rfl
  · have hentry : _callService withData (.obj 363 [("name", .str "theMethod")])
        (some [.str "$\x7bname\x7d"])
        = .ok (callResult (.obj 363 [("name", .str "theMethod")]) defaultService "theMethod"
            (JSPromise.resolve [.str "$\x7bname\x7d"])) := by
      rw [_callService_steps]; rfl
    have hitem : mappingItem withData refMappedCall 0 (.str "$\x7bname\x7d")
        = .ok (callResult (.obj 363 [("name", .str "theMethod")]) defaultService "theMethod"
            (JSPromise.resolve [.str "$\x7bname\x7d"])) := by
      rw [@mappingItem_of_entry _ _ _ (.obj 363 [("name", .str "theMethod")]) rfl rfl rfl]
      exact hentry
    have hmapped : mappedParameters withData refMappedCall (JSPromise.resolve [.str "X"])
        = .ok (JSPromise.all [callResult (.obj 363 [("name", .str "theMethod")]) defaultService
            "theMethod" (JSPromise.resolve [.str "$\x7bname\x7d"])]) := by
      have h1 : ((refMappedCall.prop "parameterMapping").isArray
          && decide ((refMappedCall.prop "parameterMapping").arrayLength > 0)) = true := rfl
      have h2 : (refMappedCall.prop "parameters").isArray = true := rfl
      have h3 : (refMappedCall.prop "parameters").elems = [.str "$\x7bname\x7d"] := rfl
      simp only [mappedParameters, h1, h2, h3, if_true, mapIndexed, hitem, collect]
    refine ⟨callResult refMappedCall defaultService "theMethod"
      (JSPromise.all [callResult (.obj 363 [("name", .str "theMethod")]) defaultService
        "theMethod" (JSPromise.resolve [.str "$\x7bname\x7d"])]), ?_, rfl⟩
    have hvalid : ValidCall withData refMappedCall defaultService "theMethod" :=
      { isObject := ⟨rfl, rfl⟩
        hasName := ⟨rfl, by decide⟩
        hasService := Or.inl rfl
        registered := rfl
        provided := ⟨_, rfl, rfl⟩ }
    rw [callService_of_valid hvalid]
    have hprep : preparedParameters withData refMappedCall none
        = .ok (JSPromise.resolve [.str "X"]) := rfl
    rw [hprep]
    simp only [hmapped]
  · rw [_callService_steps]
    rfl

theorem resolveParameters_data {self other : AAIMBehavior} (h : self._data = other._data)
    (ps : List JSVal) : _resolveParameters self ps = _resolveParameters other ps := by
  induction ps with
  | nil => rfl
  | cons p rest ih => simp only [_resolveParameters, h, ih]

/-- What the callback of `executeState` does with parameters that are already
there. -/
theorem stateCallback_resolved (config : JSVal) (arg : FactoryArg) (w : BWorld)
    (fac : SituationFactory) (hfac : w.self._factory = some fac) :
    (strictEq w.self._currentConfig config = false →
      stateCallback config (JSPromise.resolve arg) w =
        { self := { w.self with _currentConfig := config }
          executions := w.executions
          factoryCalls := w.factoryCalls
            ++ [FactoryCall.create (config.prop "situation") arg w.self._data] }) ∧
    (strictEq w.self._currentConfig config = true →
      stateCallback config (JSPromise.resolve arg) w =
        { w with factoryCalls := w.factoryCalls
            ++ [FactoryCall.refresh (config.prop "situation") arg w.self._data] }) := by
  constructor <;> intro h <;> simp only [strictEq] at h <;>
    simp [stateCallback, JSPromise.resolve, hfac, h]

/-- The call `executeState(c)` on parameters that are an array or absent. -/
theorem executeState_resolved {self : AAIMBehavior} {c : JSVal} {values : List JSVal}
    (hparams : (∃ r ps, c.getProp "parameters" = .ok (.arr r ps) ∧
        _resolveParameters self ps = .ok values) ∨
      (c.getProp "parameters" = .ok JSVal.undefined ∧ values = [])) :
    executeState self c = .ok (stateCallback c (JSPromise.resolve (FactoryArg.list values))) := by
  rcases hparams with ⟨r, ps, hp, hres⟩ | ⟨hp, hv⟩
  · simp [executeState, hp, JSVal.isArray, JSVal.elems, hres]
  · subst hv
    simp [executeState, hp, JSVal.isArray, JSVal.typeofObject]

/-- C11: for a state configuration `c` whose `parameters` is an array or
absent, `executeState(c)` resolves the parameters against the data context of
that moment and returns; its callback then asks the factory to create, and
records `c`, when `c` is not the object recorded as executed last, and asks it
to refresh, creating nothing, when it is. So the same object executed twice
gives a create and then a refresh, and two objects with the same content but
different identities give a create each. -/
theorem executeState_create_or_refresh (w : BWorld) (fac : SituationFactory)
    (hfac : w.self._factory = some fac) (c : JSVal) (values : List JSVal)
    (hparams : (∃ r ps, c.getProp "parameters" = .ok (.arr r ps) ∧
        _resolveParameters w.self ps = .ok values) ∨
      (c.getProp "parameters" = .ok JSVal.undefined ∧ values = [])) :
    (∃ callback, executeState w.self c = .ok callback ∧
      ∀ later fac', later.self._factory = some fac' →
        (strictEq later.self._currentConfig c = false →
          callback later =
            { self := { later.self with _currentConfig := c }
              executions := later.executions
              factoryCalls := later.factoryCalls
                ++ [FactoryCall.create (c.prop "situation") (.list values) later.self._data] }) ∧
        (strictEq later.self._currentConfig c = true →
          callback later =
            { later with factoryCalls := later.factoryCalls
                ++ [FactoryCall.refresh (c.prop "situation") (.list values) later.self._data] })) ∧
    (strictEq w.self._currentConfig c = false →
      ((w.doExecuteState c).1.doExecuteState c).1.factoryCalls =
        w.factoryCalls ++ [FactoryCall.create (c.prop "situation") (.list values) w.self._data,
          FactoryCall.refresh (c.prop "situation") (.list values) w.self._data]) ∧
    (∀ r1 r2 props, c = JSVal.obj r1 props → r1 ≠ r2 →
      strictEq w.self._currentConfig c = false →
      ((w.doExecuteState c).1.doExecuteState (JSVal.obj r2 props)).1.factoryCalls =
        w.factoryCalls ++ [FactoryCall.create (c.prop "situation") (.list values) w.self._data,
          FactoryCall.create (c.prop "situation") (.list values) w.self._data]) := by
  have hexec := executeState_resolved hparams
  have hfirst : strictEq w.self._currentConfig c = false →
      (w.doExecuteState c).1 =
        { self := { w.self with _currentConfig := c }
          executions := w.executions
          factoryCalls := w.factoryCalls
            ++ [FactoryCall.create (c.prop "situation") (.list values) w.self._data] } := by
    intro h
    simp only [BWorld.doExecuteState, hexec]
    exact (stateCallback_resolved c (.list values) w fac hfac).1 h
  refine ⟨⟨_, hexec, fun later fac' hf => stateCallback_resolved c (.list values) later fac' hf⟩,
    ?_, ?_⟩
  · intro h
    have hparams2 : (∃ r ps, c.getProp "parameters" = .ok (.arr r ps) ∧
          _resolveParameters ({ w.self with _currentConfig := c } : AAIMBehavior) ps
            = .ok values) ∨
        (c.getProp "parameters" = .ok JSVal.undefined ∧ values = []) := by
      rcases hparams with ⟨r, ps, hp, hres⟩ | h2
      · exact Or.inl ⟨r, ps, hp, by
          rw [← hres]
          exact @resolveParameters_data _ w.self (by rfl) ps⟩
      · exact Or.inr h2
    have hsecond := (stateCallback_resolved c (.list values)
      { self := { w.self with _currentConfig := c }
        executions := w.executions
        factoryCalls := w.factoryCalls
          ++ [FactoryCall.create (c.prop "situation") (.list values) w.self._data] }
      fac hfac).2 (by simp only [strictEq]; exact JSVal.sameValueZero_refl c)
    rw [hfirst h]
    simp only [BWorld.doExecuteState, executeState_resolved hparams2, hsecond]
    simp
  · intro r1 r2 props hc hne h
    subst hc
    have hparams2 : (∃ r ps, (JSVal.obj r2 props).getProp "parameters" = .ok (.arr r ps) ∧
          _resolveParameters
            ({ w.self with _currentConfig := JSVal.obj r1 props } : AAIMBehavior) ps
            = .ok values) ∨
        ((JSVal.obj r2 props).getProp "parameters" = .ok JSVal.undefined ∧ values = []) := by
      rcases hparams with ⟨r, ps, hp, hres⟩ | h2
      · exact Or.inl ⟨r, ps, hp, by
          rw [← hres]
          exact @resolveParameters_data _ w.self (by rfl) ps⟩
      · exact Or.inr h2
    have hsecond := (stateCallback_resolved (JSVal.obj r2 props) (.list values)
      { self := { w.self with _currentConfig := JSVal.obj r1 props }
        executions := w.executions
        factoryCalls := w.factoryCalls
          ++ [FactoryCall.create ((JSVal.obj r1 props).prop "situation") (.list values)
            w.self._data] }
      fac hfac).1 (by simp only [strictEq, JSVal.sameValueZero]; simpa using hne)
    rw [hfirst h]
    simp only [BWorld.doExecuteState, executeState_resolved hparams2, hsecond]
    simp [JSVal.prop, JSVal.getProp]

/-- C11 at the test "refreshing the current state if it is identically
configured", with `'X'` under `name`: the same object executed twice gives a
create and then a refresh, both with the resolved parameters. -/
theorem executeState_create_or_refresh_witness :
    (((BWorld.mk withData [] []).doExecuteState refreshConfig).1.doExecuteState
        refreshConfig).1.factoryCalls =
      [] ++ [FactoryCall.create (refreshConfig.prop "situation")
          (.list [.str "anyParam", .num 42, .str "X"]) withData._data,
        FactoryCall.refresh (refreshConfig.prop "situation")
          (.list [.str "anyParam", .num 42, .str "X"]) withData._data] :=
  (executeState_create_or_refresh (BWorld.mk withData [] []) testFactory rfl refreshConfig
    [.str "anyParam", .num 42, .str "X"] (Or.inl ⟨381, _, rfl, rfl⟩)).2.1 rfl

/-- C12: the second argument the factory is given by the callback of
`executeState` is the list of the resolved parameters when `parameters` is an
array, the empty list when `parameters` is absent, and, when `parameters` is a
service-call configuration, the very value its promise is fulfilled with, not
a list holding it. -/
theorem factory_second_argument (w : BWorld) (fac : SituationFactory)
    (hfac : w.self._factory = some fac) (c : JSVal) :
    (∀ r ps values, c.getProp "parameters" = .ok (.arr r ps) →
      _resolveParameters w.self ps = .ok values →
      ∃ call, (w.doExecuteState c).1.factoryCalls = w.factoryCalls ++ [call] ∧
        call.parameters = FactoryArg.list values) ∧
    (c.getProp "parameters" = .ok JSVal.undefined →
      ∃ call, (w.doExecuteState c).1.factoryCalls = w.factoryCalls ++ [call] ∧
        call.parameters = FactoryArg.list []) ∧
    (∀ config q v t, c.getProp "parameters" = .ok config → config.isArray = false →
      config.typeofObject = true → _callService w.self config none = .ok q →
      q w.self = (.fulfilled v, t) →
      ∃ call, (w.doExecuteState c).1.factoryCalls = w.factoryCalls ++ [call] ∧
        call.parameters = FactoryArg.value v ∧
        (w.doExecuteState c).1.executions = w.executions ++ t) := by
  have hres : ∀ values, (∃ r ps, c.getProp "parameters" = .ok (.arr r ps) ∧
        _resolveParameters w.self ps = .ok values) ∨
      (c.getProp "parameters" = .ok JSVal.undefined ∧ values = []) →
      ∃ call, (w.doExecuteState c).1.factoryCalls = w.factoryCalls ++ [call] ∧
        call.parameters = FactoryArg.list values := by
    intro values hparams
    simp only [BWorld.doExecuteState, executeState_resolved hparams]
    cases hs : strictEq w.self._currentConfig c with
    | false =>
      rw [(stateCallback_resolved c (.list values) w fac hfac).1 hs]
      exact ⟨_, rfl, rfl⟩
    | true =>
      rw [(stateCallback_resolved c (.list values) w fac hfac).2 hs]
      exact ⟨_, rfl, rfl⟩
  refine ⟨fun r ps values hp hr => hres values (Or.inl ⟨r, ps, hp, hr⟩),
    fun hp => hres [] (Or.inr ⟨hp, rfl⟩), ?_⟩
  intro config q v t hp harr hobj hq hrun
  have hexec : executeState w.self c
      = .ok (stateCallback c (q.andThen fun value => JSPromise.resolve (FactoryArg.value value))) := by
    simp [executeState, hp, harr, hobj, hq]
  have hpr : (q.andThen fun value => JSPromise.resolve (FactoryArg.value value)) w.self
      = (.fulfilled (FactoryArg.value v), t) := by
    rw [andThen_fulfilled hrun]
    simp [JSPromise.resolve]
  simp only [BWorld.doExecuteState, hexec]
  cases hs : JSVal.sameValueZero w.self._currentConfig c with
  | false =>
    refine ⟨FactoryCall.create (c.prop "situation") (.value v) w.self._data, ?_, rfl, ?_⟩ <;>
      simp [stateCallback, hpr, hfac, hs]
  | true =>
    refine ⟨FactoryCall.refresh (c.prop "situation") (.value v) w.self._data, ?_, rfl, ?_⟩ <;>
      simp [stateCallback, hpr, hfac, hs]

theorem theMethodCall_returns :
    _callService withDefault theMethodCall none
      = .ok (callResult theMethodCall defaultService "theMethod"
          (JSPromise.resolve [.str "anyParam", .num 42])) := by
  rw [_callService_steps]
  rfl

/-- C12 at the test "calling a default service's method as data acquisition
function": the method returns 42 and the factory is given 42. -/
theorem factory_second_argument_witness :
    ∃ call, ((BWorld.mk withDefault [] []).doExecuteState stateWithCall).1.factoryCalls
        = [] ++ [call] ∧
      call.parameters = FactoryArg.value (.num 42) ∧
      ((BWorld.mk withDefault [] []).doExecuteState stateWithCall).1.executions
        = [] ++ [⟨1, "theMethod", [.str "anyParam", .num 42]⟩] :=
  (factory_second_argument (BWorld.mk withDefault [] []) testFactory rfl stateWithCall).2.2
    theMethodCall _ (.num 42) _ rfl rfl rfl theMethodCall_returns rfl

/-! ## Rejections and configurations that are no objects -/

/-- C21: when the promise of the service method of a valid configuration is
rejected, the promise `_callService` returns is rejected with the same error
and nothing is executed after the service method, so a configured result
mapping is not called. When the promise of the service call that is the
`parameters` of a state configuration is rejected, `executeState` returns,
the factory is not called and the configuration executed last stays what it
was. -/
theorem rejection_is_passed_on (self : AAIMBehavior) (config : JSVal) (d : Option (List JSVal))
    (service : Service) (name : String)
    (f : String → List JSVal → Except JSError (Settled JSVal))
    (hvalid : ValidCall self config service name) (hexec : service.execute = some f)
    (p : JSPromise JSVal) (hp : _callService self config d = .ok p) :
    (∃ prepared parameters,
      preparedParameters self config d = .ok prepared ∧
      mappedParameters self config prepared = .ok parameters ∧
      ∀ b values t e, parameters b = (.fulfilled values, t) →
        f name values = .ok (.rejected e) →
        p b = (.rejected e, t ++ [⟨service.ref, name, values⟩])) ∧
    (∀ (w : BWorld) (c : JSVal) (q : JSPromise JSVal) (e : JSError) (t : List Execution),
      c.getProp "parameters" = .ok config → config.isArray = false →
      _callService w.self config none = .ok q → q w.self = (.rejected e, t) →
      w.doExecuteState c = ({ w with executions := w.executions ++ t }, .ok ()) ∧
      (w.doExecuteState c).1.factoryCalls = w.factoryCalls ∧
      (w.doExecuteState c).1.self._currentConfig = w.self._currentConfig) := by
  constructor
  · obtain ⟨prepared, parameters, hprep, hmapped, hpeq⟩ := callService_ok_inv hvalid hp
    refine ⟨prepared, parameters, hprep, hmapped, ?_⟩
    intro b values t e hb hfr
    have h1 : parameters.andThen (invoke service name) b
        = (.rejected e, t ++ [⟨service.ref, name, values⟩]) := by
      rw [andThen_fulfilled hb, invoke_run hexec, hfr]
      rfl
    rw [hpeq]
    unfold callResult
    by_cases hr : ((config.prop "resultMapping").typeofObject
        && !(config.prop "resultMapping").isNull) = true
    · rw [if_pos hr, andThen_rejected h1]
    · rw [if_neg hr, h1]
  · intro w c q e t hc harr hq hrun
    have hexecState : executeState w.self c
        = .ok (stateCallback c
            (q.andThen fun value => JSPromise.resolve (FactoryArg.value value))) := by
      simp [executeState, hc, harr, hvalid.isObject.1, hq]
    have hrej : (q.andThen fun value => JSPromise.resolve (FactoryArg.value value)) w.self
        = (.rejected e, t) := andThen_rejected hrun _
    have hcb : stateCallback c
        (q.andThen fun value => JSPromise.resolve (FactoryArg.value value)) w
        = { w with executions := w.executions ++ t } := by
      simp only [stateCallback, hrej]
    simp only [BWorld.doExecuteState, hexecState, hcb, and_self]

theorem failingMappedCall_returns :
    _callService withFailing failingMappedCall none
      = .ok (callResult failingMappedCall failingService "theMethod" (JSPromise.resolve [])) := by
  rw [_callService_steps]
  rfl

/-- C21 at a default service whose `theMethod` is rejected with `'Nope'`:
the configured `mappingMethod` is not executed, and `executeState` on a state
that has the call as its parameters does not reach the factory. -/
theorem rejection_is_passed_on_witness :
    (callResult failingMappedCall failingService "theMethod" (JSPromise.resolve [])) withFailing
        = (.rejected (.error "Nope"), [] ++ [⟨4, "theMethod", []⟩]) ∧
      (BWorld.mk withFailing [] []).doExecuteState stateWithFailing
        = ({ (BWorld.mk withFailing [] []) with
              executions := [] ++ [⟨4, "theMethod", []⟩] }, .ok ()) := by
  have h := rejection_is_passed_on withFailing failingMappedCall none failingService "theMethod" _
    { isObject := ⟨rfl, rfl⟩
      hasName := ⟨rfl, by decide⟩
      hasService := Or.inl rfl
      registered := rfl
      provided := ⟨_, rfl, rfl⟩ } rfl _ failingMappedCall_returns
  obtain ⟨⟨prepared, parameters, h1, h2, h3⟩, h4⟩ := h
  have e1 : prepared = JSPromise.resolve [] :=
    Except.ok.inj (h1.symm.trans (rfl :
      preparedParameters withFailing failingMappedCall none = .ok (JSPromise.resolve [])))
  subst e1
  have e2 : parameters = JSPromise.resolve [] :=
    Except.ok.inj (h2.symm.trans (rfl :
      mappedParameters withFailing failingMappedCall (JSPromise.resolve [])
        = .ok (JSPromise.resolve [])))
  subst e2
  exact ⟨h3 withFailing [] [] (.error "Nope") rfl rfl,
    (h4 (BWorld.mk withFailing [] []) stateWithFailing _ (.error "Nope") [⟨4, "theMethod", []⟩]
      rfl rfl failingMappedCall_returns rfl).1⟩

/-- C22, evaluated: `executeTransition` returns a promise that is already
fulfilled with `undefined`, and executes nothing, for `undefined`, a string, a
number and a boolean; for `null` the test `typeof config === "object"` holds,
the configuration is handed to `_callService`, and the call raises. -/
theorem executeTransition_null_raises :
    executeTransition withDefault JSVal.null
        = .error (.error "No service configuration object provided!") ∧
      (BWorld.mk withDefault [] []).run (executeTransition withDefault JSVal.null)
        = (BWorld.mk withDefault [] [],
            .error (.error "No service configuration object provided!")) ∧
      (∀ self : AAIMBehavior, executeTransition self JSVal.null
        = .error (.error "No service configuration object provided!")) ∧
      (∀ self : AAIMBehavior,
        executeTransition self JSVal.undefined = .ok (JSPromise.resolve JSVal.undefined) ∧
        (∀ s, executeTransition self (.str s) = .ok (JSPromise.resolve JSVal.undefined)) ∧
        (∀ n, executeTransition self (.num n) = .ok (JSPromise.resolve JSVal.undefined)) ∧
        (∀ b, executeTransition self (.bool b) = .ok (JSPromise.resolve JSVal.undefined))) := by
  have hnull : ∀ self : AAIMBehavior, executeTransition self JSVal.null
      = .error (.error "No service configuration object provided!") := by
    intro self
    simp only [executeTransition, JSVal.typeofObject, if_true]
    rw [_callService_steps]
    rfl
  refine ⟨hnull _, ?_, hnull, fun self => ⟨rfl, fun _ => rfl, fun _ => rfl, fun _ => rfl⟩⟩
  rw [hnull]
  rfl

/-! ## The parameter resolver: lemmas -/

theorem takeWhile_append_stop {p : Char → Bool} {l : List Char} (hl : ∀ c ∈ l, p c = true)
    {d : Char} (hd : p d = false) (r : List Char) :
    (l ++ d :: r).takeWhile p = l ∧ (l ++ d :: r).dropWhile p = d :: r := by
  induction l with
  | nil => simp [hd]
  | cons c cs ih =>
    have hc : p c = true := hl c (List.mem_cons_self _ _)
    have ih' := ih fun x hx => hl x (List.mem_cons_of_mem _ hx)
    simp [hc, ih'.1, ih'.2]

theorem isPathChar_of_isWordChar {c : Char} (h : isWordChar c = true) : isPathChar c = true := by
  simp [isPathChar, h]

theorem isPathChar_close : isPathChar '\x7d' = false := by decide

theorem isWordChar_close : isWordChar '\x7d' = false := by decide

theorem isWordChar_dot : isWordChar '.' = false := by decide

/-- A match at the first character is a reference that starts there. -/
theorem matchVarHere_some_iff (s : List Char) :
    (∃ m, matchVarHere s = some m) ↔
      ∃ body post, s = '$' :: '\x7b' :: (body ++ '\x7d' :: post) ∧ body ≠ [] ∧
        ∀ c ∈ body, isPathChar c = true := by
  constructor
  · rintro ⟨m, hm⟩
    unfold matchVarHere at hm
    split at hm
    · rename_i rest
      have hsplit : ∀ (p : Char → Bool), (∀ c, p c = true → isPathChar c = true) →
          (!(rest.takeWhile p).isEmpty && (rest.dropWhile p).head? == some '\x7d') = true →
          ∃ body post, '$' :: '\x7b' :: rest = '$' :: '\x7b' :: (body ++ '\x7d' :: post) ∧
            body ≠ [] ∧ ∀ c ∈ body, isPathChar c = true := by
        intro p hp hc
        simp only [Bool.and_eq_true, Bool.not_eq_true', beq_iff_eq] at hc
        obtain ⟨hne, hhead⟩ := hc
        cases hd : rest.dropWhile p with
        | nil => rw [hd] at hhead; simp at hhead
        | cons d post =>
          rw [hd] at hhead
          simp only [List.head?_cons, Option.some.injEq] at hhead
          subst hhead
          refine ⟨rest.takeWhile p, post, ?_, ?_, ?_⟩
          · rw [← hd, List.takeWhile_append_dropWhile]
          · intro h0; rw [h0] at hne; simp at hne
          · intro c hc
            exact hp c (List.mem_takeWhile_imp hc)
      split_ifs at hm with h1 h2
      · exact hsplit isWordChar (fun c => isPathChar_of_isWordChar) h1
      · exact hsplit isPathChar (fun c h => h) h2
    · simp at hm
  · rintro ⟨body, post, rfl, hne, hall⟩
    have h := takeWhile_append_stop hall isPathChar_close post
    simp only [matchVarHere]
    split_ifs with h1 h2
    · exact ⟨_, rfl⟩
    · exact ⟨_, rfl⟩
    · exfalso
      apply h2
      cases body with
      | nil => exact absurd rfl hne
      | cons c cs => rw [h.1, h.2]; rfl

/-- The pattern is found exactly in the strings that contain a reference. -/
theorem execVarPattern_some_iff (s : List Char) :
    (∃ m, execVarPattern s = some m) ↔ ContainsReference s := by
  induction s with
  | nil =>
    constructor
    · rintro ⟨m, hm⟩; simp [execVarPattern] at hm
    · rintro ⟨pre, body, post, h, _⟩
      cases pre <;> simp at h
  | cons c cs ih =>
    constructor
    · rintro ⟨m, hm⟩
      rw [execVarPattern] at hm
      cases hh : matchVarHere (c :: cs) with
      | some m' =>
        obtain ⟨body, post, hs, hne, hall⟩ := (matchVarHere_some_iff _).mp ⟨m', hh⟩
        exact ⟨[], body, post, hs, hne, hall⟩
      | none =>
        rw [hh] at hm
        obtain ⟨pre, body, post, hs, hne, hall⟩ := ih.mp ⟨m, hm⟩
        exact ⟨c :: pre, body, post, by rw [hs]; rfl, hne, hall⟩
    · rintro ⟨pre, body, post, hs, hne, hall⟩
      rw [execVarPattern]
      cases hh : matchVarHere (c :: cs) with
      | some m' => exact ⟨m', rfl⟩
      | none =>
        cases pre with
        | nil =>
          have := (matchVarHere_some_iff (c :: cs)).mpr ⟨body, post, hs, hne, hall⟩
          rw [hh] at this
          obtain ⟨m, hm⟩ := this
          cases hm
        | cons c' pre' =>
          simp only [List.cons_append, List.cons.injEq] at hs
          exact ih.mpr ⟨pre', body, post, hs.2, hne, hall⟩

theorem execVarPattern_none_iff (s : List Char) :
    execVarPattern s = none ↔ ¬ ContainsReference s := by
  rw [← execVarPattern_some_iff]
  cases execVarPattern s <;> simp

theorem matchVarHere_simple {k : List Char} (hne : k ≠ []) (hk : ∀ c ∈ k, isWordChar c = true)
    (post : List Char) :
    matchVarHere ('$' :: '\x7b' :: (k ++ '\x7d' :: post)) = some (.simple k) := by
  have h := takeWhile_append_stop hk isWordChar_close post
  cases k with
  | nil => exact absurd rfl hne
  | cons c cs =>
    simp only [matchVarHere]
    rw [h.1, h.2]
    rfl

theorem dotted_cons (first step : List Char) (steps : List (List Char)) :
    dotted first (step :: steps) = first ++ '.' :: dotted step steps := by
  simp [dotted]

theorem dotted_pathChars {first : List Char} (hf : ∀ c ∈ first, isWordChar c = true) :
    ∀ {steps : List (List Char)}, (∀ s ∈ steps, ∀ c ∈ s, isWordChar c = true) →
      ∀ c ∈ dotted first steps, isPathChar c = true := by
  intro steps hs c hc
  simp only [dotted, List.mem_append, List.mem_flatten, List.mem_map] at hc
  rcases hc with hc | ⟨l, ⟨step, hstep, rfl⟩, hc⟩
  · exact isPathChar_of_isWordChar (hf c hc)
  · rcases List.mem_cons.mp hc with rfl | hc
    · decide
    · exact isPathChar_of_isWordChar (hs step hstep c hc)

theorem matchVarHere_path {k step : List Char} {steps : List (List Char)}
    (hk : ∀ c ∈ k, isWordChar c = true)
    (hs : ∀ s ∈ step :: steps, ∀ c ∈ s, isWordChar c = true) (post : List Char) :
    matchVarHere ('$' :: '\x7b' :: (dotted k (step :: steps) ++ '\x7d' :: post))
      = some (.path (dotted k (step :: steps))) := by
  have hall := dotted_pathChars hk hs
  have h2 := takeWhile_append_stop hall isPathChar_close post
  have h1 : (dotted k (step :: steps) ++ '\x7d' :: post)
      = k ++ '.' :: (dotted step steps ++ '\x7d' :: post) := by
    rw [dotted_cons]; simp
  have h3 := takeWhile_append_stop hk isWordChar_dot (dotted step steps ++ '\x7d' :: post)
  have hne : dotted k (step :: steps) ≠ [] := by
    rw [dotted_cons]; simp
  simp only [matchVarHere]
  have hfirst : (!(List.takeWhile isWordChar (dotted k (step :: steps) ++ '\x7d' :: post)).isEmpty
      && (List.dropWhile isWordChar (dotted k (step :: steps) ++ '\x7d' :: post)).head?
        == some '\x7d') = false := by
    rw [h1, h3.2]
    simp
  rw [hfirst, h2.1, h2.2]
  cases hd : dotted k (step :: steps) with
  | nil => exact absurd hd hne
  | cons c cs => rfl

theorem execVarPattern_of_matchHere {s : List Char} {m : VarRef} (h : matchVarHere s = some m) :
    execVarPattern s = some m := by
  cases s with
  | nil => simp [matchVarHere] at h
  | cons c cs => simp [execVarPattern, h]

theorem splitDots_dotted {first : List Char} (hf : ∀ c ∈ first, isWordChar c = true) :
    ∀ (steps : List (List Char)), (∀ s ∈ steps, ∀ c ∈ s, isWordChar c = true) →
      splitDots (dotted first steps) = first :: steps := by
  intro steps
  induction steps generalizing first with
  | nil =>
    intro _
    simp only [dotted, List.map_nil, List.flatten_nil, List.append_nil]
    induction first with
    | nil => rfl
    | cons c cs ih =>
      have hc : (c == '.') = false := by
        have := hf c (List.mem_cons_self _ _)
        by_contra hcon
        simp only [Bool.not_eq_false, beq_iff_eq] at hcon
        subst hcon
        exact absurd this (by decide)
      simp only [splitDots, hc, Bool.false_eq_true, if_false]
      rw [ih fun x hx => hf x (List.mem_cons_of_mem _ hx)]
  | cons step steps ih =>
    intro hs
    rw [dotted_cons]
    have hrec := @ih step (hs step (List.mem_cons_self _ _))
      (fun s h => hs s (List.mem_cons_of_mem _ h))
    induction first with
    | nil => simp [splitDots, hrec]
    | cons c cs ihf =>
      have hc : (c == '.') = false := by
        have := hf c (List.mem_cons_self _ _)
        by_contra hcon
        simp only [Bool.not_eq_false, beq_iff_eq] at hcon
        subst hcon
        exact absurd this (by decide)
      simp only [List.cons_append, splitDots, hc, Bool.false_eq_true, if_false, List.append_eq]
      rw [ihf fun x hx => hf x (List.mem_cons_of_mem _ hx)]

/-- Where the specification describes a navigation, the loop of the resolver
makes it. -/
theorem navigate_of_reach : ∀ (path : List String) (v r : JSVal),
    reach v path = some r → navigate v path = .ok r := by
  intro path
  induction path with
  | nil => intro v r h; simp only [reach, Option.some.injEq] at h; simp [navigate, h]
  | cons step rest ih =>
    intro v r h
    cases v with
    | obj ref props =>
      simp only [reach] at h
      simp only [navigate, JSVal.typeofObject, if_true, JSVal.member]
      cases hf : props.find? (fun p => p.1 == step) with
      | some p => rw [hf] at h; exact ih _ _ h
      | none => rw [hf] at h; exact ih _ _ h
    | arr ref es =>
      simp only [reach] at h
      cases hi : JSVal.arrayIndex step with
      | none => rw [hi] at h; cases h
      | some i =>
        rw [hi] at h
        have hlen : (step == "length") = false := by
          by_contra hcon
          simp only [Bool.not_eq_false, beq_iff_eq] at hcon
          subst hcon
          have hnone : JSVal.arrayIndex "length" = none := by decide
          rw [hnone] at hi
          cases hi
        simp only [navigate, JSVal.typeofObject, if_true, JSVal.member, hlen, hi,
          Bool.false_eq_true, if_false]
        exact ih _ _ h
    | undefined => simp [reach] at h
    | null => simp [reach] at h
    | bool b => simp [reach] at h
    | num n => simp [reach] at h
    | str s => simp [reach] at h

theorem navigate_stops {v : JSVal} (h : v.typeofObject = false) (path : List String) :
    navigate v path = .ok v := by
  cases path with
  | nil => rfl
  | cons step rest => simp [navigate, h]

theorem navigate_append : ∀ (pre : List String) (v r : JSVal) (rest : List String),
    reach v pre = some r → navigate v (pre ++ rest) = navigate r rest := by
  intro pre
  induction pre with
  | nil => intro v r rest h; simp only [reach, Option.some.injEq] at h; simp [h]
  | cons step more ih =>
    intro v r rest h
    cases v with
    | obj ref props =>
      simp only [reach] at h
      simp only [List.cons_append, navigate, JSVal.typeofObject, if_true, JSVal.member]
      cases hf : props.find? (fun p => p.1 == step) with
      | some p => rw [hf] at h; exact ih _ _ _ h
      | none => rw [hf] at h; exact ih _ _ _ h
    | arr ref es =>
      simp only [reach] at h
      cases hi : JSVal.arrayIndex step with
      | none => rw [hi] at h; cases h
      | some i =>
        rw [hi] at h
        have hlen : (step == "length") = false := by
          by_contra hcon
          simp only [Bool.not_eq_false, beq_iff_eq] at hcon
          subst hcon
          have hnone : JSVal.arrayIndex "length" = none := by decide
          rw [hnone] at hi
          cases hi
        simp only [List.cons_append, navigate, JSVal.typeofObject, if_true, JSVal.member, hlen,
          hi, Bool.false_eq_true, if_false]
        exact ih _ _ _ h
    | undefined => simp [reach] at h
    | null => simp [reach] at h
    | bool b => simp [reach] at h
    | num n => simp [reach] at h
    | str s => simp [reach] at h

theorem isIdentifier_iff (s : String) :
    isIdentifier s = true ↔ s.toList ≠ [] ∧ ∀ c ∈ s.toList, isWordChar c = true := by
  simp [isIdentifier, List.isEmpty_iff]

theorem map_mk_toList (l : List String) : (l.map String.toList).map String.mk = l := by
  induction l with
  | nil => rfl
  | cons s rest ih => simp only [List.map_cons, ih]; rfl

/-- How the resolver treats a reference made of identifiers. -/
theorem resolveParameter_reference (data : JSMap) (k : String) (path : List String)
    (hk : isIdentifier k = true) (hpath : ∀ s ∈ path, isIdentifier s = true) :
    resolveParameter data (.str (reference k path))
      = navigate (data.get (.str k)) path := by
  obtain ⟨hne, hall⟩ := (isIdentifier_iff k).mp hk
  have hsteps : ∀ s ∈ path.map String.toList, ∀ c ∈ s, isWordChar c = true := by
    intro s hs c hc
    obtain ⟨x, hx, rfl⟩ := List.mem_map.mp hs
    exact ((isIdentifier_iff x).mp (hpath x hx)).2 c hc
  have hchars : (JSVal.str (reference k path)).toStr.toList
      = '$' :: '\x7b' :: (dotted k.toList (path.map String.toList) ++ '\x7d' :: []) := rfl
  unfold resolveParameter
  rw [hchars]
  cases path with
  | nil =>
    have hd : dotted k.toList ([].map String.toList) = k.toList := by simp [dotted]
    rw [hd, execVarPattern_of_matchHere (matchVarHere_simple hne hall [])]
    rfl
  | cons step steps =>
    rw [List.map_cons] at hsteps ⊢
    rw [execVarPattern_of_matchHere (matchVarHere_path hall hsteps [])]
    simp only
    rw [splitDots_dotted hall _ hsteps]
    simp only
    rw [← List.map_cons, map_mk_toList]
    rfl

theorem digitChar_ne_dollar (m : Nat) (h : m < 10) : Nat.digitChar m ≠ '$' := by
  interval_cases m <;> decide

theorem toDigitsCore_no_dollar (fuel : Nat) : ∀ (n : Nat) (acc : List Char),
    (∀ c ∈ acc, c ≠ '$') → ∀ c ∈ Nat.toDigitsCore 10 fuel n acc, c ≠ '$' := by
  induction fuel with
  | zero => intro n acc h; simpa [Nat.toDigitsCore] using h
  | succ fuel ih =>
    intro n acc h c hc
    simp only [Nat.toDigitsCore] at hc
    have hacc : ∀ x ∈ Nat.digitChar (n % 10) :: acc, x ≠ '$' := by
      intro x hx
      rcases List.mem_cons.mp hx with rfl | hx
      · exact digitChar_ne_dollar _ (Nat.mod_lt _ (by decide))
      · exact h x hx
    split_ifs at hc
    · exact hacc c hc
    · exact ih _ _ hacc c hc

theorem natRepr_no_dollar (n : Nat) : ∀ c ∈ (toString n).toList, c ≠ '$' := by
  intro c hc
  have : (toString n).toList = Nat.toDigits 10 n := rfl
  rw [this] at hc
  exact toDigitsCore_no_dollar _ _ [] (by simp) c hc

theorem intToString_no_dollar (n : Int) : ∀ c ∈ (toString n).toList, c ≠ '$' := by
  cases n with
  | ofNat m => exact natRepr_no_dollar m
  | negSucc m =>
    intro c hc
    have : (toString (Int.negSucc m)).toList = '-' :: (toString (m + 1)).toList := rfl
    rw [this] at hc
    rcases List.mem_cons.mp hc with rfl | hc
    · decide
    · exact natRepr_no_dollar _ c hc

theorem not_containsReference_of_no_dollar {s : List Char} (h : ∀ c ∈ s, c ≠ '$') :
    ¬ ContainsReference s := by
  rintro ⟨pre, body, post, rfl, _, _⟩
  exact h '$' (by simp) rfl

/-- The resolver returns a list exactly when every entry resolves, and the
list holds the resolved entries in order. -/
theorem resolveParameters_ok_iff (self : AAIMBehavior) (ps values : List JSVal) :
    _resolveParameters self ps = .ok values ↔
      List.Forall₂ (fun p v => resolveParameter self._data p = .ok v) ps values := by
  induction ps generalizing values with
  | nil =>
    constructor
    · intro h
      simp only [_resolveParameters, Except.ok.injEq] at h
      subst h
      exact List.Forall₂.nil
    · intro h
      cases h
      rfl
  | cons p rest ih =>
    constructor
    · intro h
      simp only [_resolveParameters] at h
      cases hp : resolveParameter self._data p with
      | error e => rw [hp] at h; cases h
      | ok v =>
        rw [hp] at h
        cases hr : _resolveParameters self rest with
        | error e => rw [hr] at h; cases h
        | ok vs =>
          rw [hr] at h
          simp only [Except.ok.injEq] at h
          subst h
          exact List.Forall₂.cons hp ((ih vs).mp hr)
    · intro h
      cases h with
      | cons hp hrest =>
        simp only [_resolveParameters, hp, (ih _).mpr hrest]

theorem resolveParameters_getElem {self : AAIMBehavior} {ps values : List JSVal}
    (h : _resolveParameters self ps = .ok values) :
    values.length = ps.length ∧
      ∀ i (hi : i < ps.length) (hi' : i < values.length),
        resolveParameter self._data ps[i] = .ok values[i] := by
  have h2 := (resolveParameters_ok_iff self ps values).mp h
  refine ⟨h2.length_eq.symm, ?_⟩
  intro i hi hi'
  exact (List.forall₂_iff_get.mp h2).2 i hi hi'

theorem JSMap.get_of_not_has {m : JSMap} {k : JSVal} (h : m.has k = false) :
    m.get k = JSVal.undefined := by
  unfold JSMap.get
  cases hf : m.find? (fun e => JSVal.sameValueZero e.1 k) with
  | none => rfl
  | some e =>
    have hmem := List.mem_of_find?_eq_some hf
    have hp := List.find?_some hf
    have : m.has k = true := by
      simp only [JSMap.has, List.any_eq_true]
      exact ⟨e, hmem, hp⟩
    rw [h] at this
    cases this

/-- C23: the list `_resolveParameters` returns has the length of the
parameter list, and the entry at the place of a reference
`$\x7bk.p1. ... .pn\x7d` is the value reached from the context value of `k` by
the steps `p1`, ..., `pn` through plain objects and arrays; for the reference
`$\x7bk\x7d` that is the context value of `k` itself, which is `undefined` when
the context has no `k`. A list is returned whenever each entry contains no
reference or is a reference of that kind. -/
theorem resolveParameters_references (self : AAIMBehavior) (ps : List JSVal) :
    (∀ values, _resolveParameters self ps = .ok values →
      values.length = ps.length ∧
      ∀ i (hi : i < ps.length) (hi' : i < values.length) (k : String) (path : List String)
        (r : JSVal), ps[i] = .str (reference k path) → isIdentifier k = true →
        (∀ s ∈ path, isIdentifier s = true) → reach (self._data.get (.str k)) path = some r →
        values[i] = r ∧ (path = [] → values[i] = self._data.get (.str k)) ∧
        (path = [] → self._data.has (.str k) = false → values[i] = JSVal.undefined)) ∧
    ((∀ p ∈ ps, ¬ ContainsReference p.toStr.toList ∨
        ∃ k path r, p = .str (reference k path) ∧ isIdentifier k = true ∧
          (∀ s ∈ path, isIdentifier s = true) ∧ reach (self._data.get (.str k)) path = some r) →
      ∃ values, _resolveParameters self ps = .ok values ∧ values.length = ps.length) := by
  constructor
  · intro values h
    obtain ⟨hlen, hget⟩ := resolveParameters_getElem h
    refine ⟨hlen, ?_⟩
    intro i hi hi' k path r hp hk hpath hreach
    have h1 := hget i hi hi'
    rw [hp, resolveParameter_reference _ k path hk hpath, navigate_of_reach _ _ _ hreach] at h1
    have hr : values[i] = r := (Except.ok.inj h1).symm
    refine ⟨hr, ?_, ?_⟩
    · intro hnil
      subst hnil
      simp only [reach, Option.some.injEq] at hreach
      rw [hr, hreach]
    · intro hnil hhas
      subst hnil
      simp only [reach, Option.some.injEq] at hreach
      rw [hr, ← hreach, JSMap.get_of_not_has hhas]
  · intro h
    have hall : ∀ p ∈ ps, ∃ v, resolveParameter self._data p = .ok v := by
      intro p hp
      rcases h p hp with hno | ⟨k, path, r, rfl, hk, hpath, hreach⟩
      · exact ⟨p, resolveParameter_literal _ ((execVarPattern_none_iff _).mpr hno)⟩
      · exact ⟨r, by rw [resolveParameter_reference _ k path hk hpath,
          navigate_of_reach _ _ _ hreach]⟩
    have hex : ∃ values, _resolveParameters self ps = .ok values := by
      clear h
      induction ps with
      | nil => exact ⟨[], rfl⟩
      | cons p rest ih =>
        obtain ⟨v, hv⟩ := hall p (List.mem_cons_self _ _)
        obtain ⟨vs, hvs⟩ := ih fun x hx => hall x (List.mem_cons_of_mem _ hx)
        exact ⟨v :: vs, by simp only [_resolveParameters, hv, hvs]⟩
    obtain ⟨values, hv⟩ := hex
    exact ⟨values, hv, (resolveParameters_getElem hv).1⟩

/-- C23 at the tests "to properties of objects", "to values of arrays" and
"to undefined, if not contained in data context". -/
theorem resolveParameters_references_witness :
    _resolveParameters resolverBehavior
        [.str "$\x7bdeep.first.sec.val\x7d", .str "$\x7blist.2\x7d", .str "$\x7bname\x7d",
          .str "$\x7bnotthere\x7d"]
      = .ok [.num 42, .num 15, .str "Just A. String", .undefined] ∧
    ([.num 42, .num 15, .str "Just A. String", .undefined] : List JSVal).length
      = ([.str "$\x7bdeep.first.sec.val\x7d", .str "$\x7blist.2\x7d", .str "$\x7bname\x7d",
          .str "$\x7bnotthere\x7d"] : List JSVal).length ∧
    ([.num 42, .num 15, .str "Just A. String", .undefined] : List JSVal)[0] = JSVal.num 42 ∧
    ([.num 42, .num 15, .str "Just A. String", .undefined] : List JSVal)[1] = JSVal.num 15 :=
  have h := (resolveParameters_references resolverBehavior
    [.str "$\x7bdeep.first.sec.val\x7d", .str "$\x7blist.2\x7d", .str "$\x7bname\x7d",
      .str "$\x7bnotthere\x7d"]).1
    [.num 42, .num 15, .str "Just A. String", .undefined] rfl
  ⟨rfl, h.1,
    (h.2 0 (by decide) (by decide) "deep" ["first", "sec", "val"] (.num 42) rfl rfl
      (by decide) rfl).1,
    (h.2 1 (by decide) (by decide) "list" ["2"] (.num 15) rfl rfl (by decide) rfl).1⟩

/-- C24, refuted: the string `'Hello $\x7bname\x7d'` and the array
`['$\x7bname\x7d']` are no reference strings, yet the resolver does not return
them: it returns the context value of `name` in their place. -/
theorem entry_containing_reference_is_resolved :
    (∀ k path, JSVal.str "Hello $\x7bname\x7d" ≠ JSVal.str (reference k path)) ∧
      (∀ k path, JSVal.arr 410 [.str "$\x7bname\x7d"] ≠ JSVal.str (reference k path)) ∧
      _resolveParameters resolverBehavior
          [.str "Hello $\x7bname\x7d", .arr 410 [.str "$\x7bname\x7d"]]
        = .ok [.str "Just A. String", .str "Just A. String"] := by
  refine ⟨?_, ?_, rfl⟩
  · intro k path h
    have h2 : ("Hello $\x7bname\x7d" : String).toList.head? = (reference k path).toList.head? :=
      congrArg (fun v => v.toStr.toList.head?) h
    have h3 : (reference k path).toList.head? = some '$' := rfl
    rw [h3] at h2
    exact absurd h2 (by decide)
  · intro k path h
    cases h

/-- C24, amended: an entry whose string form contains no reference is
returned as it is, at its place, whatever the other entries of the list are:
whenever `_resolveParameters` returns a list, the list has such an entry at
the place it had; such an entry resolves without raising; and a list of such
entries is returned as it is. No number, boolean or plain object contains a
reference, nor `undefined` or `null`, nor a string without a dollar sign. -/
theorem literals_pass_through (self : AAIMBehavior) (ps : List JSVal) :
    (∀ values, _resolveParameters self ps = .ok values →
      values.length = ps.length ∧
      ∀ i (hi : i < ps.length) (hi' : i < values.length),
        ¬ ContainsReference ps[i].toStr.toList → values[i] = ps[i]) ∧
    (∀ p : JSVal, ¬ ContainsReference p.toStr.toList →
      resolveParameter self._data p = .ok p) ∧
    ((∀ p ∈ ps, ¬ ContainsReference p.toStr.toList) → _resolveParameters self ps = .ok ps) ∧
    (∀ n, ¬ ContainsReference (JSVal.num n).toStr.toList) ∧
    (∀ b, ¬ ContainsReference (JSVal.bool b).toStr.toList) ∧
    (∀ r props, ¬ ContainsReference (JSVal.obj r props).toStr.toList) ∧
    ¬ ContainsReference JSVal.undefined.toStr.toList ∧
    ¬ ContainsReference JSVal.null.toStr.toList ∧
    (∀ s : String, (∀ c ∈ s.toList, c ≠ '$') → ¬ ContainsReference (JSVal.str s).toStr.toList) := by
  have hentry : ∀ p : JSVal, ¬ ContainsReference p.toStr.toList →
      resolveParameter self._data p = .ok p :=
    fun p hp => resolveParameter_literal _ ((execVarPattern_none_iff _).mpr hp)
  refine ⟨?_, hentry, ?_, ?_, ?_, ?_, ?_, ?_, ?_⟩
  · intro values h
    obtain ⟨hlen, hget⟩ := resolveParameters_getElem h
    refine ⟨hlen, fun i hi hi' hno => ?_⟩
    have h1 := hget i hi hi'
    rw [hentry _ hno] at h1
    exact (Except.ok.inj h1).symm
  · intro h
    exact resolveParameters_literals self ps fun p hp => (execVarPattern_none_iff _).mpr (h p hp)
  · intro n
    exact not_containsReference_of_no_dollar (intToString_no_dollar n)
  · intro b
    apply not_containsReference_of_no_dollar
    cases b <;> decide
  · intro r props
    apply not_containsReference_of_no_dollar
    show ∀ c ∈ "[object Object]".toList, c ≠ '$'
    decide
  · apply not_containsReference_of_no_dollar
    decide
  · apply not_containsReference_of_no_dollar
    decide
  · intro s hs
    exact not_containsReference_of_no_dollar hs

/-- C24, amended, at the list of the test "preserving literal values",
`['name', '$\x7bage\x7d', 'age', '$\x7bname\x7d', 42, false]`: the resolver
returns a list of the same length, and the four entries that contain no
reference stand in it as they were, next to the two resolved references. -/
theorem literals_pass_through_witness :
    _resolveParameters resolverBehavior
        [.str "name", .str "$\x7bage\x7d", .str "age", .str "$\x7bname\x7d", .num 42, .bool false]
      = .ok [.str "name", .num 42, .str "age", .str "Just A. String", .num 42, .bool false] ∧
    ([.str "name", .num 42, .str "age", .str "Just A. String", .num 42, .bool false]
        : List JSVal).length
      = ([.str "name", .str "$\x7bage\x7d", .str "age", .str "$\x7bname\x7d", .num 42, .bool false]
        : List JSVal).length ∧
    ([.str "name", .num 42, .str "age", .str "Just A. String", .num 42, .bool false]
        : List JSVal)[0]
      = ([.str "name", .str "$\x7bage\x7d", .str "age", .str "$\x7bname\x7d", .num 42, .bool false]
        : List JSVal)[0] ∧
    ([.str "name", .num 42, .str "age", .str "Just A. String", .num 42, .bool false]
        : List JSVal)[2]
      = ([.str "name", .str "$\x7bage\x7d", .str "age", .str "$\x7bname\x7d", .num 42, .bool false]
        : List JSVal)[2] ∧
    ([.str "name", .num 42, .str "age", .str "Just A. String", .num 42, .bool false]
        : List JSVal)[4]
      = ([.str "name", .str "$\x7bage\x7d", .str "age", .str "$\x7bname\x7d", .num 42, .bool false]
        : List JSVal)[4] ∧
    ([.str "name", .num 42, .str "age", .str "Just A. String", .num 42, .bool false]
        : List JSVal)[5]
      = ([.str "name", .str "$\x7bage\x7d", .str "age", .str "$\x7bname\x7d", .num 42, .bool false]
        : List JSVal)[5] :=
  have h := (literals_pass_through resolverBehavior
    [.str "name", .str "$\x7bage\x7d", .str "age", .str "$\x7bname\x7d", .num 42, .bool false]).1
    [.str "name", .num 42, .str "age", .str "Just A. String", .num 42, .bool false] rfl
  ⟨rfl, h.1,
    h.2 0 (by decide) (by decide) ((execVarPattern_none_iff _).mp rfl),
    h.2 2 (by decide) (by decide) ((execVarPattern_none_iff _).mp rfl),
    h.2 4 (by decide) (by decide) ((execVarPattern_none_iff _).mp rfl),
    h.2 5 (by decide) (by decide) ((execVarPattern_none_iff _).mp rfl)⟩

/-- C25, refuted: with `42` stored under `age`, the reference
`$\x7bage.foo\x7d` resolves to `42`, not to `undefined`. -/
theorem path_through_number_gives_number :
    resolverBehavior._data.get (.str "age") = .num 42 ∧
      _resolveParameters resolverBehavior [.str "$\x7bage.foo\x7d"] = .ok [.num 42] ∧
      _resolveParameters resolverBehavior [.str "$\x7bage.foo\x7d"] ≠ .ok [.undefined] := by
  refine ⟨rfl, rfl, ?_⟩
  intro h
  have h2 : _resolveParameters resolverBehavior [.str "$\x7bage.foo\x7d"] = .ok [.num 42] := rfl
  rw [h2] at h
  cases h

/-- C25, amended: when the navigation of a dotted reference reaches, before
the path is exhausted, a value that `typeof` does not call an object (a
number, a string, a boolean, or `undefined`), the entry resolves to that
value. -/
theorem navigation_stops_at_value (self : AAIMBehavior) (k : String)
    (pre : List String) (step : String) (post : List String) (v : JSVal)
    (hk : isIdentifier k = true) (hpath : ∀ s ∈ pre ++ step :: post, isIdentifier s = true)
    (hreach : reach (self._data.get (.str k)) pre = some v) (hv : v.typeofObject = false) :
    resolveParameter self._data (.str (reference k (pre ++ step :: post))) = .ok v ∧
      ∀ ps values, _resolveParameters self ps = .ok values →
        ∀ i (hi : i < ps.length) (hi' : i < values.length),
          ps[i] = .str (reference k (pre ++ step :: post)) → values[i] = v := by
  have h1 : resolveParameter self._data (.str (reference k (pre ++ step :: post))) = .ok v := by
    rw [resolveParameter_reference _ k _ hk hpath, navigate_append pre _ v _ hreach,
      navigate_stops hv]
  refine ⟨h1, ?_⟩
  intro ps values h i hi hi' hp
  have h2 := (resolveParameters_getElem h).2 i hi hi'
  rw [hp, h1] at h2
  exact (Except.ok.inj h2).symm

/-- C25, amended, at `$\x7bage.foo\x7d` with `42` stored under `age`, and at
`$\x7bname.length\x7d` with a string stored under `name`. -/
theorem navigation_stops_at_value_witness :
    resolveParameter resolverBehavior._data (.str (reference "age" ([] ++ "foo" :: [])))
        = .ok (.num 42) ∧
      resolveParameter resolverBehavior._data (.str (reference "name" ([] ++ "length" :: [])))
        = .ok (.str "Just A. String") :=
  ⟨(navigation_stops_at_value resolverBehavior "age" [] "foo" [] (.num 42) rfl (by decide)
      rfl rfl).1,
    (navigation_stops_at_value resolverBehavior "name" [] "length" [] (.str "Just A. String")
      rfl (by decide) rfl rfl).1⟩

/-! ## The service base class: properties -/

/-- With an entry for the method in the function map, `execute` passes its
check and goes by what the entry holds. -/
theorem execute_of_has {s : AAIMService} {m : JSVal} (params : List JSVal)
    (h : s.has m = true) :
    s.execute m params =
      match s.get? m with
      | some (.function call) =>
        match call params with
        | .promise p => .ok (.forwarded p)
        | .value v => .ok (.created (.fulfilled v))
        | .thrown e => .ok (.created (.rejected e))
      | _ => .ok (.created (.rejected .typeError)) := by
  simp [AAIMService.execute, h]

theorem execute_ok_of_has {s : AAIMService} {m : JSVal} (params : List JSVal)
    (h : s.has m = true) : ∃ r, s.execute m params = .ok r := by
  rw [execute_of_has params h]
  cases s.get? m with
  | none => exact ⟨_, rfl⟩
  | some entry =>
    cases entry with
    | other v => exact ⟨_, rfl⟩
    | function call =>
      dsimp only
      cases call params <;> exact ⟨_, rfl⟩

/-- C26: for a method name registered in the function map, `execute` returns
a promise and does not raise: a new promise fulfilled with the value when the
function returns a value that is no promise, the promise of the function
itself when it returns one, and a new promise rejected with the error when
the function throws. -/
theorem execute_returns_promise (s : AAIMService) (m : JSVal) (params : List JSVal)
    (h : s.has m = true) :
    ∃ r, s.execute m params = .ok r ∧
      (∀ call v, s.get? m = some (.function call) → call params = .value v →
        r = .created (.fulfilled v)) ∧
      (∀ call p, s.get? m = some (.function call) → call params = .promise p →
        r = .forwarded p) ∧
      (∀ call e, s.get? m = some (.function call) → call params = .thrown e →
        r = .created (.rejected e)) := by
  rw [execute_of_has params h]
  cases hg : s.get? m with
  | none => exact ⟨_, rfl, by simp, by simp, by simp⟩
  | some entry =>
    cases entry with
    | other v => exact ⟨_, rfl, by simp, by simp, by simp⟩
    | function call =>
      dsimp only
      cases hc : call params with
      | value v =>
        refine ⟨_, rfl, ?_, ?_, ?_⟩
        all_goals
          intro call' x hcall hx
          simp only [Option.some.injEq, FunctionEntry.function.injEq] at hcall
          subst hcall
          rw [hc] at hx
          cases hx
        rfl
      | promise p =>
        refine ⟨_, rfl, ?_, ?_, ?_⟩
        all_goals
          intro call' x hcall hx
          simp only [Option.some.injEq, FunctionEntry.function.injEq] at hcall
          subst hcall
          rw [hc] at hx
          cases hx
        rfl
      | thrown e =>
        refine ⟨_, rfl, ?_, ?_, ?_⟩
        all_goals
          intro call' x hcall hx
          simp only [Option.some.injEq, FunctionEntry.function.injEq] at hcall
          subst hcall
          rw [hc] at hx
          cases hx
        rfl

/-- C26 at the tests "by wrapping primitive return values", "by forwarding
returned promises" and "by wrapping thrown errors", with the argument `7`. -/
theorem execute_returns_promise_witness :
    testService.execute (.str "primitive") [.num 7] = .ok (.created (.fulfilled (.num 7))) ∧
      testService.execute (.str "promised") [.num 7]
        = .ok (.forwarded { ref := 501, outcome := .fulfilled (.num 7) }) ∧
      testService.execute (.str "thrown") [.num 7] = .ok (.created (.rejected (.error "7"))) := by
  obtain ⟨r1, h1, hv, _, _⟩ := execute_returns_promise testService (.str "primitive") [.num 7] rfl
  obtain ⟨r2, h2, _, hp, _⟩ := execute_returns_promise testService (.str "promised") [.num 7] rfl
  obtain ⟨r3, h3, _, _, ht⟩ := execute_returns_promise testService (.str "thrown") [.num 7] rfl
  refine ⟨?_, ?_, ?_⟩
  · rw [h1, hv _ (.num 7) rfl rfl]
  · rw [h2, hp _ { ref := 501, outcome := .fulfilled (.num 7) } rfl rfl]
  · rw [h3, ht _ (.error "7") rfl rfl]

/-- What the checks of `_callService` have established of the service they
let through. -/
theorem checkCall_ok_provides {self : AAIMBehavior} {config : JSVal} {service : Service}
    {name : String} (h : checkCall self config = .ok (service, name)) :
    ∃ provides, service.provides = some provides ∧ provides name = true := by
  unfold checkCall at h
  cases hn : config.prop "name" with
  | str n =>
    rw [hn] at h
    simp only at h
    by_cases h1 : decide (n.length < 1) = true
    · rw [if_pos h1] at h; cases h
    · rw [if_neg h1] at h
      by_cases h2 : ((config.prop "service").toBoolean
          && (!(config.prop "service").typeofString
            || decide ((config.prop "service").toStr.length < 1))) = true
      · rw [if_pos h2] at h; cases h
      · rw [if_neg h2] at h
        cases hg : self._services.get?
            (if (config.prop "service").toBoolean then config.prop "service" else .str "") with
        | none => rw [hg] at h; cases h
        | some svc =>
          rw [hg] at h
          simp only at h
          cases hp : svc.provides with
          | none => rw [hp] at h; cases h
          | some provides =>
            rw [hp] at h
            simp only at h
            by_cases h3 : (!provides n) = true
            · rw [if_pos h3] at h; cases h
            · rw [if_neg h3] at h
              simp only [Except.ok.injEq, Prod.mk.injEq] at h
              obtain ⟨hs, hname⟩ := h
              subst hs hname
              exact ⟨provides, hp, by simpa using h3⟩
  | undefined => rw [hn] at h; cases h
  | null => rw [hn] at h; cases h
  | bool b => rw [hn] at h; cases h
  | num k => rw [hn] at h; cases h
  | obj r props => rw [hn] at h; cases h
  | arr r es => rw [hn] at h; cases h

/-- C27: `provides(m)` is true exactly when the function map has an entry for
`m`; `execute(m, ...)` raises exactly when `provides(m)` is false; so the
`execute` the coordinator calls on the service that has passed the checks of
`_callService` returns a promise. -/
theorem provides_iff_execute_returns (s : AAIMService) (m : JSVal) (params : List JSVal) :
    (s.provides m = true ↔ ∃ e ∈ s._functions, JSVal.sameValueZero e.1 m = true) ∧
    ((∃ err, s.execute m params = .error err) ↔ s.provides m = false) ∧
    (∀ (self : AAIMBehavior) (config : JSVal) (name : String),
      checkCall self config = .ok (s.asService, name) →
      ∀ values, ∃ returned, s.execute (.str name) values = .ok returned ∧
        ∀ b, invoke s.asService name values b
          = (returned.outcome, [⟨s.ref, name, values⟩])) := by
  refine ⟨?_, ?_, ?_⟩
  · simp [AAIMService.provides, AAIMService.has, List.any_eq_true]
  · constructor
    · rintro ⟨err, herr⟩
      by_contra hp
      have hp' : s.has m = true := by
        simpa [AAIMService.provides] using hp
      obtain ⟨r, hr⟩ := execute_ok_of_has params hp'
      rw [hr] at herr
      cases herr
    · intro hp
      have hp' : s.has m = false := hp
      refine ⟨.error ("Function \x27" ++ m.toStr ++ "\x27 is not provided by this service."), ?_⟩
      simp [AAIMService.execute, hp']
  · intro self config name hck values
    obtain ⟨provides, hprov, hname⟩ := checkCall_ok_provides hck
    have hp : s.has (.str name) = true := by
      simp only [AAIMService.asService, Option.some.injEq] at hprov
      subst hprov
      exact hname
    obtain ⟨r, hr⟩ := execute_ok_of_has values hp
    refine ⟨r, hr, fun b => ?_⟩
    simp [invoke, AAIMService.asService, hr]

/-- C27 at the tests "knows which functions it provides" and "throws an error
if the function is not provided". -/
theorem provides_iff_execute_returns_witness :
    (testService.provides (.str "nonexisting") = false ∧
      ∃ err, testService.execute (.str "nonexisting") [] = .error err) ∧
    (testService.provides (.str "primitive") = true ∧
      ∃ returned, testService.execute (.str "primitive") [.num 7] = .ok returned ∧
        ∀ b, invoke testService.asService "primitive" [.num 7] b
          = (returned.outcome, [⟨500, "primitive", [.num 7]⟩])) :=
  ⟨⟨rfl, (provides_iff_execute_returns testService (.str "nonexisting") []).2.1.mpr rfl⟩,
    ⟨rfl, (provides_iff_execute_returns testService (.str "primitive") []).2.2 withTestService
      (.obj 510 [("name", .str "primitive")]) "primitive" rfl [.num 7]⟩⟩

/-! ## States of the same name -/

theorem loadLoop_get_skip (k : JSVal) (post : List JSVal) :
    ∀ m : JSMap,
      (∀ x ∈ post, ∀ nx, x.getProp "name" = .ok nx → JSVal.sameValueZero nx k = false) →
      (loadLoop m post).1.get k = m.get k := by
  induction post with
  | nil => intro m _; rfl
  | cons x rest ih =>
    intro m h
    simp only [loadLoop]
    cases hx : x.getProp "name" with
    | error e => rfl
    | ok nx =>
      simp only
      rw [ih _ fun y hy => h y (List.mem_cons_of_mem _ hy), JSMap.get_set,
        h x (List.mem_cons_self _ _) nx hx]
      simp

theorem loadLoop_get_last {s n k : JSVal} (hn : s.getProp "name" = .ok n)
    (hk : JSVal.sameValueZero n k = true) {post : List JSVal}
    (hpost : ∀ x ∈ post, ∀ nx, x.getProp "name" = .ok nx → JSVal.sameValueZero nx k = false)
    (pre : List JSVal) :
    ∀ m : JSMap, (loadLoop m (pre ++ s :: post)).2 = .ok () →
      (loadLoop m (pre ++ s :: post)).1.get k = s := by
  induction pre with
  | nil =>
    intro m _
    simp only [List.nil_append, loadLoop, hn]
    rw [loadLoop_get_skip k post _ hpost, JSMap.get_set, hk]
    simp
  | cons x rest ih =>
    intro m hok
    simp only [List.cons_append, loadLoop] at hok ⊢
    cases hx : x.getProp "name" with
    | error e => rw [hx] at hok; cases hok
    | ok nx =>
      rw [hx] at hok
      simp only at hok ⊢
      exact ih _ hok

/-- C28, refuted: the model has two states named `A`; the index `load`
builds holds the second one under `A`, the initial transition enters the
second one, and so does the event whose `goto` is `A`. The first one is
another object. -/
theorem duplicate_name_resolves_to_last :
    (load (World.new none) duplicates).2 = .ok true ∧
      (load (World.new none) duplicates).1.self._loadedStates
        = some [(.str "A", duplicateSecond)] ∧
      (setRunning (load (World.new none) duplicates).1 (.bool true)).1.self._currentState
        = duplicateSecond ∧
      (executeEvent strictEq (setRunning (load (World.new none) duplicates).1 (.bool true)).1
        (.str "again")).1.self._currentState = duplicateSecond ∧
      strictEq duplicateFirst duplicateSecond = false :=
  ⟨rfl, rfl, rfl, rfl, rfl⟩

/-- C28, amended: when several states of a loaded model have the same name,
the name leads to the last of them in the order of declaration: the index
built by `load` holds that state under the name, the initial transition
enters it when the name is the initial one, and an event that fires with that
name as its `goto` enters it. -/
theorem duplicate_names_last_wins (w : World) (M : JSVal) (r : Nat) (pre post : List JSVal)
    (s n k : JSVal)
    (hload : (load w M).2 = .ok true)
    (hstates : M.getProp "states" = .ok (.arr r (pre ++ s :: post)))
    (hn : s.getProp "name" = .ok n) (hk : JSVal.sameValueZero n k = true)
    (hpost : ∀ x ∈ post, ∀ nx, x.getProp "name" = .ok nx → JSVal.sameValueZero nx k = false) :
    ∃ m, (load w M).1.self._loadedStates = some m ∧ m.has k = true ∧ m.get k = s ∧
      (w.self._currentState = JSVal.undefined → M.getProp "initial" = .ok k →
        k.typeofString = true →
        (setRunning (load w M).1 (.bool true)).1.self._currentState = s ∧
        (setRunning (load w M).1 (.bool true)).1.self._running = true) ∧
      (∀ (looseEq : JSVal → JSVal → Bool) (w' : World) (name e : JSVal)
        (before after : List JSVal), w'.self._loadedStates = some m →
        (∀ x ∈ before, x.isNullish = false) →
        (∀ x ∈ before, fires looseEq m name x = false) →
        fires looseEq m name e = true → e.getProp "goto" = .ok k →
        (executeEventLoop looseEq w' name (before ++ e :: after)).1.self._currentState = s) := by
  rcases load_cases w M with ⟨_, h2⟩ | ⟨hrun, hobj, hnull, r', elems, hs, hne, h1, h2⟩
  · rw [h2] at hload; cases hload
  · rw [hstates] at hs
    simp only [Except.ok.injEq, JSVal.arr.injEq] at hs
    obtain ⟨_, hel⟩ := hs
    subst hel
    have hok : (loadLoop [] (pre ++ s :: post)).2 = .ok () := by
      cases hl : (loadLoop [] (pre ++ s :: post)).2 with
      | error e => rw [h2, hl] at hload; cases hload
      | ok u => rfl
    have hget := loadLoop_get_last hn hk hpost pre [] hok
    have hhas : (loadLoop [] (pre ++ s :: post)).1.has k = true :=
      (loadLoop_has _ [] hok k).mpr (Or.inr ⟨s, by simp, n, hn, hk⟩)
    refine ⟨(loadLoop [] (pre ++ s :: post)).1, by rw [h1], hhas, hget, ?_, ?_⟩
    · intro hcur hinit hstr
      have hM : M.isUndefined = false := by
        cases M <;> simp_all [JSVal.typeofObject, JSVal.isUndefined]
      rw [h1]
      have hu : JSVal.undefined.isUndefined = true := rfl
      simp only [setRunning, JSVal.toBoolean, hrun, hM, hcur, hu, hinit, hstr,
        hhas, Bool.not_false, Bool.and_self, if_true]
      rw [_performTransition_self]
      exact ⟨hget, rfl⟩
    · intro looseEq w' name e before after hm hnn hno hf hg
      rw [executeEventLoop_skip looseEq w' _ hm name (e :: after) before hnn hno]
      obtain ⟨d, _, hd⟩ := executeEventLoop_fire looseEq w' _ hm name e k after hf hg
      rw [hd, _performTransition_self]
      exact hget

/-- C28, amended, at the model with two states named `A`. -/
theorem duplicate_names_last_wins_witness :
    ∃ m, (load (World.new none) duplicates).1.self._loadedStates = some m ∧
      m.has (.str "A") = true ∧ m.get (.str "A") = duplicateSecond :=
  match duplicate_names_last_wins (World.new none) duplicates 63 [duplicateFirst] []
      duplicateSecond (.str "A") (.str "A") rfl rfl rfl rfl
      (fun x hx => absurd hx (List.not_mem_nil x)) with
  | ⟨m, h1, h2, h3, _⟩ => ⟨m, h1, h2, h3⟩

/-! ## Sequences of operations -/

theorem JSVal.isUndefined_iff (v : JSVal) : v.isUndefined = true ↔ v = JSVal.undefined := by
  cases v <;> simp [JSVal.isUndefined]

theorem consistent_applyOp (looseEq : JSVal → JSVal → Bool) {w : World} (h : Consistent w)
    (op : Op) : Consistent (applyOp looseEq w op) := by
  cases op with
  | load x => exact consistent_load h x
  | setRunning run => exact consistent_setRunning h run
  | reset => exact consistent_reset h
  | executeEvent name => exact consistent_executeEvent looseEq h name
  | fulfilled p => exact consistent_promiseFulfilled h p
  | rejected p => exact consistent_promiseRejected h p

theorem index_get_defined {w : World} (h : Consistent w) {m : JSMap}
    (hm : w.self._loadedStates = some m) {k : JSVal} (hk : m.has k = true) :
    (m.get k).isUndefined = false := by
  obtain ⟨e, he, _, hg⟩ := JSMap.get_mem_of_has hk
  have ht : (m.get k).isNullish = false := by rw [hg]; exact h.index m hm e he
  exact ((JSVal.isNullish_eq_false_iff _).mp ht).1

/-- The assignment `running = run` gives the interpreter a current state
exactly when it enters a state. -/
theorem setRunning_state {w : World} (h : Consistent w) (run : JSVal) :
    (setRunningEnters w run = true →
      (setRunning w run).1.self._currentState.isUndefined = false) ∧
    (setRunningEnters w run = false →
      (setRunning w run).1.self._currentState = w.self._currentState) := by
  unfold setRunning setRunningEnters
  by_cases hc : (run.toBoolean && !w.self._running && !w.self._currentAAIM.isUndefined) = true
  · rw [if_pos hc, hc]
    simp only [Bool.and_eq_true, Bool.not_eq_true'] at hc
    obtain ⟨⟨_, _⟩, hu⟩ := hc
    obtain ⟨hnull, hsome⟩ := h.model hu
    simp only
    by_cases hst : w.self._currentState.isUndefined = true
    · rw [if_pos hst, hst]
      have hnn : w.self._currentAAIM.isNullish = false :=
        (JSVal.isNullish_eq_false_iff _).mpr ⟨hu, hnull⟩
      obtain ⟨initial, hi⟩ := JSVal.getProp_ok_of_not_nullish hnn "initial"
      obtain ⟨m, hm⟩ := Option.isSome_iff_exists.mp hsome
      rw [hi, hm]
      simp only
      by_cases hty : initial.typeofString = true
      · rw [if_pos hty, hty]
        by_cases hh : m.has initial = true
        · rw [if_pos hh, hh, _performTransition_self]
          exact ⟨fun _ => index_get_defined h hm hh, fun hf => by simp at hf⟩
        · rw [if_neg hh]
          exact ⟨fun ht => by simp [hh] at ht, fun _ => rfl⟩
      · rw [if_neg hty]
        exact ⟨fun ht => by simp [hty] at ht, fun _ => rfl⟩
    · rw [if_neg hst]
      exact ⟨fun ht => by simp [hst] at ht, fun _ => rfl⟩
  · rw [if_neg hc]
    exact ⟨fun ht => by simp [hc] at ht, fun _ => rfl⟩

theorem executeEventLoop_state (looseEq : JSVal → JSVal → Bool) (w : World) (m : JSMap)
    (hm : w.self._loadedStates = some m) (name : JSVal) (es : List JSVal) :
    (scanFires looseEq m name es = true →
      ∃ goto, m.has goto = true ∧
        (executeEventLoop looseEq w name es).1.self._currentState = m.get goto) ∧
    (scanFires looseEq m name es = false →
      (executeEventLoop looseEq w name es).1.self._currentState = w.self._currentState) := by
  induction es with
  | nil => exact ⟨fun h => by simp [scanFires] at h, fun _ => rfl⟩
  | cons e rest ih =>
    unfold executeEventLoop scanFires
    cases hn : e.isNullish with
    | true =>
      have hon : e.getProp "on" = .error .typeError := by
        cases e <;> simp [JSVal.isNullish] at hn <;> rfl
      rw [hon]
      exact ⟨fun h => by simp at h, fun _ => rfl⟩
    | false =>
      obtain ⟨trigger, ht⟩ := JSVal.getProp_ok_of_not_nullish hn "on"
      obtain ⟨goto, hg⟩ := JSVal.getProp_ok_of_not_nullish hn "goto"
      obtain ⟨d, hd⟩ := JSVal.getProp_ok_of_not_nullish hn "do"
      have hf : fires looseEq m name e = (looseEq trigger name && m.has goto) := by
        simp [fires, ht, hg]
      rw [ht, hf]
      simp only [Bool.false_eq_true, if_false, hm, hg, hd]
      by_cases hq : looseEq trigger name = true
      · rw [if_pos hq]
        by_cases hh : m.has goto = true
        · rw [if_pos hh, _performTransition_self]
          simp only [hq, hh, Bool.and_self, if_true]
          exact ⟨fun _ => ⟨goto, hh, rfl⟩, fun h => by simp at h⟩
        · rw [if_neg hh]
          simp only [hq, hh, Bool.and_false, Bool.false_eq_true, if_false]
          exact ih
      · rw [if_neg hq]
        simp only [hq, Bool.false_and, Bool.false_eq_true, if_false]
        exact ih

/-- The call `executeEvent(name)` gives the interpreter a new current state
exactly when it enters a state, and then the state is not `undefined`. -/
theorem executeEvent_state (looseEq : JSVal → JSVal → Bool) {w : World} (h : Consistent w)
    (name : JSVal) :
    (executeEventEnters looseEq w name = true →
      (executeEvent looseEq w name).1.self._currentState.isUndefined = false) ∧
    (executeEventEnters looseEq w name = false →
      (executeEvent looseEq w name).1.self._currentState = w.self._currentState) := by
  unfold executeEvent executeEventEnters
  cases hr : w.self._running with
  | false => exact ⟨fun ht => by simp at ht, fun _ => rfl⟩
  | true =>
    obtain ⟨hu, _⟩ := h.run hr
    obtain ⟨_, hsome⟩ := h.model hu
    obtain ⟨m, hm⟩ := Option.isSome_iff_exists.mp hsome
    rw [hm]
    simp only [if_true, Bool.true_and]
    cases w.self._currentState.getProp "events" with
    | error err => exact ⟨fun ht => by simp at ht, fun _ => rfl⟩
    | ok events =>
      simp only
      cases events.iterate with
      | error err => exact ⟨fun ht => by simp at ht, fun _ => rfl⟩
      | ok es =>
        simp only
        obtain ⟨h1, h2⟩ := executeEventLoop_state looseEq w m hm name es
        refine ⟨fun ht => ?_, h2⟩
        obtain ⟨goto, hh, hs⟩ := h1 ht
        rw [hs]
        exact index_get_defined h hm hh

theorem load_state (w : World) (x : JSVal) :
    (load w x).1.self._currentState = w.self._currentState := by
  rcases load_cases w x with ⟨h, _⟩ | ⟨_, _, _, r, elems, _, _, h, _⟩ <;> rw [h]

/-- What one operation does to the current state, and to the record of
whether a state has been entered since the last reset made while paused. -/
theorem entered_step (looseEq : JSVal → JSVal → Bool) {w : World} (h : Consistent w)
    (entered : Bool) (hinv : w.self._currentState.isUndefined = !entered) (op : Op) :
    (applyOp looseEq w op).self._currentState.isUndefined =
      !(match op with
        | .reset => if w.self._running then entered else false
        | _ => entered || entersState looseEq w op) := by
  cases op with
  | load x =>
    simp only [applyOp, entersState, Bool.or_false]
    rw [load_state, hinv]
  | setRunning run =>
    simp only [applyOp, entersState]
    obtain ⟨h1, h2⟩ := setRunning_state h run
    cases he : setRunningEnters w run with
    | true => rw [h1 he]; simp
    | false => rw [h2 he, hinv]; simp
  | reset =>
    simp only [applyOp, reset]
    cases hr : w.self._running with
    | true => simpa using hinv
    | false => simp [JSVal.isUndefined]
  | executeEvent name =>
    simp only [applyOp, entersState]
    obtain ⟨h1, h2⟩ := executeEvent_state looseEq h name
    cases he : executeEventEnters looseEq w name with
    | true => rw [h1 he]; simp
    | false => rw [h2 he, hinv]; simp
  | fulfilled p =>
    simp only [applyOp, entersState, Bool.or_false]
    rw [promiseFulfilled_self, hinv]
  | rejected p =>
    simp only [applyOp, entersState, Bool.or_false]
    exact hinv

theorem entered_invariant (looseEq : JSVal → JSVal → Bool) (ops : List Op) :
    ∀ (w : World) (entered : Bool), Consistent w →
      w.self._currentState.isUndefined = !entered →
      (runOps looseEq w ops).self._currentState.isUndefined
        = !enteredSinceReset looseEq w entered ops := by
  induction ops with
  | nil => intro w entered _ hinv; exact hinv
  | cons op rest ih =>
    intro w entered h hinv
    simp only [runOps, List.foldl_cons, enteredSinceReset]
    exact ih _ _ (consistent_applyOp looseEq h op) (entered_step looseEq h entered hinv op)

/-- C29, refuted: after `load`, `running = true`, `running = false` and a
second `load` that returns `true`, no state has been entered since the most
recent successful load, yet the current state is still `First`; and after
`load`, `running = true` and a `reset`, which has no effect on a running
interpreter, no state has been entered since the most recent reset, yet the
current state is `First`. -/
theorem current_state_survives_load :
    (load (runOps strictEq (World.new (some spy))
        [.load simple, .setRunning (.bool true), .setRunning (.bool false)]) simple).2
      = .ok true ∧
    ¬ ((runOps strictEq (World.new (some spy))
          [.load simple, .setRunning (.bool true), .setRunning (.bool false),
            .load simple]).self._currentState = JSVal.undefined ↔
        enteredSinceResetOrLoad strictEq (World.new (some spy)) false
          [.load simple, .setRunning (.bool true), .setRunning (.bool false),
            .load simple] = false) ∧
    ¬ ((runOps strictEq (World.new (some spy))
          [.load simple, .setRunning (.bool true), .reset]).self._currentState
            = JSVal.undefined ↔
        enteredSinceResetOrLoad strictEq (World.new (some spy)) false
          [.load simple, .setRunning (.bool true), .reset] = false) := by
  have h1 : (runOps strictEq (World.new (some spy))
      [.load simple, .setRunning (.bool true), .setRunning (.bool false),
        .load simple]).self._currentState = simpleFirst := rfl
  have h2 : enteredSinceResetOrLoad strictEq (World.new (some spy)) false
      [.load simple, .setRunning (.bool true), .setRunning (.bool false),
        .load simple] = false := rfl
  have h3 : (runOps strictEq (World.new (some spy))
      [.load simple, .setRunning (.bool true), .reset]).self._currentState = simpleFirst := rfl
  have h4 : enteredSinceResetOrLoad strictEq (World.new (some spy)) false
      [.load simple, .setRunning (.bool true), .reset] = false := rfl
  refine ⟨rfl, ?_, ?_⟩
  · rw [h1, h2]
    intro h
    have := h.mpr rfl
    cases this
  · rw [h3, h4]
    intro h
    have := h.mpr rfl
    cases this

/-- C29, amended: after any sequence of operations on a new interpreter, the
current state is `undefined` exactly when no state has been entered since the
most recent `reset` that was called while the interpreter was not running.
A `load` and a `reset` on a running interpreter leave the current state as it
is. -/
theorem current_state_undefined_iff (looseEq : JSVal → JSVal → Bool)
    (behavior : Option Behavior) (ops : List Op) :
    ((runOps looseEq (World.new behavior) ops).self._currentState = JSVal.undefined ↔
      enteredSinceReset looseEq (World.new behavior) false ops = false) ∧
    (∀ x, (load (runOps looseEq (World.new behavior) ops) x).1.self._currentState
      = (runOps looseEq (World.new behavior) ops).self._currentState) ∧
    ((runOps looseEq (World.new behavior) ops).self._running = true →
      (reset (runOps looseEq (World.new behavior) ops)).1
        = runOps looseEq (World.new behavior) ops) := by
  refine ⟨?_, fun x => load_state _ x, fun hr => ?_⟩
  · have h := entered_invariant looseEq ops (World.new behavior) false
      (consistent_new behavior) rfl
    rw [← JSVal.isUndefined_iff, h]
    cases enteredSinceReset looseEq (World.new behavior) false ops <;> simp
  · simp [reset, hr]

/-- C29, amended, at the interpreter of the test suite after `load` and
`running = true`: a state has been entered, the current state is not
`undefined`, and a `reset` leaves the running interpreter as it is. -/
theorem current_state_undefined_iff_witness :
    ((runOps strictEq (World.new (some spy))
          [.load simple, .setRunning (.bool true)]).self._currentState = JSVal.undefined ↔
        enteredSinceReset strictEq (World.new (some spy)) false
          [.load simple, .setRunning (.bool true)] = false) ∧
      (reset (runOps strictEq (World.new (some spy)) [.load simple, .setRunning (.bool true)])).1
        = runOps strictEq (World.new (some spy)) [.load simple, .setRunning (.bool true)] :=
  ⟨(current_state_undefined_iff strictEq (some spy) [.load simple, .setRunning (.bool true)]).1,
    (current_state_undefined_iff strictEq (some spy)
      [.load simple, .setRunning (.bool true)]).2.2 rfl⟩

/-! ## The interpreter without coordinator -/

theorem withoutBehavior_performTransition (w : World) (target config : JSVal) :
    withoutBehavior (_performTransition w target config).1
      = (_performTransition (withoutBehavior w) target config).1 := by
  have h1 := _performTransition_self w target config
  have h2 : (_performTransition (withoutBehavior w) target config).1
      = { withoutBehavior w with
          self := { (withoutBehavior w).self with _currentState := target } } := by
    simp only [_performTransition, withoutBehavior]
  rw [h2]
  simp only [withoutBehavior, h1]

theorem withoutBehavior_setRunning (w : World) (run : JSVal) :
    withoutBehavior (setRunning w run).1 = (setRunning (withoutBehavior w) run).1 := by
  unfold setRunning
  have hr : (withoutBehavior w).self._running = w.self._running := rfl
  have ha : (withoutBehavior w).self._currentAAIM = w.self._currentAAIM := rfl
  simp only [hr, ha]
  by_cases hc : (run.toBoolean && !w.self._running && !w.self._currentAAIM.isUndefined) = true
  · rw [if_pos hc, if_pos hc]
    have hs : (withoutBehavior w).self._currentState = w.self._currentState := rfl
    have hl : (withoutBehavior w).self._loadedStates = w.self._loadedStates := rfl
    rw [hs, hl]
    by_cases hst : w.self._currentState.isUndefined = true
    · rw [if_pos hst, if_pos hst]
      cases w.self._currentAAIM.getProp "initial" with
      | error e => rfl
      | ok initial =>
        simp only
        by_cases hty : initial.typeofString = true
        · rw [if_pos hty, if_pos hty]
          cases w.self._loadedStates with
          | none => rfl
          | some m =>
            simp only
            by_cases hh : m.has initial = true
            · rw [if_pos hh, if_pos hh]
              exact withoutBehavior_performTransition _ _ _
            · rw [if_neg hh, if_neg hh]; rfl
        · rw [if_neg hty, if_neg hty]; rfl
    · rw [if_neg hst, if_neg hst]; rfl
  · rw [if_neg hc, if_neg hc]; rfl

theorem withoutBehavior_load (w : World) (x : JSVal) :
    withoutBehavior (load w x).1 = (load (withoutBehavior w) x).1 ∧
      (load w x).2 = (load (withoutBehavior w) x).2 := by
  unfold load
  have hr : (withoutBehavior w).self._running = w.self._running := rfl
  rw [hr]
  cases w.self._running with
  | true => exact ⟨rfl, rfl⟩
  | false =>
    simp only [Bool.not_false, if_true]
    by_cases ho : (x.typeofObject && !x.isNull) = true
    · rw [if_pos ho, if_pos ho]
      cases x.getProp "states" with
      | error e => exact ⟨rfl, rfl⟩
      | ok states =>
        simp only
        by_cases hs : (states.isArray && decide (states.arrayLength > 0)) = true
        · rw [if_pos hs, if_pos hs]
          cases states.iterate with
          | error e => exact ⟨rfl, rfl⟩
          | ok elems =>
            simp only
            cases (loadLoop [] elems).2 <;> exact ⟨rfl, rfl⟩
        · rw [if_neg hs, if_neg hs]; exact ⟨rfl, rfl⟩
    · rw [if_neg ho, if_neg ho]; exact ⟨rfl, rfl⟩

theorem withoutBehavior_reset (w : World) :
    withoutBehavior (reset w).1 = (reset (withoutBehavior w)).1 := by
  unfold reset
  have hr : (withoutBehavior w).self._running = w.self._running := rfl
  rw [hr]
  cases w.self._running <;> rfl

theorem withoutBehavior_executeEventLoop (looseEq : JSVal → JSVal → Bool) (w : World)
    (name : JSVal) (es : List JSVal) :
    withoutBehavior (executeEventLoop looseEq w name es).1
      = (executeEventLoop looseEq (withoutBehavior w) name es).1 := by
  induction es with
  | nil => rfl
  | cons e rest ih =>
    unfold executeEventLoop
    cases e.getProp "on" with
    | error err => rfl
    | ok trigger =>
      simp only
      by_cases hq : looseEq trigger name = true
      · rw [if_pos hq, if_pos hq]
        have hl : (withoutBehavior w).self._loadedStates = w.self._loadedStates := rfl
        rw [hl]
        cases w.self._loadedStates with
        | none => rfl
        | some m =>
          simp only
          cases e.getProp "goto" with
          | error err => rfl
          | ok goto =>
            simp only
            by_cases hh : m.has goto = true
            · rw [if_pos hh, if_pos hh]
              cases e.getProp "do" with
              | error err => rfl
              | ok d => exact withoutBehavior_performTransition _ _ _
            · rw [if_neg hh, if_neg hh]; exact ih
      · rw [if_neg hq, if_neg hq]; exact ih

theorem withoutBehavior_executeEvent (looseEq : JSVal → JSVal → Bool) (w : World)
    (name : JSVal) :
    withoutBehavior (executeEvent looseEq w name).1
      = (executeEvent looseEq (withoutBehavior w) name).1 := by
  unfold executeEvent
  have hr : (withoutBehavior w).self._running = w.self._running := rfl
  have hs : (withoutBehavior w).self._currentState = w.self._currentState := rfl
  rw [hr, hs]
  cases w.self._running with
  | false => rfl
  | true =>
    simp only [if_true]
    cases w.self._currentState.getProp "events" with
    | error err => rfl
    | ok events =>
      simp only
      cases events.iterate with
      | error err => rfl
      | ok es => exact withoutBehavior_executeEventLoop looseEq w name es

theorem withoutBehavior_applyOp (looseEq : JSVal → JSVal → Bool) (w : World) (op : Op) :
    withoutBehavior (applyOp looseEq w op) = applyOp looseEq (withoutBehavior w) op := by
  cases op with
  | load x => exact (withoutBehavior_load w x).1
  | setRunning run => exact withoutBehavior_setRunning w run
  | reset => exact withoutBehavior_reset w
  | executeEvent name => exact withoutBehavior_executeEvent looseEq w name
  | fulfilled p =>
    simp only [applyOp, withoutBehavior, promiseFulfilled_self]
    rfl
  | rejected p => rfl

theorem withoutBehavior_runOps (looseEq : JSVal → JSVal → Bool) (ops : List Op) :
    ∀ w : World, withoutBehavior (runOps looseEq w ops) = runOps looseEq (withoutBehavior w) ops := by
  induction ops with
  | nil => intro w; rfl
  | cons op rest ih =>
    intro w
    simp only [runOps, List.foldl_cons] at ih ⊢
    rw [ih, withoutBehavior_applyOp]

/-- C30: for every sequence of operations and every coordinator, whether its
methods raise or not, the interpreter without coordinator is after each
operation what the interpreter with the coordinator is once the coordinator,
the trace of its calls and the waiting callbacks are left out: the loaded
model, the index, the running flag and the current state are the same. -/
theorem without_coordinator_same_machine (looseEq : JSVal → JSVal → Bool) (behavior : Behavior)
    (ops : List Op) (n : Nat) :
    runOps looseEq (World.new none) (ops.take n)
        = withoutBehavior (runOps looseEq (World.new (some behavior)) (ops.take n)) ∧
      (runOps looseEq (World.new none) (ops.take n)).self._currentAAIM
        = (runOps looseEq (World.new (some behavior)) (ops.take n)).self._currentAAIM ∧
      (runOps looseEq (World.new none) (ops.take n)).self._running
        = (runOps looseEq (World.new (some behavior)) (ops.take n)).self._running ∧
      (runOps looseEq (World.new none) (ops.take n)).self._currentState
        = (runOps looseEq (World.new (some behavior)) (ops.take n)).self._currentState ∧
      (runOps looseEq (World.new none) (ops.take n)).self._loadedStates
        = (runOps looseEq (World.new (some behavior)) (ops.take n)).self._loadedStates ∧
      (∀ x, (load (runOps looseEq (World.new none) (ops.take n)) x).2
        = (load (runOps looseEq (World.new (some behavior)) (ops.take n)) x).2) := by
  have h : runOps looseEq (World.new none) (ops.take n)
      = withoutBehavior (runOps looseEq (World.new (some behavior)) (ops.take n)) := by
    rw [withoutBehavior_runOps]
    rfl
  refine ⟨h, ?_, ?_, ?_, ?_, ?_⟩
  · rw [h]; rfl
  · rw [h]; rfl
  · rw [h]; rfl
  · rw [h]; rfl
  · intro x
    rw [h]
    exact ((withoutBehavior_load _ x).2).symm

/-! ## Robustness -/

theorem firstMapperCall_returns :
    _callService withFactoryAndMappers firstMapperCall (some [.num 1])
      = .ok (callResult firstMapperCall mapperService "p1mapper" (JSPromise.resolve [.num 1])) := by
  rw [_callService_steps]
  rfl

/-- C31, evaluated: the state configuration has the parameters `[1, 2, 3]`
and a mapping entry for the first parameter whose service call, made with
`1`, is fulfilled with `'Towel'`; yet `executeState` executes no service
method and hands `[1, 2, 3]` to the factory. -/
theorem executeState_ignores_parameterMapping :
    (mappedStateConfig.prop "parameterMapping").elems[0]? = some firstMapperCall ∧
      (∃ p, _callService withFactoryAndMappers firstMapperCall (some [.num 1]) = .ok p ∧
        p withFactoryAndMappers = (.fulfilled (.str "Towel"), [⟨3, "p1mapper", [.num 1]⟩])) ∧
      (BWorld.mk withFactoryAndMappers [] []).doExecuteState mappedStateConfig
        = ({ self := { withFactoryAndMappers with _currentConfig := mappedStateConfig }
             executions := []
             factoryCalls :=
               [FactoryCall.create (.str "SomeSituation") (.list [.num 1, .num 2, .num 3]) []] },
           .ok ()) :=
  ⟨rfl, ⟨_, firstMapperCall_returns, rfl⟩, rfl⟩

theorem reachable_runOps (looseEq : JSVal → JSVal → Bool) (ops : List Op) :
    ∀ w : World, Reachable looseEq w → Reachable looseEq (runOps looseEq w ops) := by
  induction ops with
  | nil => intro w h; exact h
  | cons op rest ih =>
    intro w h
    simp only [runOps, List.foldl_cons]
    apply ih
    cases op with
    | load x => exact Reachable.step h (Step.load w x)
    | setRunning run => exact Reachable.step h (Step.setRunning w run)
    | reset => exact Reachable.step h (Step.reset w)
    | executeEvent name => exact Reachable.step h (Step.executeEvent w name)
    | fulfilled p => exact Reachable.step h (Step.fulfilled w p)
    | rejected p => exact Reachable.step h (Step.rejected w p)

/-- C32: in every state an interpreter can reach, by any sequence of
operations on a new interpreter, `running = true` implies that a model is
loaded, with its index, and that the current state is neither `undefined`
nor `null`, so that `executeEvent` can read its `events`. -/
theorem running_has_model_and_state (looseEq : JSVal → JSVal → Bool) :
    (∀ (behavior : Option Behavior) (ops : List Op),
      Reachable looseEq (runOps looseEq (World.new behavior) ops)) ∧
    ∀ w : World, Reachable looseEq w → w.self._running = true →
      w.self._currentAAIM.isUndefined = false ∧ w.self._currentAAIM.isNull = false ∧
      w.self._loadedStates.isSome = true ∧
      w.self._currentState.isUndefined = false ∧ w.self._currentState.isNull = false ∧
      ∃ events, w.self._currentState.getProp "events" = .ok events := by
  refine ⟨fun behavior ops => reachable_runOps looseEq ops _ (Reachable.new behavior), ?_⟩
  intro w hreach hrun
  have h := reachable_consistent hreach
  obtain ⟨hu, hs⟩ := h.run hrun
  obtain ⟨hnull, hsome⟩ := h.model hu
  have hnn : w.self._currentState.isNullish = false :=
    (JSVal.isNullish_eq_false_iff _).mpr ⟨hs, h.state⟩
  exact ⟨hu, hnull, hsome, hs, h.state, JSVal.getProp_ok_of_not_nullish hnn "events"⟩

/-- C32 at the running interpreter of the test suite. -/
theorem running_has_model_and_state_witness :
    simpleRunning.self._currentAAIM.isUndefined = false ∧
      simpleRunning.self._currentAAIM.isNull = false ∧
      simpleRunning.self._loadedStates.isSome = true ∧
      simpleRunning.self._currentState.isUndefined = false ∧
      simpleRunning.self._currentState.isNull = false ∧
      ∃ events, simpleRunning.self._currentState.getProp "events" = .ok events :=
  (running_has_model_and_state strictEq).2 simpleRunning simpleRunning_reachable rfl

/-- C33, evaluated: on a paused interpreter that has loaded `aaims.simple`,
`load` of a model whose second state is `null` raises a `TypeError` after it
has replaced the model and indexed the first state; so it does with a state
that is `undefined`. A state that is a number does not make it raise: the
model is accepted. -/
theorem load_raises_on_null_state :
    simpleLoaded.self._running = false ∧ simpleLoaded.self._currentAAIM = simple ∧
      (load simpleLoaded nullStateModel).2 = .error .typeError ∧
      (load simpleLoaded nullStateModel).1.self._currentAAIM = nullStateModel ∧
      (load simpleLoaded nullStateModel).1.self._loadedStates
        = some [(.str "A", plainState)] ∧
      (load simpleLoaded undefinedStateModel).2 = .error .typeError ∧
      (load simpleLoaded undefinedStateModel).1.self._currentAAIM = undefinedStateModel ∧
      (load simpleLoaded numberStateModel).2 = .ok true :=
  ⟨rfl, rfl, rfl, rfl, rfl, rfl, rfl, rfl⟩

/-- C34, evaluated: the model is accepted by `load`, `running = true` enters
its state `One`, which declares no `events`, and `executeEvent` then raises a
`TypeError` for every event name and leaves the interpreter as it is. -/
theorem executeEvent_raises_without_events :
    (load (World.new none) loneStateModel).2 = .ok true ∧
      (setRunning (load (World.new none) loneStateModel).1 (.bool true)).2 = .ok () ∧
      (setRunning (load (World.new none) loneStateModel).1
        (.bool true)).1.self._running = true ∧
      (setRunning (load (World.new none) loneStateModel).1
        (.bool true)).1.self._currentState = loneState ∧
      loneState.getProp "events" = .ok JSVal.undefined ∧
      ∀ (looseEq : JSVal → JSVal → Bool) (name : JSVal),
        executeEvent looseEq (setRunning (load (World.new none) loneStateModel).1 (.bool true)).1
            name
          = ((setRunning (load (World.new none) loneStateModel).1 (.bool true)).1,
              .error .typeError) :=
  ⟨rfl, rfl, rfl, rfl, rfl, fun _ _ => rfl⟩

/-- C35, evaluated: with `null` stored under `a`, the reference
`$\x7ba.b\x7d` makes `_resolveParameters` raise a `TypeError`, and so does
`$\x7bdeep.first.sec\x7d` when the property `first` of `deep` is `null`. A
reference to a key the context does not have resolves to `undefined`, and
`$\x7ba\x7d` to `null`. -/
theorem resolveParameters_raises_on_null :
    nullContext._data.get (.str "a") = JSVal.null ∧
      _resolveParameters nullContext [.str "$\x7ba.b\x7d"] = .error .typeError ∧
      _resolveParameters nullContext [.str "$\x7bdeep.first.sec\x7d"] = .error .typeError ∧
      _resolveParameters nullContext [.str "$\x7bmissing.b\x7d"] = .ok [.undefined] ∧
      _resolveParameters nullContext [.str "$\x7ba\x7d"] = .ok [.null] :=
  ⟨rfl, rfl, rfl, rfl, rfl⟩

/-- C36, evaluated: `executeState(undefined)` raises a `TypeError` on every
`AAIMBehavior`. With an `AAIMBehavior` as coordinator, whatever its state,
the assignment `running = true` that enters the state `One`, which has no
`do`, raises that error, and so does the event `go` that enters the state
`Quiet`; the interpreter is left running in the state entered. -/
theorem entering_state_without_do_raises :
    (∀ self : AAIMBehavior, ∃ e, executeState self JSVal.undefined = .error e) ∧
    (∀ state : List CallRecord → AAIMBehavior,
      (load (World.new (some (AAIMBehavior.asBehavior state))) loneStateModel).2 = .ok true ∧
      loneState.getProp "do" = .ok JSVal.undefined ∧
      (setRunning (load (World.new (some (AAIMBehavior.asBehavior state))) loneStateModel).1
        (.bool true)).2 = .error .typeError ∧
      (setRunning (load (World.new (some (AAIMBehavior.asBehavior state))) loneStateModel).1
        (.bool true)).1.self._running = true ∧
      (setRunning (load (World.new (some (AAIMBehavior.asBehavior state))) loneStateModel).1
        (.bool true)).1.self._currentState = loneState) ∧
    (load (World.new (some (AAIMBehavior.asBehavior fun _ => withDefault)))
        silentTargetModel).2 = .ok true ∧
    (setRunning (load (World.new (some (AAIMBehavior.asBehavior fun _ => withDefault)))
        silentTargetModel).1 (.bool true)).2 = .ok () ∧
    (setRunning (load (World.new (some (AAIMBehavior.asBehavior fun _ => withDefault)))
        silentTargetModel).1 (.bool true)).1.self._currentState = startState ∧
    (executeEvent strictEq
        (setRunning (load (World.new (some (AAIMBehavior.asBehavior fun _ => withDefault)))
          silentTargetModel).1 (.bool true)).1 (.str "go")).2 = .error .typeError ∧
    (executeEvent strictEq
        (setRunning (load (World.new (some (AAIMBehavior.asBehavior fun _ => withDefault)))
          silentTargetModel).1 (.bool true)).1 (.str "go")).1.self._currentState
      = quietState ∧
    (executeEvent strictEq
        (setRunning (load (World.new (some (AAIMBehavior.asBehavior fun _ => withDefault)))
          silentTargetModel).1 (.bool true)).1 (.str "go")).1.self._running = true :=
  ⟨fun _ => ⟨_, rfl⟩, fun _ => ⟨rfl, rfl, rfl, rfl, rfl⟩, rfl, rfl, rfl, rfl, rfl, rfl⟩

end MyUI
